import Mathlib

/-!
Multi2Sim x86 OpenCL runtime: work-group execution engine.

A shallow embedding of `runtime/opencl/x86-device.c`: the work-group dispatcher
(`opencl_x86_device_get_next_work_group`), the cooperative fiber scheduler
(`opencl_x86_device_work_group_launch`, `opencl_x86_device_barrier`,
`opencl_x86_device_exit_fiber`), the stack-mask lookup of the work-group control block,
the work-item identifiers, the host/device memory transfers, the completion
signalling of the workers, the fiber primitives on the machine state
(`opencl_x86_device_switch_fiber`, `opencl_x86_device_make_fiber`,
`opencl_x86_device_make_fiber_ex`), the per-group setup
(`opencl_x86_device_work_group_init`), the CPU discovery and the worker procedure
(`opencl_x86_device_has_work`, `opencl_x86_device_core_func`).

Two further units follow: the Southern Islands buffer-descriptor builder
(`Emu::createBufferDesc` of `arch/southern-islands/emu/Emu.cc`) and the occupancy
calculator (`gpu_calc_get_work_groups_per_compute_unit` of `libgpuarch/calc.c`).

Machine integers are `Nat` or `Int` with explicit wrap-around; C arrays are functions
from the index; the definitions come first, the lemmas and theorems follow.
-/

namespace Multi2Sim

/-! ## Work-group dispatcher -/

/-- Reinterpretation of an integer as a 32-bit two's-complement C `int`. -/
def wrap_int (x : Int) : Int := (x + 2147483648) % 4294967296 - 2147483648

/-- The fields of `struct opencl_x86_device_exec_t` used by the dispatcher. -/
structure opencl_x86_device_exec_t where
  next_group : Int
  num_groups : Int
deriving DecidableEq, Repr

/-- Model of `opencl_x86_device_get_next_work_group`: under `exec->mutex`,
`val = exec->next_group++; return val`. -/
def opencl_x86_device_get_next_work_group (exec : opencl_x86_device_exec_t) :
    Int × opencl_x86_device_exec_t :=
  (exec.next_group, { exec with next_group := wrap_int (exec.next_group + 1) })

/-- State of the worker pool while one execution record is being drained. -/
structure Pool where
  exec : opencl_x86_device_exec_t
  /-- Workers that were returned a value `>= num_groups` and left the loop. -/
  left : List Nat
  /-- Every call so far, in serialisation order: the calling worker and the value
  returned. -/
  calls : List (Nat × Int)
  /-- Every `work_group_launch` so far: the worker and the group number. -/
  launched : List (Nat × Int)
deriving DecidableEq, Repr

/-- One iteration of the work-group loop of `opencl_x86_device_core_func`
run by worker `w`. -/
def core_func_group_step (w : Nat) (p : Pool) : Pool :=
  if w ∈ p.left then p
  else
    let r := opencl_x86_device_get_next_work_group p.exec
    if r.1 ≥ r.2.num_groups then
      { exec := r.2, left := w :: p.left, calls := p.calls ++ [(w, r.1)],
        launched := p.launched }
    else
      { exec := r.2, left := p.left, calls := p.calls ++ [(w, r.1)],
        launched := p.launched ++ [(w, r.1)] }

/-- A serialisation of the workers' loop iterations: `sched` lists, in order, the worker
that makes the next call. -/
def core_func_group_loop (sched : List Nat) (p : Pool) : Pool :=
  sched.foldl (fun q w => core_func_group_step w q) p

/-- The pool when a record with `next_group = 0` is published and no call has been
made. -/
def Pool.init (num_groups : Int) : Pool :=
  { exec := { next_group := 0, num_groups := num_groups }, left := [], calls := [],
    launched := [] }

/-- Number of groups that worker `w` has launched. -/
def groups_launched (w : Nat) (p : Pool) : Nat :=
  p.launched.countP (fun c => c.1 == w)

/-- Invariant of the pool while draining a record with `N` groups. -/
structure PoolInv (N : Int) (workers : List Nat) (p : Pool) : Prop where
  hN : p.exec.num_groups = N
  hnext : p.exec.next_group = (p.calls.length : Int)
  hcalls : p.calls.map Prod.snd = (List.range p.calls.length).map Int.ofNat
  hnodup : p.left.Nodup
  hsub : ∀ w ∈ p.left, w ∈ workers
  hlen : p.calls.length = p.launched.length + p.left.length
  hlaunched : p.launched.map Prod.snd = (List.range p.launched.length).map Int.ofNat
  hle : (p.launched.length : Int) ≤ N
  hfull : p.left ≠ [] → (p.launched.length : Int) = N
  hmem : ∀ c ∈ p.launched, c.1 ∈ workers


/-! ## Cooperative fiber scheduler

The kernel run by every work-item is abstracted to its synchronisation skeleton: `b`
barrier calls followed by a return into the exit trampoline. -/

/-- The `(esp, eip)` pair saved in a `struct opencl_x86_device_fiber_t`: `item` is the
work-item whose stack `esp` points into, `pos` the number of barrier calls after which
`eip` resumes (0 is the kernel entry set by `make_fiber_ex`). -/
structure fiber_context_t where
  item : Nat
  pos : Nat
deriving DecidableEq, Repr

/-- Program points of `opencl_x86_device_work_group_launch` inside its dispatch loop. -/
inductive MainPC where
  /-- About to test `num_items > num_done`. -/
  | while_test
  /-- About to test `current_item < num_items`. -/
  | for_test
  /-- Returning from `switch_fiber`, about to run `current_item++`. -/
  | after_switch
deriving DecidableEq, Repr

/-- The context that owns the processor. -/
inductive Running where
  /-- The worker's main fiber, at program point `pc`. -/
  | main (pc : MainPC)
  /-- Work-item `i`, about to run the code after its `pos`-th barrier call. -/
  | item (i : Nat) (pos : Nat)
deriving DecidableEq, Repr

/-- Observable events of a work-group run. -/
inductive Event where
  /-- A `switch_fiber` loads the saved context of work-item `i`. -/
  | resume (i : Nat)
  /-- Work-item `i` executes the code that follows its `k`-th barrier call (`k = 0`:
  the code from the kernel entry). -/
  | run (i : Nat) (k : Nat)
  /-- Work-item `i` makes its `k`-th barrier call. -/
  | barrier (i : Nat) (k : Nat)
  /-- Work-item `i` returns into `opencl_x86_device_exit_fiber`. -/
  | exit (i : Nat)
deriving DecidableEq, Repr

/-- The scheduling fields of `struct opencl_x86_device_core_t`. -/
structure opencl_x86_device_core_t where
  num_items : Nat
  num_done : Nat
  current_item : Nat
  work_fibers : Nat → fiber_context_t
  main_fiber : MainPC

/-- A worker thread in the middle of `opencl_x86_device_work_group_launch`. -/
structure Launch where
  core : opencl_x86_device_core_t
  running : Running
  trace : List Event

/-- Store into `work_fibers[slot]`. -/
def set_fiber (fibers : Nat → fiber_context_t) (slot : Nat)
    (ctx : fiber_context_t) : Nat → fiber_context_t :=
  fun j => if j = slot then ctx else fibers j

/-- Model of `opencl_x86_device_barrier` called by work-item `i` as its `(k+1)`-th
barrier: `sleep_fiber = work_fibers + current_item`, the cursor advances modulo `num_items`,
and `switch_fiber(sleep_fiber, resume_fiber, NULL)` saves the caller there and loads
the fiber under the new cursor. -/
def opencl_x86_device_barrier (i k : Nat) (m : Launch) : Launch :=
  let sleep := m.core.current_item
  let wake := (m.core.current_item + 1) % m.core.num_items
  let fibers := set_fiber m.core.work_fibers sleep ⟨i, k + 1⟩
  let dest := fibers wake
  { core := { m.core with current_item := wake, work_fibers := fibers },
    running := Running.item dest.item dest.pos,
    trace := m.trace ++ [Event.barrier i (k + 1)] ++ [Event.resume dest.item] }

/-- Model of `opencl_x86_device_exit_fiber` reached by work-item `i`: `num_done++`,
then jump to the saved main-fiber context. -/
def opencl_x86_device_exit_fiber (i : Nat) (m : Launch) : Launch :=
  { core := { m.core with num_done := m.core.num_done + 1 },
    running := Running.main m.core.main_fiber,
    trace := m.trace ++ [Event.exit i] }

/-- One transition of the dispatch loop of `opencl_x86_device_work_group_launch`
interleaved with the fibers it drives; `none` when the `while` loop has ended. -/
def launch_step (b : Nat) (m : Launch) : Option Launch :=
  match m.running with
  | Running.main MainPC.while_test =>
    if m.core.num_items > m.core.num_done then
      some { m with core := { m.core with current_item := 0 },
                    running := Running.main MainPC.for_test }
    else none
  | Running.main MainPC.for_test =>
    if m.core.current_item < m.core.num_items then
      let dest := m.core.work_fibers m.core.current_item
      some { core := { m.core with main_fiber := MainPC.after_switch },
             running := Running.item dest.item dest.pos,
             trace := m.trace ++ [Event.resume dest.item] }
    else some { m with running := Running.main MainPC.while_test }
  | Running.main MainPC.after_switch =>
    some { m with core := { m.core with current_item := m.core.current_item + 1 },
                  running := Running.main MainPC.for_test }
  | Running.item i k =>
    let m1 := { m with trace := m.trace ++ [Event.run i k] }
    if k < b then some (opencl_x86_device_barrier i k m1)
    else some (opencl_x86_device_exit_fiber i m1)

/-- Iterate `launch_step` until the loop ends or the fuel runs out. -/
def launch_run (b : Nat) : Nat → Launch → Launch
  | 0, m => m
  | fuel + 1, m =>
    match launch_step b m with
    | none => m
    | some m1 => launch_run b fuel m1

/-- State on entry to the dispatch loop: `num_done = 0` and every fiber `i < num_items`
rebuilt by `make_fiber_ex` on its own stack at the kernel entry; the other slots and the
main-fiber slot keep whatever `old` held. -/
def launch_init (num_items : Nat) (old : opencl_x86_device_core_t) : Launch :=
  { core := { num_items := num_items, num_done := 0, current_item := old.current_item,
              work_fibers := fun j => if j < num_items then ⟨j, 0⟩ else old.work_fibers j,
              main_fiber := old.main_fiber },
    running := Running.main MainPC.while_test,
    trace := [] }

/-- The work-items resumed by `switch_fiber`, in order. -/
def resumes : List Event → List Nat
  | [] => []
  | Event.resume i :: rest => i :: resumes rest
  | _ :: rest => resumes rest

/-- An arbitrary stale control block, as left by a previous group. -/
def stale_core : opencl_x86_device_core_t :=
  { num_items := 7, num_done := 7, current_item := 7,
    work_fibers := fun j => ⟨j + 3, 5⟩, main_fiber := MainPC.while_test }

/-- Barrier ordering on a trace: whenever a work-item runs the code after its `k`-th
barrier call (`k ≥ 1`), each of the `n` work-items made its `k`-th call earlier. -/
def BarrierOrder (n : Nat) (tr : List Event) : Prop :=
  ∀ t i k : Nat, 1 ≤ k → tr[t]? = some (Event.run i k) →
    ∀ j : Nat, j < n → ∃ u : Nat, u < t ∧ tr[u]? = some (Event.barrier j k)

/-- The round-robin sequence `0, 1, .., n-1, 0, 1, ..` of length `r`. -/
def round_robin (n r : Nat) : List Nat := (List.range r).map (fun t => t % n)

/-- Control-dependent part of the scheduler invariant for `n` items with `b` barriers. -/
def LaunchShape (n b : Nat) (m : Launch) : Prop :=
  match m.running with
  | Running.main MainPC.while_test =>
    (m.core.num_done = 0 ∧ m.trace = [] ∧ ∀ j, j < n → (m.core.work_fibers j).pos = 0) ∨
    (m.core.num_done = n ∧ (∀ j, j < n → (m.core.work_fibers j).pos = b) ∧
      resumes m.trace = round_robin n (b * n + n))
  | Running.main MainPC.for_test =>
    (m.core.num_done = 0 ∧ m.core.current_item = 0 ∧ m.trace = [] ∧
      ∀ j, j < n → (m.core.work_fibers j).pos = 0) ∨
    (1 ≤ m.core.current_item ∧ m.core.current_item ≤ n ∧
      m.core.num_done = m.core.current_item ∧
      m.core.main_fiber = MainPC.after_switch ∧
      (∀ j, j < n → (m.core.work_fibers j).pos = b) ∧
      resumes m.trace = round_robin n (b * n + m.core.current_item))
  | Running.main MainPC.after_switch =>
    m.core.current_item < n ∧ m.core.num_done = m.core.current_item + 1 ∧
      m.core.main_fiber = MainPC.after_switch ∧
      (∀ j, j < n → (m.core.work_fibers j).pos = b) ∧
      resumes m.trace = round_robin n (b * n + m.core.current_item + 1)
  | Running.item i k =>
    i < n ∧ m.core.current_item = i ∧ k ≤ b ∧
      m.core.main_fiber = MainPC.after_switch ∧
      (∀ j, j < n → i ≤ j → (m.core.work_fibers j).pos = k) ∧
      (k < b → m.core.num_done = 0 ∧ ∀ j, j < i → (m.core.work_fibers j).pos = k + 1) ∧
      (k = b → m.core.num_done = i ∧ ∀ j, j < i → (m.core.work_fibers j).pos = b) ∧
      resumes m.trace = round_robin n (k * n + i + 1)

/-- Invariant of the dispatch loop for a group of `n` items that each make `b` barrier
calls. -/
structure LaunchInv (n b : Nat) (m : Launch) : Prop where
  hn : m.core.num_items = n
  hslot : ∀ j, j < n → (m.core.work_fibers j).item = j
  hshape : LaunchShape n b m
  horder : BarrierOrder n m.trace
  hcalls : ∀ j k, j < n → 1 ≤ k → k ≤ (m.core.work_fibers j).pos →
    Event.barrier j k ∈ m.trace
  hexit : ∀ j, m.trace.count (Event.exit j) = if j < m.core.num_done then 1 else 0
  hruns : ∀ j k, j < n → (k < (m.core.work_fibers j).pos ∨ (k = b ∧ j < m.core.num_done)) →
    Event.run j k ∈ m.trace

/-- Upper bound on the number of transitions left, used to show that the loop ends. -/
def launch_measure (b : Nat) (m : Launch) : Nat :=
  match m.running with
  | Running.main MainPC.while_test =>
    if m.core.num_done < m.core.num_items then 3 * b * m.core.num_items
      + 3 * m.core.num_items + 3 else 0
  | Running.main MainPC.for_test =>
    if m.core.num_done = 0 then 3 * b * m.core.num_items + 3 * m.core.num_items + 2
    else 3 * (m.core.num_items - m.core.current_item) + 2
  | Running.main MainPC.after_switch => 3 * (m.core.num_items - m.core.current_item)
  | Running.item i k => 3 * (b - k) * m.core.num_items + 3 * (m.core.num_items - i) + 1

/-! ## Stack layout and the stack-mask lookup -/

/-- Alignment of local-memory allocations. -/
def OPENCL_WORK_GROUP_STACK_ALIGN : Nat := 16
/-- Size of one fiber's stack slot. -/
def OPENCL_WORK_GROUP_STACK_SIZE : Nat := 0x00002000
/-- Mask clearing the offset inside a stack slot. -/
def OPENCL_WORK_GROUP_STACK_MASK : Nat := 0xffffe000
/-- Offset of the control-block pointer from the end of a stack slot. -/
def OPENCL_WORK_GROUP_DATA_OFFSET : Int := -0x60

/-- Address read by `opencl_x86_device_get_work_group_data` when `%esp = sp`, in 32-bit
registers: `lea 0x2000(%esp), %eax`, `and $0xffffe000, %eax`, then the operand
`-0x60(%eax)` of the final `mov`. -/
def opencl_x86_device_get_work_group_data_addr (sp : Nat) : Nat :=
  let eax := (sp + OPENCL_WORK_GROUP_STACK_SIZE) % 4294967296
  let eax := eax &&& OPENCL_WORK_GROUP_STACK_MASK
  (((eax : Int) + OPENCL_WORK_GROUP_DATA_OFFSET) % 4294967296).toNat

/-- Stack fields that `opencl_x86_device_core_init` gives fiber `i`, together with
`work_item_data[i]`. -/
structure fiber_stack_t where
  stack_bottom : Nat
  stack_size : Nat
  work_item_data : Nat
deriving DecidableEq, Repr

/-- Body of the loop of `opencl_x86_device_core_init` for index `i`, on a slab starting
at `aligned_stacks`; `sizeof_work_item_data` is
`sizeof(struct opencl_x86_device_work_item_data_t)`. -/
def opencl_x86_device_core_init (aligned_stacks sizeof_work_item_data i : Nat) :
    fiber_stack_t :=
  let stack_bottom := aligned_stacks + i * OPENCL_WORK_GROUP_STACK_SIZE
  let stack_size := OPENCL_WORK_GROUP_STACK_SIZE - sizeof_work_item_data
  { stack_bottom := stack_bottom, stack_size := stack_size,
    work_item_data := stack_bottom + stack_size }

/-! ## Work-item identifiers -/

/-- Value of an `unsigned int` expression. -/
def u32 (x : Nat) : Nat := x % 4294967296

/-- Loop of `opencl_nd_address`: `k` iterations left, `i` the current dimension. -/
def nd_address_loop (size : Nat → Nat) : Nat → Nat → Nat → (Nat → Nat) → (Nat → Nat)
  | 0, _, _, pos => pos
  | k + 1, i, addr, pos =>
    nd_address_loop size k (i + 1) (addr / size i)
      (fun j => if j = i then addr % size i else pos j)

/-- Modelled from the spec: `opencl_nd_address(dim, addr, size, pos)`, which
`work_group_launch` calls but whose body is outside the sources at hand. Following the
decomposition of a linear index over the extents described in section 4.3, dimension 0
varies fastest: `pos[i] = addr % size[i]; addr /= size[i]` for `i < dim`; the other
entries of `pos` are not written. -/
def opencl_nd_address (dim addr : Nat) (size pos : Nat → Nat) : Nat → Nat :=
  nd_address_loop size dim 0 addr pos

/-- The fields of `struct opencl_x86_ndrange_t` read by the launcher. -/
structure opencl_x86_ndrange_t where
  work_dim : Nat
  global_work_offset : Nat → Nat
  global_work_size : Nat → Nat
  local_work_size : Nat → Nat

/-- The fields of the execution record read by `work_group_launch` for the ids. -/
structure exec_ids_t where
  ndrange : opencl_x86_ndrange_t
  work_group_start : Nat → Nat
  work_group_count : Nat → Nat

/-- The id vectors of `struct opencl_x86_device_work_item_data_t`. -/
structure opencl_x86_device_work_item_data_t where
  global_id : Nat → Nat
  group_global : Nat → Nat
  group_id : Nat → Nat

/-- Array `group_id` in `work_group_launch`: `{0, 0, 0}` overwritten by
`opencl_nd_address(nd->work_dim, num, exec->work_group_count, group_id)`. -/
def launch_group_id (e : exec_ids_t) (num : Nat) : Nat → Nat :=
  opencl_nd_address e.ndrange.work_dim num e.work_group_count (fun _ => 0)

/-- Array `group_global` in `work_group_launch`: for `i < 3`,
`(group_id[i] + exec->work_group_start[i]) * local_size[i] + nd->global_work_offset[i]`
in `unsigned int`. -/
def launch_group_global (e : exec_ids_t) (num : Nat) : Nat → Nat :=
  fun i =>
    if i < 3 then
      u32 ((launch_group_id e num i + e.work_group_start i) * e.ndrange.local_work_size i
        + e.ndrange.global_work_offset i)
    else 0

/-- State of the per-item initialisation loop of `work_group_launch`: the array
`local_id`, declared outside the loop, and the items' metadata blocks. -/
structure launch_ids_state where
  local_id : Nat → Nat
  work_item_data : Nat → opencl_x86_device_work_item_data_t

/-- Body of the loop "Initialize stuff that changes per work group" for item `i`. -/
def launch_ids_body (e : exec_ids_t) (num i : Nat) (s : launch_ids_state) :
    launch_ids_state :=
  let local_id := opencl_nd_address e.ndrange.work_dim i e.ndrange.local_work_size s.local_id
  let old := s.work_item_data i
  let item : opencl_x86_device_work_item_data_t :=
    { global_id := fun j =>
        if j < 3 then u32 (launch_group_global e num j + local_id j) else old.global_id j,
      group_global := fun j =>
        if j < 3 then launch_group_global e num j else old.group_global j,
      group_id := fun j => if j < 3 then launch_group_id e num j else old.group_id j }
  { local_id := local_id,
    work_item_data := fun x => if x = i then item else s.work_item_data x }

/-- The per-group initialisation of `work_group_launch` for group `num` over
`num_items` items, starting from metadata blocks `data`. -/
def work_group_launch_ids (e : exec_ids_t) (num num_items : Nat)
    (data : Nat → opencl_x86_device_work_item_data_t) :
    Nat → opencl_x86_device_work_item_data_t :=
  ((List.range num_items).foldl (fun s i => launch_ids_body e num i s)
    { local_id := fun _ => 0, work_item_data := data }).work_item_data

/-- Product of the first `dim` extents: the number of points of an index space. -/
def nd_size (size : Nat → Nat) : Nat → Nat
  | 0 => 1
  | d + 1 => nd_size size d * size d

/-- The linear index after the divisions of the first `j` iterations of
`opencl_nd_address`. -/
def nd_div (size : Nat → Nat) : Nat → Nat → Nat
  | 0, addr => addr
  | j + 1, addr => nd_div size j addr / size j

/-- Linear index of the point `x` of an index space with extents `size`. -/
def nd_encode (size x : Nat → Nat) : Nat → Nat
  | 0 => 0
  | d + 1 => nd_encode size x d + x d * nd_size size d

/-- Metadata blocks with arbitrary previous contents. -/
def stale_items : Nat → opencl_x86_device_work_item_data_t :=
  fun i => { global_id := fun j => i + j, group_global := fun _ => 9, group_id := fun _ => 7 }

/-- NDRange of scenario S5: global (4,4), local (2,2), no offset. -/
def exec_s5 : exec_ids_t :=
  { ndrange := { work_dim := 2, global_work_offset := fun _ => 0,
                 global_work_size := fun j => if j < 2 then 4 else 1,
                 local_work_size := fun j => if j < 2 then 2 else 1 },
    work_group_start := fun _ => 0,
    work_group_count := fun j => if j < 2 then 2 else 1 }

/-- NDRange of scenario S1: global (8), local (4), no offset. -/
def exec_s1 : exec_ids_t :=
  { ndrange := { work_dim := 1, global_work_offset := fun _ => 0,
                 global_work_size := fun j => if j < 1 then 8 else 1,
                 local_work_size := fun j => if j < 1 then 4 else 1 },
    work_group_start := fun _ => 0,
    work_group_count := fun j => if j < 1 then 2 else 1 }

/-! ## Host/device memory transfers -/

/-- Byte-addressed memory. -/
abbrev Mem := Nat → Nat

/-- Byte loop of a forward copy: `dst[k] = src[k]` for `k = 0, .., n-1`, each read
taken from the memory as it then is. -/
def memcpy_bytes (mem : Mem) (dst src : Nat) : Nat → Mem
  | 0 => mem
  | n + 1 =>
    fun a =>
      if a = dst + n then memcpy_bytes mem dst src n (src + n)
      else memcpy_bytes mem dst src n a

/-- The C library `memcpy(dst, src, n)`: copies `n` bytes; when the two ranges overlap
the behaviour is undefined and no result is given. -/
def memcpy (mem : Mem) (dst src n : Nat) : Option Mem :=
  if dst < src + n ∧ src < dst + n then none else some (memcpy_bytes mem dst src n)

/-- Model of `opencl_x86_device_mem_read`: `memcpy(host_ptr, device_ptr, size)`. -/
def opencl_x86_device_mem_read (mem : Mem) (host_ptr device_ptr size : Nat) : Option Mem :=
  memcpy mem host_ptr device_ptr size

/-- Model of `opencl_x86_device_mem_write`: `memcpy(device_ptr, host_ptr, size)`. -/
def opencl_x86_device_mem_write (mem : Mem) (device_ptr host_ptr size : Nat) : Option Mem :=
  memcpy mem device_ptr host_ptr size

/-- Model of `opencl_x86_device_mem_copy`: `memcpy(device_dest_ptr, device_src_ptr, size)`. -/
def opencl_x86_device_mem_copy (mem : Mem) (device_dest_ptr device_src_ptr size : Nat) :
    Option Mem :=
  memcpy mem device_dest_ptr device_src_ptr size

/-- Specification of `memmove(dst, src, n)` in the words of the claim: afterwards the
`n` destination bytes equal the `n` source bytes as they were before the call, and no
other byte changes. -/
def memmove_spec (mem : Mem) (dst src n : Nat) : Mem :=
  fun a => if dst ≤ a ∧ a < dst + n then mem (src + (a - dst)) else mem a

/-! ## Completion signalling of a worker -/

/-- The counters of `struct opencl_x86_device_t`. -/
structure opencl_x86_device_t where
  num_cores : Int
  num_kernels : Int
  num_done : Int
deriving DecidableEq, Repr

/-- Calls a worker makes on the device's mutex and condition variables. -/
inductive SyncCall where
  | lock
  | unlock
  | wait_ready
  | signal_done
deriving DecidableEq, Repr

/-- End of one iteration of the kernel loop of `opencl_x86_device_core_func` ("Lock
again"): `pthread_mutex_lock`, `device->num_done++`, the `if` whose body is the empty
statement, then `pthread_cond_signal(&device->done)`. -/
def core_func_kernel_done (device : opencl_x86_device_t) :
    opencl_x86_device_t × List SyncCall :=
  let device1 := { device with num_done := wrap_int (device.num_done + 1) }
  let if_body : List SyncCall := if device1.num_done = device1.num_cores then [] else []
  (device1, [SyncCall.lock] ++ if_body ++ [SyncCall.signal_done])

/-! ## Work-group size -/

/-- Value of `num_items` as computed by `opencl_x86_device_work_group_init`:
`num_items = 1; for (i = 0; i < nd->work_dim; i++) num_items *= local_work_size[i]`,
in a C `int`. -/
def work_group_init_num_items (nd : opencl_x86_ndrange_t) : Int :=
  (List.range nd.work_dim).foldl
    (fun num_items i => wrap_int (num_items * (nd.local_work_size i : Int))) 1

/-- The indices `i` of the loops `for (i = 0; i < work_group->num_items; i++)` of
`work_group_init` and `work_group_launch`. -/
def work_group_item_indices (nd : opencl_x86_ndrange_t) : List Nat :=
  List.range (work_group_init_num_items nd).toNat

/-- A one-dimensional NDRange with local size `n`. -/
def ndrange_1d (n : Nat) : opencl_x86_ndrange_t :=
  { work_dim := 1, global_work_offset := fun _ => 0, global_work_size := fun _ => n,
    local_work_size := fun _ => n }

/-! ## Fiber primitives on the machine state -/

/-- The fields of `struct opencl_x86_device_fiber_t`. -/
structure opencl_x86_device_fiber_t where
  esp : Nat
  eip : Nat
  stack_bottom : Nat
  stack_size : Nat
deriving DecidableEq, Repr

/-- The scalar fields of a `struct opencl_x86_device_core_t` lying in memory;
`main_fiber` is the address of the embedded main-fiber descriptor and `work_fibers` the
pointer to the array of work-item fibers. -/
structure work_group_data_t where
  num_items : Int
  num_done : Int
  current_item : Int
  main_fiber : Nat
  work_fibers : Nat
deriving DecidableEq, Repr

/-- The part of the 32-bit machine state that the fiber primitives touch. -/
structure Machine where
  /-- Stack pointer. -/
  esp : Nat
  /-- Program counter. -/
  eip : Nat
  /-- Fiber descriptors, by address. -/
  fibers : Nat → opencl_x86_device_fiber_t
  /-- Work-group control blocks, by address. -/
  cores : Nat → work_group_data_t
  /-- The 32-bit word stored at a byte address of the data memory. -/
  load32 : Nat → Nat

/-- The two fatal errors of `opencl_x86_device_switch_fiber`. -/
inductive Panic where
  /-- First `panic`: the register block is not aligned. -/
  | reg_values_not_aligned
  /-- Second `panic`: a null fiber pointer. -/
  | current_or_dest_null
deriving DecidableEq, Repr

/-- A 32-bit pointer value obtained from integer pointer arithmetic. -/
def ptr32 (x : Int) : Nat := (x % 4294967296).toNat

/-- Model of `opencl_x86_device_switch_fiber(current, dest, reg_values)`: the two
checks, then the assembly block, which (after seven pushes and `sub $0x80, %esp`) stores
`%esp` in `current->esp` and the address `ret` of its label 2 in `current->eip`, and
loads `%esp` and the jump target from `dest`. Register contents are not modelled. -/
def opencl_x86_device_switch_fiber (m : Machine) (ret current dest reg_values : Nat) :
    Except Panic Machine :=
  if Int.tmod (wrap_int (reg_values : Int)) 16 ≠ 0 then
    Except.error Panic.reg_values_not_aligned
  else if current = 0 ∨ dest = 0 then
    Except.error Panic.current_or_dest_null
  else
    let saved : opencl_x86_device_fiber_t :=
      { m.fibers current with esp := ptr32 ((m.esp : Int) - 0x1c - 0x80), eip := ret }
    let fibers := fun a => if a = current then saved else m.fibers a
    Except.ok { m with fibers := fibers, esp := (fibers dest).esp, eip := (fibers dest).eip }

/-- Model of `opencl_x86_device_exit_fiber` on the machine state: the control block is
found through the stack-mask lookup, `num_done++`, then `%esp` and the jump target are
taken from the block's main fiber. -/
def opencl_x86_device_exit_fiber_mem (m : Machine) : Machine :=
  let workgroup_data := m.load32 (opencl_x86_device_get_work_group_data_addr m.esp)
  let block := m.cores workgroup_data
  let block1 := { block with num_done := wrap_int (block.num_done + 1) }
  let new_esp := (m.fibers block1.main_fiber).esp
  let new_eip := (m.fibers block1.main_fiber).eip
  { m with cores := fun a => if a = workgroup_data then block1 else m.cores a,
           esp := new_esp, eip := new_eip }

/-- Model of `opencl_x86_device_barrier` on the machine state; `sizeof_fiber` is
`sizeof(struct opencl_x86_device_fiber_t)` and `ret` the return label of
`switch_fiber`. -/
def opencl_x86_device_barrier_mem (m : Machine) (sizeof_fiber ret : Nat) :
    Except Panic Machine :=
  let workgroup_data := m.load32 (opencl_x86_device_get_work_group_data_addr m.esp)
  let block := m.cores workgroup_data
  let sleep_fiber := ptr32 ((block.work_fibers : Int) + block.current_item * sizeof_fiber)
  let current_item := Int.tmod (wrap_int (block.current_item + 1)) block.num_items
  let block1 := { block with current_item := current_item }
  let resume_fiber := ptr32 ((block1.work_fibers : Int) + block1.current_item * sizeof_fiber)
  opencl_x86_device_switch_fiber
    { m with cores := fun a => if a = workgroup_data then block1 else m.cores a }
    ret sleep_fiber resume_fiber 0

/-- A machine running work-item 3 of a slab at 0x10000 whose metadata names the
control block at 0x500; four fibers of 16 bytes at 0x9000. -/
def machine_example : Machine :=
  { esp := 0x17f00, eip := 0x8048000,
    fibers := fun a => { esp := a + 1, eip := a + 2, stack_bottom := 0, stack_size := 0 },
    cores := fun _ => { num_items := 4, num_done := 2, current_item := 3,
                        main_fiber := 0x520, work_fibers := 0x9000 },
    load32 := fun a => if a = 0x17fa0 then 0x500 else 0 }

/-! ## CPU discovery -/

/-- The delimiter set `"\n\t :"` passed to `strtok`. -/
def cpuinfo_delims : List Char := ['\n', '\t', ' ', ':']

/-- Membership in the delimiter set. -/
def is_delim (c : Char) : Bool := decide (c ∈ cpuinfo_delims)

/-- The key that `opencl_x86_device_get_num_cores` looks for. -/
def processor_key : List Char := ['p', 'r', 'o', 'c', 'e', 's', 's', 'o', 'r']

/-- The C string found at `s` after `strtok(s, "\n\t :")`: `strtok` skips the leading
delimiters, and when a token follows it overwrites the first delimiter after the token
with a NUL; when no token follows it writes nothing. A line is the list of its
characters before the terminating NUL. -/
def strtok_in_place (s : List Char) : List Char :=
  match s.dropWhile is_delim with
  | [] => s
  | c :: rest => s.takeWhile is_delim ++ (c :: rest).takeWhile (fun x => !is_delim x)

/-- Model of `opencl_x86_device_get_num_cores`; `lines` holds, in order, the strings
that the successive `fgets` calls store in `s`. The loop runs `strtok(s, ..)` and then
compares `s` itself with `"processor"`; `num_cores` is a C `int`. -/
def opencl_x86_device_get_num_cores (lines : List (List Char)) : Int :=
  lines.foldl
    (fun num_cores s =>
      if strtok_in_place s = processor_key then wrap_int (num_cores + 1) else num_cores)
    0

/-- The first token of a line, in the words of the claim: what lies between the
leading delimiters and the next delimiter. -/
def first_token (s : List Char) : List Char :=
  (s.dropWhile is_delim).takeWhile (fun x => !is_delim x)

/-- A `/proc/cpuinfo` line whose key is preceded by a blank. -/
def indented_processor_line : List Char :=
  [' ', 'p', 'r', 'o', 'c', 'e', 's', 's', 'o', 'r', '\t', ':', ' ', '0', '\n']

/-- A usual `/proc/cpuinfo` entry for a processor. -/
def processor_line : List Char :=
  ['p', 'r', 'o', 'c', 'e', 's', 's', 'o', 'r', '\t', ':', ' ', '0', '\n']

/-! ## Device worker -/

/-- The device as `opencl_x86_device_has_work` sees it at one evaluation of its loop
condition: the counters and the published execution record (0 is `NULL`). -/
structure device_view_t where
  counters : opencl_x86_device_t
  exec : Nat
deriving DecidableEq, Repr

/-- Model of `opencl_x86_device_has_work(device, &old_count)`; `views` lists the device
as found at each evaluation of `device->num_kernels == *old_count`, the first on entry
and the next ones after each return of `pthread_cond_wait`. The result is the new
`*old_count` and the returned `device->exec`; `none` while the call is still waiting. -/
def opencl_x86_device_has_work : List device_view_t → Int → Option (Int × Nat)
  | [], _ => none
  | d :: rest, old_count =>
    if d.counters.num_kernels = old_count then opencl_x86_device_has_work rest old_count
    else some (wrap_int (old_count + 1), d.exec)

/-- What one pass of the kernel loop of `opencl_x86_device_core_func` meets: the number
of `pthread_cond_wait` calls made inside `has_work` and the execution record it returns
(0 is `NULL`). -/
structure kernel_round_t where
  waits : Nat
  exec : Nat
deriving DecidableEq, Repr

/-- The kernel loop `for (;;)` of `opencl_x86_device_core_func`: the synchronisation
calls made over the given rounds and whether the loop was left by `break`. When the
rounds are used up the worker stays blocked in `has_work`. -/
def core_func_kernel_loop (device : opencl_x86_device_t) :
    List kernel_round_t → List SyncCall × Bool
  | [] => ([], false)
  | r :: rest =>
    let has_work := List.replicate r.waits SyncCall.wait_ready
    if r.exec = 0 then (has_work ++ [SyncCall.unlock], true)
    else
      let done := core_func_kernel_done device
      let next := core_func_kernel_loop done.1 rest
      (has_work ++ [SyncCall.unlock] ++ done.2 ++ next.1, next.2)

/-- Model of `opencl_x86_device_core_func`: `pthread_mutex_lock`, the kernel loop, and,
once the loop is left, the final `pthread_mutex_unlock`; the flag tells whether the
procedure returned. -/
def opencl_x86_device_core_func (device : opencl_x86_device_t)
    (rounds : List kernel_round_t) : List SyncCall × Bool :=
  let body := core_func_kernel_loop device rounds
  if body.2 then ([SyncCall.lock] ++ body.1 ++ [SyncCall.unlock], true)
  else ([SyncCall.lock] ++ body.1, false)

/-- Lock discipline of a worker on `device->lock`: starting from `held`, every
`lock` is made without the lock, every `unlock` and every wait on `ready` with it;
the result is whether the lock is held at the end, `none` when a call breaks the
discipline. -/
def lock_held_after : Bool → List SyncCall → Option Bool
  | held, [] => some held
  | held, SyncCall.lock :: rest => if held then none else lock_held_after true rest
  | held, SyncCall.unlock :: rest => if held then lock_held_after false rest else none
  | held, SyncCall.wait_ready :: rest => if held then lock_held_after true rest else none
  | held, SyncCall.signal_done :: rest => lock_held_after held rest

/-! ## Words in byte-addressed memory -/

/-- The 32-bit little-endian word stored at byte address `a`. -/
def read_word (mem : Mem) (a : Nat) : Nat :=
  mem a % 256 + 256 * (mem (a + 1) % 256) + 65536 * (mem (a + 2) % 256)
    + 16777216 * (mem (a + 3) % 256)

/-- Store of the 32-bit word `v` at byte address `a`, little-endian. -/
def write_word (mem : Mem) (a v : Nat) : Mem :=
  fun x =>
    if x = a then v % 256
    else if x = a + 1 then v / 256 % 256
    else if x = a + 2 then v / 65536 % 256
    else if x = a + 3 then v / 16777216 % 256
    else mem x

/-! ## Fiber construction -/

/-- Model of `opencl_x86_device_make_fiber_ex(fiber, fiber_func, return_func, arg_size,
args)` on a 32-bit machine (`sizeof(size_t) = 4`): `arg_size *= sizeof(size_t)` in an
`int`, the two assertions, the `memcpy` of the frame to the top of the stack, then
`eip`, `esp` and the store of `return_func` at `esp`. The result is `none` when an
assertion fails or the `memcpy` is undefined. -/
def opencl_x86_device_make_fiber_ex (mem : Mem) (fiber : opencl_x86_device_fiber_t)
    (fiber_func return_func : Nat) (arg_size : Int) (args : Nat) :
    Option (opencl_x86_device_fiber_t × Mem) :=
  let arg_size := wrap_int (arg_size * 4)
  if fiber.stack_bottom % 4 ≠ 0 ∨ fiber.stack_size % 4 ≠ 0 then none
  else
    match memcpy mem (ptr32 ((fiber.stack_bottom : Int) + fiber.stack_size - arg_size)) args
        (ptr32 arg_size) with
    | none => none
    | some mem1 =>
      let esp := ptr32 ((fiber.stack_bottom : Int) + fiber.stack_size - arg_size - 4)
      some ({ fiber with eip := fiber_func, esp := esp }, write_word mem1 esp return_func)

/-- The loop `for (i = 0; i < num_args; i++) stack_bottom[stack_words - num_args + i] =
params[i]` of `opencl_x86_device_make_fiber` after `k` iterations, on `int` arrays at
byte addresses `stack_bottom` and `params`. -/
def make_fiber_loop (stack_bottom params : Nat) (stack_words num_args : Int) :
    Nat → Mem → Mem
  | 0, mem => mem
  | k + 1, mem =>
    let mem1 := make_fiber_loop stack_bottom params stack_words num_args k mem
    write_word mem1 (ptr32 ((stack_bottom : Int) + 4 * (stack_words - num_args + k)))
      (read_word mem1 (params + 4 * k))

/-- Model of `opencl_x86_device_make_fiber(fiber, fiber_func, num_args, ...)` on a
32-bit machine; `num_args_addr` is the address of the parameter `num_args`, after
which the variadic arguments lie (`params = &num_args + 1`). The result is `none` when
an assertion fails. -/
def opencl_x86_device_make_fiber (mem : Mem) (fiber : opencl_x86_device_fiber_t)
    (fiber_func num_args_addr : Nat) (num_args : Int) :
    Option (opencl_x86_device_fiber_t × Mem) :=
  let params := num_args_addr + 4
  if params % 4 ≠ 0 ∨ fiber.stack_bottom % 4 ≠ 0 ∨ fiber.stack_size % 4 ≠ 0 then none
  else
    let stack_words : Int := ((fiber.stack_size / 4 : Nat) : Int)
    let stack_bottom := fiber.stack_bottom
    let mem1 := make_fiber_loop stack_bottom params stack_words num_args num_args.toNat mem
    let slot := ptr32 ((stack_bottom : Int) + 4 * (stack_words - num_args - 1))
    some ({ fiber with eip := fiber_func, esp := slot }, write_word mem1 slot 0)

/-- A memory whose byte at address `a` is `a mod 251`. -/
def mem_example : Mem := fun a => a % 251

/-- A fiber with a 64-byte stack at 0x1000. -/
def fiber_example : opencl_x86_device_fiber_t :=
  { esp := 0, eip := 0, stack_bottom := 0x1000, stack_size := 64 }

/-! ## Per-group setup -/

/-- One entry of `kernel->param_info`: whether `mem_arg_type` is
`OPENCL_X86_KERNEL_MEM_ARG_LOCAL`, and the `stack_offset`. -/
structure param_info_t where
  mem_arg_local : Bool
  stack_offset : Nat
deriving DecidableEq, Repr

/-- The fields of `struct opencl_x86_kernel_t` read by `work_group_init`. -/
structure opencl_x86_kernel_t where
  local_reserved_bytes : Nat
  stack_param_words : Nat
  num_params : Nat
  param_info : Nat → param_info_t

/-- The execution record as `work_group_init` reads it: the kernel, the NDRange and
the address `e->ndrange->stack_params` of the source argument frame. -/
structure init_exec_t where
  kernel : opencl_x86_kernel_t
  ndrange : opencl_x86_ndrange_t
  stack_params : Nat

/-- What the memory allocator answers to `work_group_init`: the blocks returned by its
two `xmalloc` calls (which do not return on failure) and, for the `posix_memalign` call
made for parameter `i`, the aligned block or `none` for an error code. -/
structure allocator_t where
  xmalloc_local_reserved : Nat
  xmalloc_stack_params : Nat
  posix_memalign : Nat → Option Nat

/-- A `posix_memalign` request made for a parameter. -/
structure alloc_request_t where
  param : Nat
  alignment : Nat
  size : Nat
deriving DecidableEq, Repr

/-- The fields that `opencl_x86_device_init_work_item` writes into a work-item's
metadata block after clearing it. -/
structure work_item_init_t where
  global_size : Nat → Nat
  local_size : Nat → Nat
  work_group_data : Nat
  barrier_func : Nat
  local_reserved : Nat
  work_dim : Nat

/-- Model of `opencl_x86_device_init_work_item`: sizes default to 1 in the four slots
and are overwritten for `i < dims`; `none` when `assert(dims > 0)` fails. -/
def opencl_x86_device_init_work_item (dims : Nat) (global loc : Nat → Nat)
    (work_group_data barrier_func local_reserved : Nat) : Option work_item_init_t :=
  if 0 < dims then
    some { global_size := fun i => if i < dims then global i else if i < 4 then 1 else 0,
           local_size := fun i => if i < dims then loc i else if i < 4 then 1 else 0,
           work_group_data := work_group_data,
           barrier_func := barrier_func,
           local_reserved := local_reserved,
           work_dim := dims }
  else none

/-- Body of the loop over the kernel parameters in `work_group_init`, for parameter
`i`: a local-memory parameter gets a `posix_memalign` block whose size is read from
the source frame and whose address is stored in the slot of the group's frame. -/
def init_local_param (e : init_exec_t) (alloc : allocator_t) (frame : Nat)
    (st : Mem × List alloc_request_t) (i : Nat) : Option (Mem × List alloc_request_t) :=
  if (e.kernel.param_info i).mem_arg_local then
    let offset := (e.kernel.param_info i).stack_offset
    let size := read_word st.1 (e.stack_params + 4 * offset)
    match alloc.posix_memalign i with
    | none => none
    | some ptr =>
      some (write_word st.1 (frame + 4 * offset) ptr,
        st.2 ++ [{ param := i, alignment := OPENCL_WORK_GROUP_STACK_ALIGN, size := size }])
  else some st

/-- The loop `for (i = 0; i < e->kernel->num_params; i++)` of `work_group_init` after
`k` iterations; `none` once `fatal` has been called. -/
def init_local_params (e : init_exec_t) (alloc : allocator_t) (frame : Nat) :
    Nat → Mem × List alloc_request_t → Option (Mem × List alloc_request_t)
  | 0, st => some st
  | k + 1, st =>
    match init_local_params e alloc frame k st with
    | none => none
    | some st1 => init_local_param e alloc frame st1 k

/-- The control block and the memory after `work_group_init`. -/
structure work_group_init_result where
  num_items : Int
  num_done : Int
  local_reserved : Nat
  work_item_data : Nat → Option work_item_init_t
  stack_params : Nat
  stack_params_bytes : Nat
  mem : Mem
  requests : List alloc_request_t

/-- Model of `opencl_x86_device_work_group_init(device, work_group, e)` on a 32-bit
machine; `work_group` and `barrier_func` are the addresses of the control block and of
the barrier indirection cell, and `max_work_group_size` is `X86_MAX_WORK_GROUP_SIZE`
(defined in a header outside the sources at hand), the number of entries of the array
`work_item_data` that `core_init` allocates. The result is `none` when the run does
not complete: the item loop reaches `work_item_data[i]` with `i` past the array, the
assertion of `init_work_item` fails, `memcpy` is undefined, or `fatal` is called. -/
def opencl_x86_device_work_group_init (max_work_group_size : Nat) (mem : Mem)
    (alloc : allocator_t) (work_group barrier_func : Nat) (e : init_exec_t) :
    Option work_group_init_result :=
  let num_items := work_group_init_num_items e.ndrange
  let local_reserved :=
    if e.kernel.local_reserved_bytes ≠ 0 then alloc.xmalloc_local_reserved else 0
  if 0 < num_items ∧ ¬ 0 < e.ndrange.work_dim then none
  else if (max_work_group_size : Int) < num_items then none
  else
    let stack_params := alloc.xmalloc_stack_params
    match memcpy mem stack_params e.stack_params (4 * e.kernel.stack_param_words) with
    | none => none
    | some mem1 =>
      match init_local_params e alloc stack_params e.kernel.num_params (mem1, []) with
      | none => none
      | some st =>
        some { num_items := num_items,
               num_done := 0,
               local_reserved := local_reserved,
               work_item_data := fun i =>
                 if (i : Int) < num_items then
                   opencl_x86_device_init_work_item e.ndrange.work_dim
                     e.ndrange.global_work_size e.ndrange.local_work_size work_group
                     barrier_func local_reserved
                 else none,
               stack_params := stack_params,
               stack_params_bytes := 4 * e.kernel.stack_param_words,
               mem := st.1,
               requests := st.2 }

/-- A kernel with three parameters in a frame of four words; the second one is a
local-memory parameter in word 2. -/
def kernel_example : opencl_x86_kernel_t :=
  { local_reserved_bytes := 0, stack_param_words := 4, num_params := 3,
    param_info := fun i => { mem_arg_local := decide (i = 1), stack_offset := if i = 1 then 2 else i } }

/-- An execution record for `kernel_example`: local size (4, 2), source frame at
0x3000. -/
def init_exec_example : init_exec_t :=
  { kernel := kernel_example,
    ndrange := { work_dim := 2, global_work_offset := fun _ => 0,
                 global_work_size := fun j => if j = 0 then 8 else 2,
                 local_work_size := fun j => if j = 0 then 4 else 2 },
    stack_params := 0x3000 }

/-- An allocator that places the group's frame at 0x4000 and local memory at
0x5000 + 0x100 i. -/
def allocator_example : allocator_t :=
  { xmalloc_local_reserved := 0x6000, xmalloc_stack_params := 0x4000,
    posix_memalign := fun i => some (0x5000 + 0x100 * i) }

/-- An execution record whose local sizes 65536 x 65536 multiply to 2^32. -/
def init_exec_overflow : init_exec_t :=
  { kernel := kernel_example,
    ndrange := { work_dim := 2, global_work_offset := fun _ => 0,
                 global_work_size := fun _ => 65536,
                 local_work_size := fun _ => 65536 },
    stack_params := 0x3000 }

/-- An execution record with `work_dim = 0`. -/
def init_exec_no_dim : init_exec_t :=
  { kernel := kernel_example,
    ndrange := { work_dim := 0, global_work_offset := fun _ => 0,
                 global_work_size := fun _ => 1,
                 local_work_size := fun _ => 1 },
    stack_params := 0x3000 }

/-- Invariant of the parameter loop of `work_group_init` after `k` iterations, from the
memory `mem1` that holds the copied frame. -/
structure InitFrameInv (e : init_exec_t) (alloc : allocator_t) (mem mem1 : Mem) (k : Nat)
    (st : Mem × List alloc_request_t) : Prop where
  houtside : ∀ x, x < alloc.xmalloc_stack_params ∨
      alloc.xmalloc_stack_params + 4 * e.kernel.stack_param_words ≤ x → st.1 x = mem1 x
  hkept : ∀ w, w < e.kernel.stack_param_words →
      (∀ i, i < k → (e.kernel.param_info i).mem_arg_local = true →
        (e.kernel.param_info i).stack_offset ≠ w) →
      read_word st.1 (alloc.xmalloc_stack_params + 4 * w)
        = read_word mem1 (alloc.xmalloc_stack_params + 4 * w)
  hslot : ∀ i, i < k → (e.kernel.param_info i).mem_arg_local = true →
      ∃ j p, j < k ∧ (e.kernel.param_info j).mem_arg_local = true ∧
        (e.kernel.param_info j).stack_offset = (e.kernel.param_info i).stack_offset ∧
        alloc.posix_memalign j = some p ∧
        read_word st.1 (alloc.xmalloc_stack_params + 4 * (e.kernel.param_info i).stack_offset)
          = p % 4294967296 ∧
        ({ param := j, alignment := 16,
           size := read_word mem (e.stack_params + 4 * (e.kernel.param_info i).stack_offset) }
          : alloc_request_t) ∈ st.2
  hreq : ∀ r, r ∈ st.2 → r.param < k ∧ (e.kernel.param_info r.param).mem_arg_local = true ∧
      r.alignment = 16 ∧
      r.size = read_word mem (e.stack_params + 4 * (e.kernel.param_info r.param).stack_offset)

/-! ### Southern Islands buffer descriptors (`Emu::createBufferDesc`)

`ArgDataType`, the two `BufDesc...` enumerations and `struct EmuBufferDesc` are declared
in headers outside this source tree.  The enumerations are embedded as inductive types
whose constructors are the enumerators that `createBufferDesc` names; the widths of the
descriptor's numeric fields and its size are parameters (`EmuBufferDescDecl`). -/

/-- Enumeration `ArgDataType`: the nine enumerators that are case labels of the outer
`switch`, and `Other` for every remaining value of the type. -/
inductive ArgDataType where
  | ArgDataTypeInt8
  | ArgDataTypeUInt8
  | ArgDataTypeInt16
  | ArgDataTypeUInt16
  | ArgDataTypeInt32
  | ArgDataTypeUInt32
  | ArgDataTypeFloat
  | ArgDataTypeDouble
  | ArgDataTypeStruct
  | Other (value : Int)
  deriving DecidableEq, Repr

/-- Enumerators of the number format that `createBufferDesc` names. -/
inductive BufDescNumFmt where
  | BufDescNumFmtInvalid
  | BufDescNumFmtSint
  | BufDescNumFmtFloat
  | BufDescNumFmtUint
  deriving DecidableEq, Repr

/-- Enumerators of the data format that `createBufferDesc` names. -/
inductive BufDescDataFmt where
  | BufDescDataFmtInvalid
  | BufDescDataFmt8
  | BufDescDataFmt8_8
  | BufDescDataFmt8_8_8_8
  | BufDescDataFmt16
  | BufDescDataFmt16_16
  | BufDescDataFmt16_16_16_16
  | BufDescDataFmt32
  | BufDescDataFmt32_32
  | BufDescDataFmt32_32_32
  | BufDescDataFmt32_32_32_32
  deriving DecidableEq, Repr

open ArgDataType BufDescNumFmt BufDescDataFmt

/-- Component widths, in bits, that the name of a data format spells out. -/
def BufDescDataFmt.components : BufDescDataFmt → List Nat
  | BufDescDataFmtInvalid => []
  | BufDescDataFmt8 => [8]
  | BufDescDataFmt8_8 => [8, 8]
  | BufDescDataFmt8_8_8_8 => [8, 8, 8, 8]
  | BufDescDataFmt16 => [16]
  | BufDescDataFmt16_16 => [16, 16]
  | BufDescDataFmt16_16_16_16 => [16, 16, 16, 16]
  | BufDescDataFmt32 => [32]
  | BufDescDataFmt32_32 => [32, 32]
  | BufDescDataFmt32_32_32 => [32, 32, 32]
  | BufDescDataFmt32_32_32_32 => [32, 32, 32, 32]

/-- Total bit width of a data format: the sum of its components. -/
def BufDescDataFmt.total_bits (f : BufDescDataFmt) : Nat := f.components.sum

/-- The `Error` objects thrown by `createBufferDesc`: the message names the element kind
and prints `num_elems`, or reports the data type. -/
inductive Error where
  | invalid_number_of_elements (kind : String) (num_elems : Int)
  | invalid_data_type (data_type : ArgDataType)
  deriving DecidableEq, Repr

/-- The fields of `struct EmuBufferDesc` that `createBufferDesc` assigns; `others` stands
for all the fields it never names.  `num_format` and `data_format` hold enumerators. -/
structure EmuBufferDesc where
  base_addr : Nat
  num_format : BufDescNumFmt
  data_format : BufDescDataFmt
  elem_size : Nat
  num_records : Nat
  others : Nat
  deriving DecidableEq, Repr

/-- What the declaration of `struct EmuBufferDesc` fixes and this function depends on:
`sizeof(EmuBufferDesc)` and the widths in bits of its unsigned numeric fields. -/
structure EmuBufferDescDecl where
  sizeof : Nat
  base_addr_bits : Nat
  elem_size_bits : Nat
  num_records_bits : Nat
  deriving DecidableEq, Repr

/-- How a call of `createBufferDesc` ends: it returns, it throws an `Error`, or one of
its `assert`s fails. -/
inductive Completion where
  | returned
  | thrown (e : Error)
  | assertion_failed
  deriving DecidableEq, Repr

/-- Conversion of an `int` to `unsigned`, as in `size % elem_size`. -/
def to_unsigned (x : Int) : Nat := (x % 4294967296).toNat

/-- The nested `switch` statements of `createBufferDesc`: the values of the locals
`num_format`, `data_format` and `elem_size` when control leaves the outer `switch`, or
the `Error` thrown inside it. -/
def createBufferDesc_switch (num_elems : Int) :
    ArgDataType → Except Error (BufDescNumFmt × BufDescDataFmt × Int)
  | ArgDataTypeInt8 | ArgDataTypeUInt8 =>
    if num_elems = 1 then .ok (BufDescNumFmtSint, BufDescDataFmt8, wrap_int (1 * num_elems))
    else if num_elems = 2 then
      .ok (BufDescNumFmtSint, BufDescDataFmt8_8, wrap_int (1 * num_elems))
    else if num_elems = 4 then
      .ok (BufDescNumFmtSint, BufDescDataFmt8_8_8_8, wrap_int (1 * num_elems))
    else .error (Error.invalid_number_of_elements "i8/u8" num_elems)
  | ArgDataTypeInt16 | ArgDataTypeUInt16 =>
    if num_elems = 1 then .ok (BufDescNumFmtSint, BufDescDataFmt16, wrap_int (2 * num_elems))
    else if num_elems = 2 then
      .ok (BufDescNumFmtSint, BufDescDataFmt16_16, wrap_int (2 * num_elems))
    else if num_elems = 4 then
      .ok (BufDescNumFmtSint, BufDescDataFmt16_16_16_16, wrap_int (2 * num_elems))
    else .error (Error.invalid_number_of_elements "i16/u16" num_elems)
  | ArgDataTypeInt32 | ArgDataTypeUInt32 =>
    if num_elems = 1 then .ok (BufDescNumFmtSint, BufDescDataFmt32, wrap_int (4 * num_elems))
    else if num_elems = 2 then
      .ok (BufDescNumFmtSint, BufDescDataFmt32_32, wrap_int (4 * num_elems))
    else if num_elems = 3 then
      .ok (BufDescNumFmtSint, BufDescDataFmt32_32_32, wrap_int (4 * num_elems))
    else if num_elems = 4 then
      .ok (BufDescNumFmtSint, BufDescDataFmt32_32_32_32, wrap_int (4 * num_elems))
    else .error (Error.invalid_number_of_elements "i32/u32" num_elems)
  | ArgDataTypeFloat =>
    if num_elems = 1 then .ok (BufDescNumFmtFloat, BufDescDataFmt32, wrap_int (4 * num_elems))
    else if num_elems = 2 then
      .ok (BufDescNumFmtFloat, BufDescDataFmt32_32, wrap_int (4 * num_elems))
    else if num_elems = 3 then
      .ok (BufDescNumFmtFloat, BufDescDataFmt32_32_32, wrap_int (4 * num_elems))
    else if num_elems = 4 then
      .ok (BufDescNumFmtFloat, BufDescDataFmt32_32_32_32, wrap_int (4 * num_elems))
    else .error (Error.invalid_number_of_elements "float" num_elems)
  | ArgDataTypeDouble =>
    if num_elems = 1 then
      .ok (BufDescNumFmtFloat, BufDescDataFmt32_32, wrap_int (8 * num_elems))
    else if num_elems = 2 then
      .ok (BufDescNumFmtFloat, BufDescDataFmt32_32_32_32, wrap_int (8 * num_elems))
    else .error (Error.invalid_number_of_elements "double" num_elems)
  | ArgDataTypeStruct => .ok (BufDescNumFmtUint, BufDescDataFmt8, 1)
  | Other value => .error (Error.invalid_data_type (Other value))

/-- Model of `Emu::createBufferDesc(base_addr, size, num_elems, data_type, buffer_desc)`:
how the call ends and the contents of `*buffer_desc` at that point.  The assignments to
the descriptor happen in source order, after the `switch`; a store into a numeric field
keeps the low bits that the field holds. -/
def createBufferDesc (decl : EmuBufferDescDecl) (base_addr size : Nat) (num_elems : Int)
    (data_type : ArgDataType) (buffer_desc : EmuBufferDesc) : Completion × EmuBufferDesc :=
  if decl.sizeof ≠ 16 then (Completion.assertion_failed, buffer_desc) else
  match createBufferDesc_switch num_elems data_type with
  | .error e => (Completion.thrown e, buffer_desc)
  | .ok (num_format, data_format, elem_size) =>
    if num_format = BufDescNumFmtInvalid then (Completion.assertion_failed, buffer_desc) else
    if data_format = BufDescDataFmtInvalid then (Completion.assertion_failed, buffer_desc) else
    let d1 := { buffer_desc with base_addr := base_addr % 2 ^ decl.base_addr_bits }
    let d2 := { d1 with num_format := num_format }
    let d3 := { d2 with data_format := data_format }
    if size % to_unsigned elem_size ≠ 0 then (Completion.assertion_failed, d3) else
    let d4 := { d3 with elem_size := to_unsigned elem_size % 2 ^ decl.elem_size_bits }
    let d5 := { d4 with
      num_records := (size / to_unsigned elem_size) % 2 ^ decl.num_records_bits }
    (Completion.returned, d5)

/-- A declaration of the descriptor with 16 bytes, a 48-bit base address, an 8-bit element
size and a 32-bit record count. -/
def decl_example : EmuBufferDescDecl :=
  { sizeof := 16, base_addr_bits := 48, elem_size_bits := 8, num_records_bits := 32 }

/-- A descriptor whose fields all hold stale values. -/
def buffer_desc_example : EmuBufferDesc :=
  { base_addr := 7, num_format := BufDescNumFmtInvalid, data_format := BufDescDataFmtInvalid,
    elem_size := 3, num_records := 9, others := 5 }

/-- The data types that the claim lists as valid. -/
def spec_data_types : List ArgDataType :=
  [ArgDataTypeInt8, ArgDataTypeUInt8, ArgDataTypeInt16, ArgDataTypeUInt16, ArgDataTypeInt32,
    ArgDataTypeUInt32, ArgDataTypeFloat, ArgDataTypeDouble, ArgDataTypeStruct]

/-- The element counts that the claim permits for each data type: 1, 2 or 4 for 8-bit and
16-bit integers; 1 to 4 for 32-bit integers and Float; 1 or 2 for Double; any value for
Struct. -/
def spec_num_elems_permitted : ArgDataType → Int → Prop
  | ArgDataTypeInt8, n | ArgDataTypeUInt8, n | ArgDataTypeInt16, n | ArgDataTypeUInt16, n =>
    n = 1 ∨ n = 2 ∨ n = 4
  | ArgDataTypeInt32, n | ArgDataTypeUInt32, n | ArgDataTypeFloat, n =>
    n = 1 ∨ n = 2 ∨ n = 3 ∨ n = 4
  | ArgDataTypeDouble, n => n = 1 ∨ n = 2
  | ArgDataTypeStruct, _ => True
  | Other _, _ => False

/-- The claim's condition for a throw: the data type is not listed, or the element count
is not permitted for it. -/
def spec_rejected (data_type : ArgDataType) (num_elems : Int) : Prop :=
  data_type ∉ spec_data_types ∨ ¬ spec_num_elems_permitted data_type num_elems

/-- Width in bytes that the claim gives each scalar data type. -/
def spec_width : ArgDataType → Int
  | ArgDataTypeInt8 | ArgDataTypeUInt8 => 1
  | ArgDataTypeInt16 | ArgDataTypeUInt16 => 2
  | ArgDataTypeInt32 | ArgDataTypeUInt32 | ArgDataTypeFloat => 4
  | ArgDataTypeDouble => 8
  | _ => 1

/-- Element size according to the claim: `width * num_elems`, and 1 for Struct. -/
def spec_elem_size (data_type : ArgDataType) (num_elems : Int) : Int :=
  if data_type = ArgDataTypeStruct then 1 else spec_width data_type * num_elems

/-- Number format according to the claim: Sint for the integer types, Float for Float
and Double, Uint for Struct. -/
def spec_num_format : ArgDataType → BufDescNumFmt
  | ArgDataTypeFloat | ArgDataTypeDouble => BufDescNumFmtFloat
  | ArgDataTypeStruct => BufDescNumFmtUint
  | Other _ => BufDescNumFmtInvalid
  | _ => BufDescNumFmtSint

/-! ### Occupancy calculator (`gpu_calc_get_work_groups_per_compute_unit`)

The configuration globals and the macros `ROUND_UP` and `MIN` are declared in headers
outside this source tree, so they are parameters of the model (`gpu_config_t`).  The
globals are taken to be of type `int`, like every local of the function.  A division
whose behaviour C leaves undefined yields `none`. -/

/-- The configuration globals read by the calculator, the enumerator
`gpu_register_alloc_wavefront` that the granularity is compared with, and the two macros
as functions on `int` values. -/
structure gpu_config_t where
  gpu_wavefront_size : Int
  gpu_max_wavefronts_per_compute_unit : Int
  gpu_max_work_groups_per_compute_unit : Int
  gpu_register_alloc_granularity : Int
  gpu_register_alloc_wavefront : Int
  gpu_register_alloc_size : Int
  gpu_num_registers : Int
  gpu_local_mem_alloc_size : Int
  gpu_local_mem_size : Int
  ROUND_UP : Int → Int → Int
  MIN : Int → Int → Int

/-- Division of two `int`s in C: the quotient truncated toward zero; undefined for a
zero divisor and for `INT_MIN / -1`. -/
def c_div (a b : Int) : Option Int :=
  if b = 0 ∨ (a = -2147483648 ∧ b = -1) then none else some (Int.tdiv a b)

/-- Value of the local `wavefronts_per_work_group` (line 36). -/
def calc_wavefronts_per_work_group (cfg : gpu_config_t) (work_items_per_work_group : Int) :
    Option Int :=
  c_div (wrap_int (wrap_int (work_items_per_work_group + cfg.gpu_wavefront_size) - 1))
    cfg.gpu_wavefront_size

/-- Value of the local `registers_per_work_group` (lines 43-48), given the value of
`wavefronts_per_work_group`. -/
def calc_registers_per_work_group (cfg : gpu_config_t)
    (work_items_per_work_group registers_per_work_item wavefronts_per_work_group : Int) :
    Int :=
  if cfg.gpu_register_alloc_granularity = cfg.gpu_register_alloc_wavefront then
    wrap_int (cfg.ROUND_UP (wrap_int (registers_per_work_item * cfg.gpu_wavefront_size))
      cfg.gpu_register_alloc_size * wavefronts_per_work_group)
  else
    cfg.ROUND_UP (wrap_int (registers_per_work_item * work_items_per_work_group))
      cfg.gpu_register_alloc_size

/-- Value of `local_mem_per_work_group` after the assignment of line 53. -/
def calc_local_mem_per_work_group (cfg : gpu_config_t) (local_mem_per_work_group : Int) :
    Int :=
  cfg.ROUND_UP local_mem_per_work_group cfg.gpu_local_mem_alloc_size

/-- Model of `gpu_calc_get_work_groups_per_compute_unit(work_items_per_work_group,
registers_per_work_item, local_mem_per_work_group)`: the value returned, or `none` when
one of its divisions is undefined. -/
def gpu_calc_get_work_groups_per_compute_unit (cfg : gpu_config_t)
    (work_items_per_work_group registers_per_work_item local_mem_per_work_group : Int) :
    Option Int := do
  let wavefronts_per_work_group ←
    calc_wavefronts_per_work_group cfg work_items_per_work_group
  let max_work_groups_limitted_by_max_wavefronts ←
    c_div cfg.gpu_max_wavefronts_per_compute_unit wavefronts_per_work_group
  let registers_per_work_group := calc_registers_per_work_group cfg
    work_items_per_work_group registers_per_work_item wavefronts_per_work_group
  let max_work_groups_limitted_by_num_registers ←
    c_div cfg.gpu_num_registers registers_per_work_group
  let local_mem_per_work_group := calc_local_mem_per_work_group cfg local_mem_per_work_group
  let max_work_groups_limitted_by_local_mem ←
    c_div cfg.gpu_local_mem_size local_mem_per_work_group
  let work_groups_per_compute_unit := cfg.gpu_max_work_groups_per_compute_unit
  let work_groups_per_compute_unit :=
    cfg.MIN work_groups_per_compute_unit max_work_groups_limitted_by_max_wavefronts
  let work_groups_per_compute_unit :=
    cfg.MIN work_groups_per_compute_unit max_work_groups_limitted_by_num_registers
  let work_groups_per_compute_unit :=
    cfg.MIN work_groups_per_compute_unit max_work_groups_limitted_by_local_mem
  some work_groups_per_compute_unit

/-- What the plot routines read from the running ND-Range: `gpu->ndrange->local_mem_top`,
`gpu->ndrange->kernel->cal_abi->num_gpr_used` and `gpu->ndrange->kernel->local_size`. -/
structure gpu_ndrange_t where
  local_mem_top : Int
  num_gpr_used : Int
  local_size : Int

/-- Body of the loop of `gpu_calc_plot_work_items_per_work_group` (lines 94-101) for one
value of the loop variable, with the locals set at lines 88-89: the pair written to the
data file, or `none` when a division is undefined. -/
def gpu_calc_plot_point (cfg : gpu_config_t) (ndrange : gpu_ndrange_t)
    (work_items_per_work_group : Int) : Option (Int × Int) := do
  let local_mem_per_work_group := ndrange.local_mem_top
  let registers_per_work_item := ndrange.num_gpr_used
  let work_groups_per_compute_unit ← gpu_calc_get_work_groups_per_compute_unit cfg
    work_items_per_work_group registers_per_work_item local_mem_per_work_group
  let wavefronts_per_work_group ←
    c_div (wrap_int (wrap_int (work_items_per_work_group + cfg.gpu_wavefront_size) - 1))
      cfg.gpu_wavefront_size
  let wavefronts_per_compute_unit :=
    wrap_int (work_groups_per_compute_unit * wavefronts_per_work_group)
  some (work_items_per_work_group, wavefronts_per_compute_unit)

/-- The "current data point" of `gpu_calc_plot_work_items_per_work_group` (lines
105-110): the same computation at the kernel's local size rounded up to whole
wavefronts. -/
def gpu_calc_plot_current_point (cfg : gpu_config_t) (ndrange : gpu_ndrange_t) :
    Option (Int × Int) :=
  gpu_calc_plot_point cfg ndrange (cfg.ROUND_UP ndrange.local_size cfg.gpu_wavefront_size)

/-- Ceiling of the quotient `a / b` for a positive `b`. -/
def spec_ceil_div (a b : Int) : Int := -((-a) / b)

/-- The value `n` rounded up to a multiple of a positive `m`. -/
def spec_round_up (n m : Int) : Int := spec_ceil_div n m * m

/-- Registers per work-group as the claim describes them: under wavefront granularity the
registers of one wavefront rounded up to the allocation size, times the wavefronts per
group; otherwise the registers of all work-items of the group, rounded up. -/
def spec_registers_per_work_group (cfg : gpu_config_t)
    (work_items_per_work_group registers_per_work_item : Int) : Int :=
  if cfg.gpu_register_alloc_granularity = cfg.gpu_register_alloc_wavefront then
    spec_round_up (registers_per_work_item * cfg.gpu_wavefront_size)
        cfg.gpu_register_alloc_size *
      spec_ceil_div work_items_per_work_group cfg.gpu_wavefront_size
  else
    spec_round_up (registers_per_work_item * work_items_per_work_group)
      cfg.gpu_register_alloc_size

/-- The minimum of the four limits that the claim lists; `/` is the division of C. -/
def spec_work_groups_per_compute_unit (cfg : gpu_config_t)
    (work_items_per_work_group registers_per_work_item local_mem_per_work_group : Int) :
    Int :=
  min (min (min cfg.gpu_max_work_groups_per_compute_unit
        (Int.tdiv cfg.gpu_max_wavefronts_per_compute_unit
          (spec_ceil_div work_items_per_work_group cfg.gpu_wavefront_size)))
      (Int.tdiv cfg.gpu_num_registers
        (spec_registers_per_work_group cfg work_items_per_work_group
          registers_per_work_item)))
    (Int.tdiv cfg.gpu_local_mem_size
      (spec_round_up local_mem_per_work_group cfg.gpu_local_mem_alloc_size))

/-- The macros behave as their names say: `MIN` yields the smaller operand, and
`ROUND_UP(n, m)` the least multiple of `m` that is at least `n`, for a non-negative `n`
and a positive `m` with `n + m - 1` in the range of `int`. -/
structure MacrosConventional (cfg : gpu_config_t) : Prop where
  MIN_eq : ∀ x y : Int, cfg.MIN x y = min x y
  ROUND_UP_eq : ∀ n m : Int, 0 ≤ n → 0 < m → n + m ≤ 2147483648 →
    cfg.ROUND_UP n m = spec_round_up n m

/-- Domain of the divisor claim: positive wavefront size and allocation sizes,
non-negative arguments. -/
structure CalcDomain (cfg : gpu_config_t)
    (work_items_per_work_group registers_per_work_item local_mem_per_work_group : Int) :
    Prop where
  wavefront_size_pos : 0 < cfg.gpu_wavefront_size
  register_alloc_size_pos : 0 < cfg.gpu_register_alloc_size
  local_mem_alloc_size_pos : 0 < cfg.gpu_local_mem_alloc_size
  work_items_nonneg : 0 ≤ work_items_per_work_group
  registers_nonneg : 0 ≤ registers_per_work_item
  local_mem_nonneg : 0 ≤ local_mem_per_work_group

/-- No intermediate value of the computation leaves the range of `int` (signed overflow
is undefined in C). -/
structure CalcNoOverflow (cfg : gpu_config_t)
    (work_items_per_work_group registers_per_work_item local_mem_per_work_group : Int) :
    Prop where
  work_items : work_items_per_work_group + cfg.gpu_wavefront_size < 2147483648
  registers_wavefront :
    cfg.gpu_register_alloc_granularity = cfg.gpu_register_alloc_wavefront →
      registers_per_work_item * cfg.gpu_wavefront_size + cfg.gpu_register_alloc_size ≤
          2147483648 ∧
        spec_round_up (registers_per_work_item * cfg.gpu_wavefront_size)
            cfg.gpu_register_alloc_size *
          spec_ceil_div work_items_per_work_group cfg.gpu_wavefront_size < 2147483648
  registers_work_group :
    cfg.gpu_register_alloc_granularity ≠ cfg.gpu_register_alloc_wavefront →
      registers_per_work_item * work_items_per_work_group + cfg.gpu_register_alloc_size ≤
        2147483648
  local_mem : local_mem_per_work_group + cfg.gpu_local_mem_alloc_size ≤ 2147483648

/-- A configuration with 64-item wavefronts and wavefront-granular register allocation;
`ROUND_UP(n, m)` is `(n + m - 1) / m * m` and `MIN(x, y)` is `x < y ? x : y`. -/
def cfg_example : gpu_config_t :=
  { gpu_wavefront_size := 64
    gpu_max_wavefronts_per_compute_unit := 32
    gpu_max_work_groups_per_compute_unit := 8
    gpu_register_alloc_granularity := 1
    gpu_register_alloc_wavefront := 1
    gpu_register_alloc_size := 64
    gpu_num_registers := 16384
    gpu_local_mem_alloc_size := 256
    gpu_local_mem_size := 32768
    ROUND_UP := fun n m => Int.tdiv (n + m - 1) m * m
    MIN := fun x y => if x < y then x else y }

/-- An ND-Range whose kernel uses 4 registers per work-item and no local memory. -/
def ndrange_example : gpu_ndrange_t :=
  { local_mem_top := 0, num_gpr_used := 4, local_size := 256 }

/-! ### Start of a launch on the control block left by `work_group_init` -/

/-- Model of the first part of `opencl_x86_device_work_group_launch(num, exec,
workgroup_data)` on a control block whose `num_items` is the given `int`:
`assert(workgroup_data->num_items > 0)`, then the loop "Initialize stuff that changes
per work group" over `i < num_items`, which goes through the entries of
`work_item_data`, an array of `max_work_group_size` (`X86_MAX_WORK_GROUP_SIZE`)
entries. The result is `none` when the assertion fails or the loop runs past the
array. -/
def opencl_x86_device_work_group_launch_ids (max_work_group_size : Nat) (e : exec_ids_t)
    (num : Nat) (num_items : Int) (data : Nat → opencl_x86_device_work_item_data_t) :
    Option (Nat → opencl_x86_device_work_item_data_t) :=
  if ¬ 0 < num_items then none
  else if (max_work_group_size : Int) < num_items then none
  else some (work_group_launch_ids e num num_items.toNat data)

/-- An NDRange of two dimensions with global size 65536 x 65536 and the same local
size: one work-group, no offset. -/
def exec_overflow : exec_ids_t :=
  { ndrange := { work_dim := 2, global_work_offset := fun _ => 0,
                 global_work_size := fun j => if j < 2 then 65536 else 1,
                 local_work_size := fun j => if j < 2 then 65536 else 1 },
    work_group_start := fun _ => 0,
    work_group_count := fun _ => 1 }

/-- The field widths of the 16-byte Southern Islands buffer resource descriptor: a 48-bit
base address, a 2-bit element size and a 32-bit record count. -/
def decl_hardware : EmuBufferDescDecl :=
  { sizeof := 16, base_addr_bits := 48, elem_size_bits := 2, num_records_bits := 32 }

/-! ### Dispatcher invariant -/

lemma wrap_int_id (x : Int) (h0 : -2147483648 ≤ x) (h1 : x < 2147483648) : wrap_int x = x := by
  unfold wrap_int; omega

lemma PoolInv_init (N : Int) (workers : List Nat) (h : 0 ≤ N) :
    PoolInv N workers (Pool.init N) := by
  constructor <;> simp [Pool.init, h]

lemma left_length_lt {workers left : List Nat} {w : Nat} (hnd : left.Nodup)
    (hsub : ∀ x ∈ left, x ∈ workers) (hw : w ∈ workers) (hnot : w ∉ left) :
    left.length < workers.length := by
  have h1 : (w :: left).Nodup := List.nodup_cons.mpr ⟨hnot, hnd⟩
  have h2 : (w :: left) ⊆ workers := by
    intro x hx
    rcases List.mem_cons.mp hx with rfl | hx
    · exact hw
    · exact hsub x hx
  have := (List.subperm_of_subset h1 h2).length_le
  simpa using this

lemma PoolInv_step {N : Int} {workers : List Nat} {p : Pool} (w : Nat)
    (hr : N + workers.length < 2147483648)
    (hw : w ∈ workers) (inv : PoolInv N workers p) :
    PoolInv N workers (core_func_group_step w p) := by
  unfold core_func_group_step
  by_cases hl : w ∈ p.left
  · simp [hl]; exact inv
  · have hlt := left_length_lt inv.hnodup inv.hsub hw hl
    have hlen := inv.hlen
    have hle := inv.hle
    have hnx := inv.hnext
    have hwrap : wrap_int ((p.calls.length : Int) + 1) = (p.calls.length : Int) + 1 := by
      apply wrap_int_id <;> omega
    simp only [hl, if_false, opencl_x86_device_get_next_work_group, inv.hN, hnx, hwrap]
    by_cases hge : (p.calls.length : Int) ≥ N
    · simp only [hge, if_true]
      have hfullN : (p.launched.length : Int) = N := by
        by_cases he : p.left = []
        · have : p.left.length = 0 := by simp [he]
          omega
        · exact inv.hfull he
      constructor
      · simp
      · simp
      · simp [List.range_succ, inv.hcalls]
      · exact List.nodup_cons.mpr ⟨hl, inv.hnodup⟩
      · intro x hx
        rcases List.mem_cons.mp hx with rfl | hx
        · exact hw
        · exact inv.hsub x hx
      · simp; omega
      · exact inv.hlaunched
      · exact hle
      · intro _; exact hfullN
      · exact inv.hmem
    · simp only [hge, if_false]
      have hempty : p.left = [] := by
        by_contra he
        have := inv.hfull he
        omega
      have hl0 : p.left.length = 0 := by simp [hempty]
      constructor
      · simp
      · simp
      · simp [List.range_succ, inv.hcalls]
      · exact inv.hnodup
      · exact inv.hsub
      · simp; omega
      · have : p.calls.length = p.launched.length := by omega
        simp [List.range_succ, inv.hlaunched, this]
      · simp; omega
      · intro he; exact absurd hempty he
      · intro c hc
        rcases List.mem_append.mp hc with hc | hc
        · exact inv.hmem c hc
        · simp at hc; subst hc; exact hw

lemma PoolInv_loop {N : Int} {workers : List Nat} (sched : List Nat)
    (hr : N + workers.length < 2147483648) :
    ∀ p, (∀ w ∈ sched, w ∈ workers) → PoolInv N workers p →
      PoolInv N workers (core_func_group_loop sched p) := by
  induction sched with
  | nil => intro p _ inv; exact inv
  | cons w rest ih =>
    intro p hs inv
    have h1 := PoolInv_step w hr (hs w (List.mem_cons_self _ _)) inv
    exact ih _ (fun x hx => hs x (List.mem_cons_of_mem _ hx)) h1

lemma sum_indicator_eq_count (a : Nat) (l : List Nat) :
    (l.map (fun w => if a == w then 1 else 0)).sum = l.count a := by
  induction l with
  | nil => simp
  | cons b rest ih =>
    simp only [List.map_cons, List.sum_cons, ih, List.count_cons]
    by_cases h : a = b
    · subst h; simp; omega
    · have h2 : ¬ b = a := fun e => h e.symm
      simp [h, h2]

lemma sum_countP_workers (workers : List Nat) (hnd : workers.Nodup) :
    ∀ (xs : List (Nat × Int)), (∀ c ∈ xs, c.1 ∈ workers) →
      (workers.map (fun w => xs.countP (fun c => c.1 == w))).sum = xs.length := by
  intro xs
  induction xs with
  | nil => intro _; simp
  | cons x rest ih =>
    intro h
    have ih1 := ih (fun c hc => h c (List.mem_cons_of_mem _ hc))
    have hx : x.1 ∈ workers := h x (List.mem_cons_self _ _)
    have hcount : (workers.map (fun w => if x.1 == w then 1 else 0)).sum = 1 := by
      rw [sum_indicator_eq_count]
      exact List.count_eq_one_of_mem hnd hx
    simp only [List.countP_cons, List.sum_map_add, ih1, hcount, List.length_cons]

lemma count_range_map (m : Nat) (g : Nat) (hg : g < m) :
    ((List.range m).map Int.ofNat).count (g : Int) = 1 := by
  apply List.count_eq_one_of_mem
  · exact (List.nodup_range m).map (fun a b h => by simpa using h)
  · exact List.mem_map.mpr ⟨g, List.mem_range.mpr hg, rfl⟩

/-- C1: in any serialisation of the workers' `get_next_work_group` calls on a record
whose `next_group` starts at 0, the n-th call returns n-1 and the counter then equals the
number of calls made; once every worker has left its group loop, each group index in
`[0, num_groups)` was returned by exactly one call and the launch counts of the workers
sum to `num_groups`. -/
theorem get_next_work_group_dispenses_each_group_once
    (num_groups : Int) (workers sched : List Nat)
    (hnd : workers.Nodup) (hne : workers ≠ [])
    (hsched : ∀ w ∈ sched, w ∈ workers)
    (h0 : 0 ≤ num_groups) (hint : num_groups + workers.length < 2147483648) :
    (∀ n : Nat, 1 ≤ n → n ≤ (core_func_group_loop sched (Pool.init num_groups)).calls.length →
        ((core_func_group_loop sched (Pool.init num_groups)).calls.map Prod.snd)[n - 1]?
          = some ((n : Int) - 1)) ∧
    (core_func_group_loop sched (Pool.init num_groups)).exec.next_group
      = ((core_func_group_loop sched (Pool.init num_groups)).calls.length : Int) ∧
    ((∀ w ∈ workers, w ∈ (core_func_group_loop sched (Pool.init num_groups)).left) →
      (∀ g : Nat, (g : Int) < num_groups →
        ((core_func_group_loop sched (Pool.init num_groups)).calls.map Prod.snd).count (g : Int)
          = 1 ∧
        ((core_func_group_loop sched (Pool.init num_groups)).launched.map Prod.snd).count
          (g : Int) = 1) ∧
      ((workers.map (fun w =>
          groups_launched w (core_func_group_loop sched (Pool.init num_groups)))).sum : Int)
        = num_groups) := by
  have inv := PoolInv_loop sched hint (Pool.init num_groups) hsched
    (PoolInv_init num_groups workers h0)
  refine ⟨?_, inv.hnext, ?_⟩
  · intro n h1 h2
    rw [inv.hcalls]
    have : n - 1 < (core_func_group_loop sched (Pool.init num_groups)).calls.length := by omega
    simp [List.getElem?_map, List.getElem?_range this]
    omega
  · intro hall
    have hleft : (core_func_group_loop sched (Pool.init num_groups)).left ≠ [] := by
      cases workers with
      | nil => exact absurd rfl hne
      | cons w rest =>
        exact List.ne_nil_of_mem (hall w (List.mem_cons_self _ _))
    have hfull := inv.hfull hleft
    have hlen := inv.hlen
    refine ⟨?_, ?_⟩
    · intro g hg
      constructor
      · rw [inv.hcalls]; apply count_range_map; omega
      · rw [inv.hlaunched]; apply count_range_map; omega
    · unfold groups_launched
      rw [sum_countP_workers workers hnd _ inv.hmem]
      exact hfull

/-- Witness for C1: two workers draining three groups. -/
theorem get_next_work_group_dispenses_each_group_once_witness :
    ((core_func_group_loop [0, 1, 1, 0, 1] (Pool.init 3)).calls.map Prod.snd
        = [0, 1, 2, 3, 4]) ∧
    ((([0, 1] : List Nat).map (fun w =>
          groups_launched w (core_func_group_loop [0, 1, 1, 0, 1] (Pool.init 3)))).sum : Int)
        = 3 :=
  ⟨by decide,
   (get_next_work_group_dispenses_each_group_once 3 [0, 1] [0, 1, 1, 0, 1]
      (by decide) (by decide) (by decide) (by decide) (by decide)).2.2
      (by decide) |>.2⟩

/-! ### Scheduler invariant -/

lemma resumes_append (a c : List Event) : resumes (a ++ c) = resumes a ++ resumes c := by
  induction a with
  | nil => rfl
  | cons e rest ih => cases e <;> simp [resumes, ih]

lemma round_robin_succ (n r : Nat) : round_robin n (r + 1) = round_robin n r ++ [r % n] := by
  simp [round_robin, List.range_succ]

lemma BarrierOrder_append_other {n : Nat} {tr : List Event} (e : Event)
    (h : BarrierOrder n tr) (he : ∀ i k, 1 ≤ k → e ≠ Event.run i k) :
    BarrierOrder n (tr ++ [e]) := by
  unfold BarrierOrder
  intro t i k hk ht j hj
  by_cases hlt : t < tr.length
  · rw [List.getElem?_append_left hlt] at ht
    obtain ⟨u, hu, hu2⟩ := h t i k hk ht j hj
    refine ⟨u, hu, ?_⟩
    rw [List.getElem?_append_left (by omega)]
    exact hu2
  · rw [List.getElem?_append_right (by omega)] at ht
    by_cases h0 : t - tr.length = 0
    · rw [h0] at ht
      simp at ht
      exact absurd ht (he i k hk)
    · have : (t - tr.length) = (t - tr.length - 1) + 1 := by omega
      rw [this] at ht
      simp at ht

lemma BarrierOrder_append_run {n : Nat} {tr : List Event} (i k : Nat)
    (h : BarrierOrder n tr) (hall : 1 ≤ k → ∀ j, j < n → Event.barrier j k ∈ tr) :
    BarrierOrder n (tr ++ [Event.run i k]) := by
  unfold BarrierOrder
  intro t i2 k2 hk ht j hj
  by_cases hlt : t < tr.length
  · rw [List.getElem?_append_left hlt] at ht
    obtain ⟨u, hu, hu2⟩ := h t i2 k2 hk ht j hj
    refine ⟨u, hu, ?_⟩
    rw [List.getElem?_append_left (by omega)]
    exact hu2
  · rw [List.getElem?_append_right (by omega)] at ht
    by_cases h0 : t - tr.length = 0
    · rw [h0] at ht
      simp at ht
      obtain ⟨rfl, rfl⟩ := ht
      obtain ⟨u, hu, hu2⟩ := List.getElem_of_mem (hall hk j hj)
      refine ⟨u, by omega, ?_⟩
      rw [List.getElem?_append_left hu, List.getElem?_eq_getElem hu, hu2]
    · have : (t - tr.length) = (t - tr.length - 1) + 1 := by omega
      rw [this] at ht
      simp at ht

lemma LaunchInv_init (n b : Nat) (old : opencl_x86_device_core_t) :
    LaunchInv n b (launch_init n old) := by
  constructor
  · rfl
  · intro j hj; simp [launch_init, hj]
  · left
    refine ⟨rfl, rfl, ?_⟩
    intro j hj; simp [launch_init, hj]
  · unfold BarrierOrder; intro t i k _ ht; simp [launch_init] at ht
  · intro j k hj h1 h2; simp [launch_init, hj] at h2; omega
  · intro j; simp [launch_init]
  · intro j k hj h
    simp [launch_init, hj] at h


lemma LaunchShape_item {n b i k : Nat} {c : opencl_x86_device_core_t} {tr : List Event}
    (h : i < n ∧ c.current_item = i ∧ k ≤ b ∧
      c.main_fiber = MainPC.after_switch ∧
      (∀ j, j < n → i ≤ j → (c.work_fibers j).pos = k) ∧
      (k < b → c.num_done = 0 ∧ ∀ j, j < i → (c.work_fibers j).pos = k + 1) ∧
      (k = b → c.num_done = i ∧ ∀ j, j < i → (c.work_fibers j).pos = b) ∧
      resumes tr = round_robin n (k * n + i + 1)) :
    LaunchShape n b ⟨c, Running.item i k, tr⟩ := h

lemma LaunchShape_for_test {n b : Nat} {c : opencl_x86_device_core_t} {tr : List Event}
    (h : (c.num_done = 0 ∧ c.current_item = 0 ∧ tr = [] ∧
      ∀ j, j < n → (c.work_fibers j).pos = 0) ∨
    (1 ≤ c.current_item ∧ c.current_item ≤ n ∧ c.num_done = c.current_item ∧
      c.main_fiber = MainPC.after_switch ∧
      (∀ j, j < n → (c.work_fibers j).pos = b) ∧
      resumes tr = round_robin n (b * n + c.current_item))) :
    LaunchShape n b ⟨c, Running.main MainPC.for_test, tr⟩ := h

lemma LaunchShape_while_test {n b : Nat} {c : opencl_x86_device_core_t} {tr : List Event}
    (h : (c.num_done = 0 ∧ tr = [] ∧ ∀ j, j < n → (c.work_fibers j).pos = 0) ∨
    (c.num_done = n ∧ (∀ j, j < n → (c.work_fibers j).pos = b) ∧
      resumes tr = round_robin n (b * n + n))) :
    LaunchShape n b ⟨c, Running.main MainPC.while_test, tr⟩ := h

lemma LaunchShape_after_switch {n b : Nat} {c : opencl_x86_device_core_t} {tr : List Event}
    (h : c.current_item < n ∧ c.num_done = c.current_item + 1 ∧
      c.main_fiber = MainPC.after_switch ∧
      (∀ j, j < n → (c.work_fibers j).pos = b) ∧
      resumes tr = round_robin n (b * n + c.current_item + 1)) :
    LaunchShape n b ⟨c, Running.main MainPC.after_switch, tr⟩ := h

lemma round_robin_next {n r i : Nat} (hi : i < n) (q : Nat) (hr : r = q * n + i) :
    round_robin n r ++ [i] = round_robin n (r + 1) := by
  rw [round_robin_succ, hr, Nat.mul_add_mod_of_lt hi]

lemma step_while_test {n b : Nat} {c : opencl_x86_device_core_t} {tr : List Event}
    {m1 : Launch}
    (inv : LaunchInv n b ⟨c, Running.main MainPC.while_test, tr⟩)
    (h : launch_step b ⟨c, Running.main MainPC.while_test, tr⟩ = some m1) :
    LaunchInv n b m1 ∧
      launch_measure b m1 < launch_measure b ⟨c, Running.main MainPC.while_test, tr⟩ := by
  have hn : c.num_items = n := inv.hn
  have hshape : (c.num_done = 0 ∧ tr = [] ∧ ∀ j, j < n → (c.work_fibers j).pos = 0) ∨
    (c.num_done = n ∧ (∀ j, j < n → (c.work_fibers j).pos = b) ∧
      resumes tr = round_robin n (b * n + n)) := inv.hshape
  simp only [launch_step] at h
  split at h
  · rename_i hlt
    cases h
    rcases hshape with ⟨hd, htr, hpos⟩ | ⟨hd, _⟩
    · refine ⟨⟨hn, inv.hslot, ?_, inv.horder, inv.hcalls, inv.hexit, inv.hruns⟩, ?_⟩
      · exact LaunchShape_for_test (Or.inl ⟨hd, rfl, htr, hpos⟩)
      · have h1 : c.num_done < c.num_items := hlt
        simp only [launch_measure, if_pos hd, if_pos h1]
        omega
    · omega
  · cases h

lemma step_after_switch {n b : Nat} {c : opencl_x86_device_core_t} {tr : List Event}
    {m1 : Launch}
    (inv : LaunchInv n b ⟨c, Running.main MainPC.after_switch, tr⟩)
    (h : launch_step b ⟨c, Running.main MainPC.after_switch, tr⟩ = some m1) :
    LaunchInv n b m1 ∧
      launch_measure b m1 < launch_measure b ⟨c, Running.main MainPC.after_switch, tr⟩ := by
  have hn : c.num_items = n := inv.hn
  have hshape : c.current_item < n ∧ c.num_done = c.current_item + 1 ∧
      c.main_fiber = MainPC.after_switch ∧
      (∀ j, j < n → (c.work_fibers j).pos = b) ∧
      resumes tr = round_robin n (b * n + c.current_item + 1) := inv.hshape
  simp only [launch_step] at h
  cases h
  obtain ⟨hcur, hd, hmf, hpos, hres⟩ := hshape
  refine ⟨⟨hn, inv.hslot, ?_, inv.horder, inv.hcalls, inv.hexit, inv.hruns⟩, ?_⟩
  · exact LaunchShape_for_test (Or.inr ⟨by simp, by simp; omega, hd, hmf, hpos, hres⟩)
  · have hd0 : ¬ c.num_done = 0 := by omega
    simp only [launch_measure, if_neg hd0, hn]
    omega

lemma step_for_test {n b : Nat} {c : opencl_x86_device_core_t} {tr : List Event}
    {m1 : Launch} (hn1 : 1 ≤ n)
    (inv : LaunchInv n b ⟨c, Running.main MainPC.for_test, tr⟩)
    (h : launch_step b ⟨c, Running.main MainPC.for_test, tr⟩ = some m1) :
    LaunchInv n b m1 ∧
      launch_measure b m1 < launch_measure b ⟨c, Running.main MainPC.for_test, tr⟩ := by
  have hn : c.num_items = n := inv.hn
  have hslot : ∀ j, j < n → (c.work_fibers j).item = j := inv.hslot
  have hshape : (c.num_done = 0 ∧ c.current_item = 0 ∧ tr = [] ∧
      ∀ j, j < n → (c.work_fibers j).pos = 0) ∨
    (1 ≤ c.current_item ∧ c.current_item ≤ n ∧ c.num_done = c.current_item ∧
      c.main_fiber = MainPC.after_switch ∧
      (∀ j, j < n → (c.work_fibers j).pos = b) ∧
      resumes tr = round_robin n (b * n + c.current_item)) := inv.hshape
  simp only [launch_step] at h
  split at h
  · rename_i hlt
    have hcn : c.current_item < n := by omega
    rw [hslot _ hcn] at h
    have hord : BarrierOrder n (tr ++ [Event.resume c.current_item]) :=
      BarrierOrder_append_other _ inv.horder (fun _ _ _ => by simp)
    have hcalls : ∀ j k, j < n → 1 ≤ k → k ≤ (c.work_fibers j).pos →
        Event.barrier j k ∈ tr ++ [Event.resume c.current_item] :=
      fun j k hj h1 h2 => List.mem_append_left _ (inv.hcalls j k hj h1 h2)
    have hexit : ∀ j, (tr ++ [Event.resume c.current_item]).count
        (Event.exit j) = if j < c.num_done then 1 else 0 := by
      intro j
      rw [List.count_append, inv.hexit j]
      simp
    have hruns : ∀ j k, j < n →
        (k < (c.work_fibers j).pos ∨ (k = b ∧ j < c.num_done)) →
        Event.run j k ∈ tr ++ [Event.resume c.current_item] :=
      fun j k hj h => List.mem_append_left _ (inv.hruns j k hj h)
    rcases hshape with ⟨hd, hcur, htr, hpos⟩ | ⟨h1, h2, hd, hmf, hpos, hres⟩
    · rw [hpos _ hcn] at h
      cases h
      refine ⟨⟨hn, hslot, ?_, hord, hcalls, hexit, hruns⟩, ?_⟩
      · apply LaunchShape_item
        refine ⟨hcn, rfl, Nat.zero_le _, rfl, ?_, ?_, ?_, ?_⟩
        · intro j hj _; exact hpos j hj
        · intro _; exact ⟨hd, fun j hj => by omega⟩
        · intro hb
          refine ⟨?_, fun j hj => by omega⟩
          show c.num_done = c.current_item
          omega
        · rw [htr, hcur]
          simp [resumes, round_robin, List.range_succ]
      · simp only [launch_measure, if_pos hd, hn, hcur]
        simp only [Nat.sub_zero]
        omega
    · rw [hpos _ hcn] at h
      cases h
      refine ⟨⟨hn, hslot, ?_, hord, hcalls, hexit, hruns⟩, ?_⟩
      · apply LaunchShape_item
        refine ⟨hcn, rfl, Nat.le_refl _, rfl, ?_, ?_, ?_, ?_⟩
        · intro j hj _; exact hpos j hj
        · intro hb; omega
        · intro _; exact ⟨hd, fun j hj => hpos j (by omega)⟩
        · rw [resumes_append, hres]
          exact round_robin_next hcn b rfl
      · have hd0 : ¬ c.num_done = 0 := by omega
        simp only [launch_measure, if_neg hd0, hn, Nat.sub_self, Nat.mul_zero, Nat.zero_mul]
        omega
  · rename_i hge
    cases h
    rcases hshape with ⟨hd, hcur, htr, hpos⟩ | ⟨h1, h2, hd, hmf, hpos, hres⟩
    · omega
    · have hcur : c.current_item = n := by omega
      refine ⟨⟨hn, hslot, ?_, inv.horder, inv.hcalls, inv.hexit, inv.hruns⟩, ?_⟩
      · exact LaunchShape_while_test (Or.inr ⟨by omega, hpos, by rw [hres, hcur]⟩)
      · have hd0 : ¬ c.num_done = 0 := by omega
        have hdn : ¬ c.num_done < c.num_items := by omega
        simp only [launch_measure, if_neg hd0, if_neg hdn]
        omega

lemma fiber_eq (f : fiber_context_t) (a p : Nat) (h1 : f.item = a)
    (h2 : f.pos = p) : f = ⟨a, p⟩ := by
  cases f; simp only at h1 h2; subst h1; subst h2; rfl

lemma count_exit_singleton (i j : Nat) :
    List.count (Event.exit j) [Event.exit i] = if i = j then 1 else 0 := by
  by_cases h : i = j <;> simp [List.count_cons, h]

lemma count_exit_run (i k j : Nat) : List.count (Event.exit j) [Event.run i k] = 0 := by
  simp [List.count_cons]

lemma count_exit_barrier (i k j : Nat) :
    List.count (Event.exit j) [Event.barrier i k] = 0 := by
  simp [List.count_cons]

lemma count_exit_resume (i j : Nat) : List.count (Event.exit j) [Event.resume i] = 0 := by
  simp [List.count_cons]

lemma step_item_exit {n b i k : Nat} {c : opencl_x86_device_core_t} {tr : List Event}
    (inv : LaunchInv n b ⟨c, Running.item i k, tr⟩) (hkb : ¬ k < b) :
    LaunchInv n b (opencl_x86_device_exit_fiber i ⟨c, Running.item i k, tr ++ [Event.run i k]⟩) ∧
      launch_measure b
        (opencl_x86_device_exit_fiber i ⟨c, Running.item i k, tr ++ [Event.run i k]⟩)
        < launch_measure b ⟨c, Running.item i k, tr⟩ := by
  have hn : c.num_items = n := inv.hn
  have hslot : ∀ j, j < n → (c.work_fibers j).item = j := inv.hslot
  obtain ⟨hi, hcur, hk, hmf, hge, _, heq, hres⟩ :
      i < n ∧ c.current_item = i ∧ k ≤ b ∧
      c.main_fiber = MainPC.after_switch ∧
      (∀ j, j < n → i ≤ j → (c.work_fibers j).pos = k) ∧
      (k < b → c.num_done = 0 ∧ ∀ j, j < i → (c.work_fibers j).pos = k + 1) ∧
      (k = b → c.num_done = i ∧ ∀ j, j < i → (c.work_fibers j).pos = b) ∧
      resumes tr = round_robin n (k * n + i + 1) := inv.hshape
  have hkeq : k = b := by omega
  obtain ⟨hd, hlow⟩ := heq hkeq
  subst hkeq
  have hposall : ∀ j, j < n → (c.work_fibers j).pos = k := by
    intro j hj
    by_cases hji : i ≤ j
    · exact hge j hj hji
    · exact hlow j (by omega)
  have hall : 1 ≤ k → ∀ j, j < n → Event.barrier j k ∈ tr := by
    intro h1 j hj
    exact inv.hcalls j k hj h1 (by rw [hposall j hj])
  have hst : opencl_x86_device_exit_fiber i ⟨c, Running.item i k, tr ++ [Event.run i k]⟩
      = ⟨{ c with num_done := c.num_done + 1 }, Running.main MainPC.after_switch,
          tr ++ [Event.run i k] ++ [Event.exit i]⟩ := by
    simp only [opencl_x86_device_exit_fiber, hmf]
  rw [hst]
  refine ⟨⟨hn, hslot, ?_, ?_, ?_, ?_, ?_⟩, ?_⟩
  · apply LaunchShape_after_switch
    refine ⟨?_, ?_, hmf, hposall, ?_⟩
    · show c.current_item < n
      omega
    · show c.num_done + 1 = c.current_item + 1
      omega
    · show resumes (tr ++ [Event.run i k] ++ [Event.exit i])
        = round_robin n (k * n + c.current_item + 1)
      rw [resumes_append, resumes_append, hres, hcur]
      simp [resumes]
  · exact BarrierOrder_append_other _ (BarrierOrder_append_run i k inv.horder hall)
      (fun _ _ _ => by simp)
  · intro j k2 hj h1 h2
    exact List.mem_append_left _ (List.mem_append_left _ (inv.hcalls j k2 hj h1 h2))
  · intro j
    show (tr ++ [Event.run i k] ++ [Event.exit i]).count (Event.exit j)
      = if j < c.num_done + 1 then 1 else 0
    rw [List.count_append, List.count_append, inv.hexit j, count_exit_singleton,
      count_exit_run]
    show (if j < c.num_done then 1 else 0) + 0 + (if i = j then 1 else 0)
      = if j < c.num_done + 1 then 1 else 0
    by_cases hji : j = i
    · subst hji
      have h1 : ¬ j < c.num_done := by omega
      have h2 : j < c.num_done + 1 := by omega
      simp [h1, h2]
    · by_cases hlt : j < c.num_done
      · have h2 : j < c.num_done + 1 := by omega
        have h3 : ¬ i = j := fun e => hji e.symm
        simp [hlt, h2, h3]
      · have h2 : ¬ j < c.num_done + 1 := by omega
        have h3 : ¬ i = j := fun e => hji e.symm
        simp [hlt, h2, h3]
  · intro j k2 hj h
    show Event.run j k2 ∈ tr ++ [Event.run i k] ++ [Event.exit i]
    have h2 : k2 < (c.work_fibers j).pos ∨ (k2 = k ∧ j < c.num_done + 1) := h
    by_cases hold : k2 < (c.work_fibers j).pos ∨ (k2 = k ∧ j < c.num_done)
    · have := inv.hruns j k2 hj hold
      simp [this]
    · have hj2 : k2 = k ∧ j = i := by
        rcases h2 with h2 | ⟨h2, h3⟩
        · exact absurd (Or.inl h2) hold
        · refine ⟨h2, ?_⟩
          by_contra hne
          exact hold (Or.inr ⟨h2, by omega⟩)
      rw [hj2.1, hj2.2]
      simp
  · simp only [launch_measure, hn, hcur, Nat.sub_self, Nat.mul_zero, Nat.zero_mul]
    omega

lemma barrier_state {n i k i2 k2 : Nat} {c : opencl_x86_device_core_t} {tr : List Event}
    (hn : c.num_items = n) (hcur : c.current_item = i) (hmod : (i + 1) % n = i2)
    (hdest : set_fiber c.work_fibers i ⟨i, k + 1⟩ i2 = ⟨i2, k2⟩) :
    opencl_x86_device_barrier i k ⟨c, Running.item i k, tr ++ [Event.run i k]⟩
      = ⟨{ c with current_item := i2,
                  work_fibers := set_fiber c.work_fibers i ⟨i, k + 1⟩ },
          Running.item i2 k2,
          tr ++ [Event.run i k] ++ [Event.barrier i (k + 1)] ++ [Event.resume i2]⟩ := by
  simp only [opencl_x86_device_barrier, hcur, hn, hmod, hdest]

lemma step_item_barrier_common {n b i k i2 k2 : Nat} {c : opencl_x86_device_core_t}
    {tr : List Event}
    (inv : LaunchInv n b ⟨c, Running.item i k, tr⟩) (hkb : k < b)
    (hshape : LaunchShape n b
      ⟨{ c with current_item := i2, work_fibers := set_fiber c.work_fibers i ⟨i, k + 1⟩ },
        Running.item i2 k2,
        tr ++ [Event.run i k] ++ [Event.barrier i (k + 1)] ++ [Event.resume i2]⟩) :
    LaunchInv n b
      ⟨{ c with current_item := i2, work_fibers := set_fiber c.work_fibers i ⟨i, k + 1⟩ },
        Running.item i2 k2,
        tr ++ [Event.run i k] ++ [Event.barrier i (k + 1)] ++ [Event.resume i2]⟩ := by
  have hn : c.num_items = n := inv.hn
  have hslot : ∀ j, j < n → (c.work_fibers j).item = j := inv.hslot
  obtain ⟨hi, hcur, hk, hmf, hge, hlt, _, hres⟩ :
      i < n ∧ c.current_item = i ∧ k ≤ b ∧
      c.main_fiber = MainPC.after_switch ∧
      (∀ j, j < n → i ≤ j → (c.work_fibers j).pos = k) ∧
      (k < b → c.num_done = 0 ∧ ∀ j, j < i → (c.work_fibers j).pos = k + 1) ∧
      (k = b → c.num_done = i ∧ ∀ j, j < i → (c.work_fibers j).pos = b) ∧
      resumes tr = round_robin n (k * n + i + 1) := inv.hshape
  obtain ⟨hd, hlow⟩ := hlt hkb
  have hall : 1 ≤ k → ∀ j, j < n → Event.barrier j k ∈ tr := by
    intro h1 j hj
    apply inv.hcalls j k hj h1
    by_cases hji : i ≤ j
    · rw [hge j hj hji]
    · show k ≤ (c.work_fibers j).pos
      rw [hlow j (by omega)]; omega
  refine ⟨hn, ?_, hshape, ?_, ?_, ?_, ?_⟩
  · intro j hj
    show (set_fiber c.work_fibers i ⟨i, k + 1⟩ j).item = j
    unfold set_fiber
    by_cases hji : j = i
    · simp [hji]
    · simp [hji, hslot j hj]
  · exact BarrierOrder_append_other _
      (BarrierOrder_append_other _ (BarrierOrder_append_run i k inv.horder hall)
        (fun _ _ _ => by simp))
      (fun _ _ _ => by simp)
  · intro j k3 hj h1 h2
    show Event.barrier j k3 ∈
      tr ++ [Event.run i k] ++ [Event.barrier i (k + 1)] ++ [Event.resume i2]
    have h2b : k3 ≤ (set_fiber c.work_fibers i ⟨i, k + 1⟩ j).pos := h2
    unfold set_fiber at h2b
    by_cases hji : j = i
    · subst hji
      simp only [if_true] at h2b
      by_cases hk3 : k3 = k + 1
      · subst hk3; simp
      · have : Event.barrier j k3 ∈ tr :=
          inv.hcalls j k3 hj h1 (by
            show k3 ≤ (c.work_fibers j).pos
            rw [hge j hj (Nat.le_refl _)]; omega)
        simp [this]
    · simp only [hji, if_false] at h2b
      have : Event.barrier j k3 ∈ tr := inv.hcalls j k3 hj h1 h2b
      simp [this]
  · intro j
    show (tr ++ [Event.run i k] ++ [Event.barrier i (k + 1)] ++ [Event.resume i2]).count
      (Event.exit j) = if j < c.num_done then 1 else 0
    rw [List.count_append, List.count_append, List.count_append, inv.hexit j,
      count_exit_run, count_exit_barrier, count_exit_resume]
    rfl
  · intro j k3 hj h
    show Event.run j k3 ∈
      tr ++ [Event.run i k] ++ [Event.barrier i (k + 1)] ++ [Event.resume i2]
    have h2 : k3 < (set_fiber c.work_fibers i ⟨i, k + 1⟩ j).pos ∨ (k3 = b ∧ j < c.num_done) := h
    unfold set_fiber at h2
    by_cases hji : j = i
    · subst hji
      simp only [if_true] at h2
      by_cases hk3 : k3 = k
      · subst hk3; simp
      · have hold : k3 < (c.work_fibers j).pos ∨ (k3 = b ∧ j < c.num_done) := by
          rcases h2 with h2 | h2
          · left; rw [hge j hj (Nat.le_refl _)]; omega
          · right; exact h2
        have := inv.hruns j k3 hj hold
        simp [this]
    · simp only [hji, if_false] at h2
      have := inv.hruns j k3 hj h2
      simp [this]

lemma three_mul_sub_succ (b k n : Nat) (h : k < b) :
    3 * (b - k) * n = 3 * (b - (k + 1)) * n + 3 * n := by
  obtain ⟨d, hd⟩ : ∃ d, b - k = d + 1 := ⟨b - k - 1, by omega⟩
  have hd2 : b - (k + 1) = d := by omega
  rw [hd, hd2]; ring

lemma step_item_barrier {n b i k : Nat} {c : opencl_x86_device_core_t} {tr : List Event}
    (inv : LaunchInv n b ⟨c, Running.item i k, tr⟩) (hkb : k < b) :
    LaunchInv n b (opencl_x86_device_barrier i k ⟨c, Running.item i k, tr ++ [Event.run i k]⟩) ∧
      launch_measure b
        (opencl_x86_device_barrier i k ⟨c, Running.item i k, tr ++ [Event.run i k]⟩)
        < launch_measure b ⟨c, Running.item i k, tr⟩ := by
  have hn : c.num_items = n := inv.hn
  have hslot : ∀ j, j < n → (c.work_fibers j).item = j := inv.hslot
  obtain ⟨hi, hcur, hk, hmf, hge, hlt, _, hres⟩ :
      i < n ∧ c.current_item = i ∧ k ≤ b ∧
      c.main_fiber = MainPC.after_switch ∧
      (∀ j, j < n → i ≤ j → (c.work_fibers j).pos = k) ∧
      (k < b → c.num_done = 0 ∧ ∀ j, j < i → (c.work_fibers j).pos = k + 1) ∧
      (k = b → c.num_done = i ∧ ∀ j, j < i → (c.work_fibers j).pos = b) ∧
      resumes tr = round_robin n (k * n + i + 1) := inv.hshape
  obtain ⟨hd, hlow⟩ := hlt hkb
  have hres3 : ∀ x, resumes (tr ++ [Event.run i k] ++ [Event.barrier i (k + 1)]
      ++ [Event.resume x]) = round_robin n (k * n + i + 1) ++ [x] := by
    intro x
    rw [resumes_append, resumes_append, resumes_append, hres]
    simp [resumes]
  by_cases hlast : i + 1 < n
  · have hdest : set_fiber c.work_fibers i ⟨i, k + 1⟩ (i + 1) = ⟨i + 1, k⟩ := by
      unfold set_fiber
      simp only [Nat.succ_ne_self, if_false]
      exact fiber_eq _ _ _ (hslot _ hlast) (hge _ hlast (by omega))
    rw [barrier_state hn hcur (Nat.mod_eq_of_lt hlast) hdest]
    refine ⟨step_item_barrier_common inv hkb ?_, ?_⟩
    · apply LaunchShape_item
      refine ⟨hlast, rfl, hk, hmf, ?_, ?_, ?_, ?_⟩
      · intro j hj hij
        show (set_fiber c.work_fibers i ⟨i, k + 1⟩ j).pos = k
        unfold set_fiber
        have hji : ¬ j = i := by omega
        simp only [hji, if_false]
        exact hge j hj (by omega)
      · intro _
        refine ⟨hd, ?_⟩
        intro j hj
        show (set_fiber c.work_fibers i ⟨i, k + 1⟩ j).pos = k + 1
        unfold set_fiber
        by_cases hji : j = i
        · simp [hji]
        · simp only [hji, if_false]
          exact hlow j (by omega)
      · intro hkeq; omega
      · rw [hres3]
        exact round_robin_next hlast k rfl
    · simp only [launch_measure, hn]
      omega
  · have hin : i + 1 = n := by omega
    have hmod : (i + 1) % n = 0 := by rw [hin]; exact Nat.mod_self n
    have hdest : set_fiber c.work_fibers i ⟨i, k + 1⟩ 0 = ⟨0, k + 1⟩ := by
      unfold set_fiber
      by_cases h0 : 0 = i
      · simp [h0]
      · simp only [h0, if_false]
        exact fiber_eq _ _ _ (hslot 0 (by omega)) (hlow 0 (by omega))
    rw [barrier_state hn hcur hmod hdest]
    refine ⟨step_item_barrier_common inv hkb ?_, ?_⟩
    · apply LaunchShape_item
      refine ⟨by omega, rfl, hkb, hmf, ?_, ?_, ?_, ?_⟩
      · intro j hj _
        show (set_fiber c.work_fibers i ⟨i, k + 1⟩ j).pos = k + 1
        unfold set_fiber
        by_cases hji : j = i
        · simp [hji]
        · simp only [hji, if_false]
          exact hlow j (by omega)
      · intro _
        exact ⟨hd, fun j hj => by omega⟩
      · intro _
        refine ⟨hd, fun j hj => by omega⟩
      · rw [hres3]
        have h1 : (k + 1) * n = k * n + n := Nat.succ_mul k n
        have h2 : (k + 1) * n + 0 + 1 = (k * n + i + 1) + 1 := by omega
        have h0 : 0 < n := by omega
        rw [h2]
        exact round_robin_next h0 (k + 1) (by omega)
    · have h3 := three_mul_sub_succ b k n hkb
      simp only [launch_measure, hn]
      omega

lemma launch_step_inv {n b : Nat} {m m1 : Launch} (hn1 : 1 ≤ n) (inv : LaunchInv n b m)
    (h : launch_step b m = some m1) :
    LaunchInv n b m1 ∧ launch_measure b m1 < launch_measure b m := by
  obtain ⟨c, r, tr⟩ := m
  cases r with
  | main pc =>
    cases pc with
    | while_test => exact step_while_test inv h
    | for_test => exact step_for_test hn1 inv h
    | after_switch => exact step_after_switch inv h
  | item i k =>
    simp only [launch_step] at h
    split at h
    · rename_i hkb
      cases h
      exact step_item_barrier inv hkb
    · rename_i hkb
      cases h
      exact step_item_exit inv hkb

lemma launch_run_inv {n b : Nat} (hn1 : 1 ≤ n) (fuel : Nat) :
    ∀ m, LaunchInv n b m → LaunchInv n b (launch_run b fuel m) := by
  induction fuel with
  | zero => intro m inv; exact inv
  | succ f ih =>
    intro m inv
    unfold launch_run
    cases h : launch_step b m with
    | none => exact inv
    | some m1 => exact ih m1 (launch_step_inv hn1 inv h).1

lemma launch_run_halts {n b : Nat} (hn1 : 1 ≤ n) :
    ∀ μ m, LaunchInv n b m → launch_measure b m ≤ μ →
      ∃ fuel, launch_step b (launch_run b fuel m) = none := by
  intro μ
  induction μ with
  | zero =>
    intro m inv hm
    refine ⟨0, ?_⟩
    cases h : launch_step b m with
    | none => simpa [launch_run] using h
    | some m1 =>
      have := (launch_step_inv hn1 inv h).2
      omega
  | succ μ ih =>
    intro m inv hm
    cases h : launch_step b m with
    | none => exact ⟨0, by simpa [launch_run] using h⟩
    | some m1 =>
      have h2 := launch_step_inv hn1 inv h
      obtain ⟨f, hf⟩ := ih m1 h2.1 (by omega)
      refine ⟨f + 1, ?_⟩
      simp only [launch_run, h]
      exact hf

lemma launch_halted_facts {n b : Nat} {m : Launch} (hn1 : 1 ≤ n) (inv : LaunchInv n b m)
    (h : launch_step b m = none) :
    m.core.num_done = n ∧ (∀ j, j < n → (m.core.work_fibers j).pos = b) ∧
      resumes m.trace = round_robin n (b * n + n) := by
  obtain ⟨c, r, tr⟩ := m
  have hn : c.num_items = n := inv.hn
  cases r with
  | main pc =>
    cases pc with
    | while_test =>
      have hshape : (c.num_done = 0 ∧ tr = [] ∧ ∀ j, j < n → (c.work_fibers j).pos = 0) ∨
        (c.num_done = n ∧ (∀ j, j < n → (c.work_fibers j).pos = b) ∧
          resumes tr = round_robin n (b * n + n)) := inv.hshape
      simp only [launch_step] at h
      split at h
      · cases h
      · rename_i hge
        rcases hshape with ⟨hd, _⟩ | hfin
        · exfalso; omega
        · exact hfin
    | for_test =>
      simp only [launch_step] at h
      split at h <;> cases h
    | after_switch =>
      simp only [launch_step] at h
      cases h
  | item i k =>
    simp only [launch_step] at h
    split at h <;> cases h

lemma launch_resumes_round_robin {n b : Nat} {m : Launch} (inv : LaunchInv n b m) :
    ∃ r, resumes m.trace = round_robin n r := by
  obtain ⟨c, r, tr⟩ := m
  cases r with
  | main pc =>
    cases pc with
    | while_test =>
      have hshape : (c.num_done = 0 ∧ tr = [] ∧ ∀ j, j < n → (c.work_fibers j).pos = 0) ∨
        (c.num_done = n ∧ (∀ j, j < n → (c.work_fibers j).pos = b) ∧
          resumes tr = round_robin n (b * n + n)) := inv.hshape
      rcases hshape with ⟨_, htr, _⟩ | ⟨_, _, hres⟩
      · exact ⟨0, by rw [htr]; rfl⟩
      · exact ⟨_, hres⟩
    | for_test =>
      have hshape : (c.num_done = 0 ∧ c.current_item = 0 ∧ tr = [] ∧
          ∀ j, j < n → (c.work_fibers j).pos = 0) ∨
        (1 ≤ c.current_item ∧ c.current_item ≤ n ∧ c.num_done = c.current_item ∧
          c.main_fiber = MainPC.after_switch ∧
          (∀ j, j < n → (c.work_fibers j).pos = b) ∧
          resumes tr = round_robin n (b * n + c.current_item)) := inv.hshape
      rcases hshape with ⟨_, _, htr, _⟩ | ⟨_, _, _, _, _, hres⟩
      · exact ⟨0, by rw [htr]; rfl⟩
      · exact ⟨_, hres⟩
    | after_switch =>
      have hshape : c.current_item < n ∧ c.num_done = c.current_item + 1 ∧
          c.main_fiber = MainPC.after_switch ∧
          (∀ j, j < n → (c.work_fibers j).pos = b) ∧
          resumes tr = round_robin n (b * n + c.current_item + 1) := inv.hshape
      exact ⟨_, hshape.2.2.2.2⟩
  | item i k =>
    have hshape : i < n ∧ c.current_item = i ∧ k ≤ b ∧
      c.main_fiber = MainPC.after_switch ∧
      (∀ j, j < n → i ≤ j → (c.work_fibers j).pos = k) ∧
      (k < b → c.num_done = 0 ∧ ∀ j, j < i → (c.work_fibers j).pos = k + 1) ∧
      (k = b → c.num_done = i ∧ ∀ j, j < i → (c.work_fibers j).pos = b) ∧
      resumes tr = round_robin n (k * n + i + 1) := inv.hshape
    exact ⟨_, hshape.2.2.2.2.2.2.2⟩

lemma round_robin_get {n r t x : Nat} (h : (round_robin n r)[t]? = some x) :
    t < r ∧ x = t % n := by
  unfold round_robin at h
  rw [List.getElem?_map] at h
  by_cases ht : t < r
  · rw [List.getElem?_range ht] at h
    simp at h
    exact ⟨ht, h.symm⟩
  · rw [List.getElem?_eq_none (by simpa using ht)] at h
    simp at h

lemma round_robin_get_of_lt {n r t : Nat} (ht : t < r) :
    (round_robin n r)[t]? = some (t % n) := by
  unfold round_robin
  rw [List.getElem?_map, List.getElem?_range ht]
  rfl

lemma round_robin_fair {n r p q i : Nat} (hn : 1 ≤ n) (hpq : p < q)
    (hp : (round_robin n r)[p]? = some i) (hq : (round_robin n r)[q]? = some i)
    (hbetween : ∀ t, p < t → t < q → (round_robin n r)[t]? ≠ some i) :
    ∀ j, j < n → j ≠ i → ∃ t, p < t ∧ t < q ∧ (round_robin n r)[t]? = some j := by
  obtain ⟨hpr, hpi⟩ := round_robin_get hp
  obtain ⟨hqr, hqi⟩ := round_robin_get hq
  have hin : i < n := by rw [hpi]; exact Nat.mod_lt _ (by omega)
  have hpd : p / n * n + i = p := by rw [hpi, Nat.mul_comm]; exact Nat.div_add_mod p n
  have hqd : q / n * n + i = q := by rw [hqi, Nat.mul_comm]; exact Nat.div_add_mod q n
  have hdiv : p / n < q / n := by
    by_contra hcon
    have : q / n * n ≤ p / n * n := Nat.mul_le_mul_right n (by omega)
    omega
  have hstep : (p / n + 1) * n = p / n * n + n := Nat.succ_mul _ _
  have hle : (p / n + 1) * n ≤ q / n * n := Nat.mul_le_mul_right n hdiv
  have hqeq : q = p + n := by
    by_contra hne
    have hlt : p + n < q := by omega
    apply hbetween (p + n) (by omega) hlt
    rw [round_robin_get_of_lt (by omega)]
    congr 1
    rw [Nat.add_mod_right, hpi]
  intro j hj hji
  by_cases hij : i < j
  · refine ⟨p + (j - i), by omega, by omega, ?_⟩
    rw [round_robin_get_of_lt (by omega)]
    congr 1
    have : p + (j - i) = p / n * n + j := by omega
    rw [this, Nat.mul_add_mod_of_lt hj]
  · refine ⟨p + n - i + j, by omega, by omega, ?_⟩
    rw [round_robin_get_of_lt (by omega)]
    congr 1
    have : p + n - i + j = (p / n + 1) * n + j := by omega
    rw [this, Nat.mul_add_mod_of_lt hj]

/-- C2: in a work-group of `n ≥ 1` items that each make `b` barrier calls and then
return through `exit_fiber`, no item runs the code after its `k`-th barrier call
(`1 ≤ k ≤ b`) before every item of the group has made its `k`-th barrier call; and in
the completed run every item does run every such code segment. -/
theorem barrier_holds_items_until_all_arrive (n b : Nat) (old : opencl_x86_device_core_t)
    (hn : 1 ≤ n) :
    (∀ fuel t i k : Nat, 1 ≤ k →
      (launch_run b fuel (launch_init n old)).trace[t]? = some (Event.run i k) →
      ∀ j : Nat, j < n → ∃ u : Nat, u < t ∧
        (launch_run b fuel (launch_init n old)).trace[u]? = some (Event.barrier j k)) ∧
    (∃ fuel : Nat, launch_step b (launch_run b fuel (launch_init n old)) = none ∧
      ∀ i k : Nat, i < n → k ≤ b →
        Event.run i k ∈ (launch_run b fuel (launch_init n old)).trace) := by
  constructor
  · intro fuel
    exact (launch_run_inv hn fuel _ (LaunchInv_init n b old)).horder
  · obtain ⟨fuel, hf⟩ := launch_run_halts hn _ _ (LaunchInv_init n b old) (Nat.le_refl _)
    have inv := launch_run_inv hn fuel _ (LaunchInv_init n b old)
    obtain ⟨hd, hpos, _⟩ := launch_halted_facts hn inv hf
    refine ⟨fuel, hf, ?_⟩
    intro i k hi hk
    apply inv.hruns i k hi
    by_cases hkb : k = b
    · right; exact ⟨hkb, by omega⟩
    · left; rw [hpos i hi]; omega

/-- Witness for C2: two work-items with one barrier each. -/
theorem barrier_holds_items_until_all_arrive_witness :
    (launch_run 1 100 (launch_init 2 stale_core)).trace[7]? = some (Event.run 0 1) ∧
    ∃ u : Nat, u < 7 ∧
      (launch_run 1 100 (launch_init 2 stale_core)).trace[u]? = some (Event.barrier 1 1) :=
  ⟨by decide,
   (barrier_holds_items_until_all_arrive 2 1 stale_core (by decide)).1 100 7 0 1
     (by decide) (by decide) 1 (by decide)⟩

/-- C3: for a work-group of `n ≥ 1` items that each make `b` barrier calls and then
return through the exit trampoline, the dispatch loop of `work_group_launch` ends, and
whenever it has ended `num_done == num_items` and every item reached `exit_fiber`
exactly once. -/
theorem work_group_launch_terminates (n b : Nat) (old : opencl_x86_device_core_t)
    (hn : 1 ≤ n) :
    (∃ fuel : Nat, launch_step b (launch_run b fuel (launch_init n old)) = none) ∧
    (∀ fuel : Nat, launch_step b (launch_run b fuel (launch_init n old)) = none →
      (launch_run b fuel (launch_init n old)).core.num_done
        = (launch_run b fuel (launch_init n old)).core.num_items ∧
      (launch_run b fuel (launch_init n old)).core.num_items = n ∧
      ∀ j : Nat, j < n →
        (launch_run b fuel (launch_init n old)).trace.count (Event.exit j) = 1) := by
  constructor
  · exact launch_run_halts hn _ _ (LaunchInv_init n b old) (Nat.le_refl _)
  · intro fuel hf
    have inv := launch_run_inv hn fuel _ (LaunchInv_init n b old)
    obtain ⟨hd, _, _⟩ := launch_halted_facts hn inv hf
    refine ⟨by rw [hd, inv.hn], inv.hn, ?_⟩
    intro j hj
    rw [inv.hexit j, hd]
    simp [hj]

/-- Witness for C3: three work-items with two barriers each. -/
theorem work_group_launch_terminates_witness :
    launch_step 2 (launch_run 2 21 (launch_init 3 stale_core)) = none ∧
    (launch_run 2 21 (launch_init 3 stale_core)).core.num_done = 3 ∧
    (launch_run 2 21 (launch_init 3 stale_core)).trace.count (Event.exit 1) = 1 :=
  ⟨rfl,
   by
    have h := (work_group_launch_terminates 3 2 stale_core (by decide)).2 21 rfl
    rw [h.1, h.2.1],
   ((work_group_launch_terminates 3 2 stale_core (by decide)).2 21 rfl).2.2 1
     (by decide)⟩

/-- C4: in the sequence of fiber resumptions produced by the dispatch loop and the
barrier, between two consecutive resumptions of the same work-item every other
work-item of the group is resumed; the completed run resumes the items in round-robin
order `0, .., n-1`, repeated `b + 1` times. -/
theorem resumptions_are_round_robin_fair (n b : Nat) (old : opencl_x86_device_core_t)
    (hn : 1 ≤ n) :
    (∀ fuel p q i : Nat, p < q →
      (resumes (launch_run b fuel (launch_init n old)).trace)[p]? = some i →
      (resumes (launch_run b fuel (launch_init n old)).trace)[q]? = some i →
      (∀ t : Nat, p < t → t < q →
        (resumes (launch_run b fuel (launch_init n old)).trace)[t]? ≠ some i) →
      ∀ j : Nat, j < n → j ≠ i → ∃ t : Nat, p < t ∧ t < q ∧
        (resumes (launch_run b fuel (launch_init n old)).trace)[t]? = some j) ∧
    (∃ fuel : Nat, launch_step b (launch_run b fuel (launch_init n old)) = none ∧
      resumes (launch_run b fuel (launch_init n old)).trace
        = round_robin n (b * n + n)) := by
  constructor
  · intro fuel p q i hpq hp hq hbetween
    have inv := launch_run_inv hn fuel _ (LaunchInv_init n b old)
    obtain ⟨r, hr⟩ := launch_resumes_round_robin inv
    rw [hr] at hp hq hbetween ⊢
    exact round_robin_fair hn hpq hp hq hbetween
  · obtain ⟨fuel, hf⟩ := launch_run_halts hn _ _ (LaunchInv_init n b old) (Nat.le_refl _)
    have inv := launch_run_inv hn fuel _ (LaunchInv_init n b old)
    exact ⟨fuel, hf, (launch_halted_facts hn inv hf).2.2⟩

/-- Witness for C4: three work-items with one barrier each. -/
theorem resumptions_are_round_robin_fair_witness :
    resumes (launch_run 1 100 (launch_init 3 stale_core)).trace = [0, 1, 2, 0, 1, 2] ∧
    ∃ t : Nat, 1 < t ∧ t < 4 ∧
      (resumes (launch_run 1 100 (launch_init 3 stale_core)).trace)[t]? = some 0 :=
  ⟨by decide,
   (resumptions_are_round_robin_fair 3 1 stale_core (by decide)).1 100 1 4 1 (by decide)
     (by decide) (by decide) (by intro t h1 h2; interval_cases t <;> decide)
     0 (by decide) (by decide)⟩

/-! ### Stack-mask arithmetic -/

lemma land_stack_mask (x : Nat) (hx : x < 4294967296) :
    x &&& 0xffffe000 = 8192 * (x / 8192) := by
  apply Nat.eq_of_testBit_eq
  intro j
  have hmask : (0xffffe000 : Nat) = 2 ^ 13 * (2 ^ 19 - 1) := by norm_num
  have h8 : (8192 : Nat) = 2 ^ 13 := by norm_num
  have hxd : x = 2 ^ 13 * (x / 8192) + x % 8192 := by
    rw [← h8]; exact (Nat.div_add_mod x 8192).symm
  have hr : x % 8192 < 2 ^ 13 := by rw [← h8]; exact Nat.mod_lt _ (by norm_num)
  have ha : x / 8192 < 2 ^ 19 := by
    have : x / 8192 < 524288 := by omega
    norm_num; exact this
  rw [Nat.testBit_and, hmask, h8, Nat.testBit_mul_pow_two, Nat.testBit_mul_pow_two,
    Nat.testBit_two_pow_sub_one]
  conv_lhs => rw [hxd]
  rw [Nat.testBit_mul_pow_two_add _ hr]
  by_cases hj : j < 13
  · have : ¬ j ≥ 13 := by omega
    simp [hj, this]
  · have hge : j ≥ 13 := by omega
    by_cases hj2 : j - 13 < 19
    · simp [hj, hge, hj2]
    · have hfalse : (x / 8192).testBit (j - 13) = false := by
        apply Nat.testBit_lt_two_pow
        calc x / 8192 < 2 ^ 19 := ha
          _ ≤ 2 ^ (j - 13) := Nat.pow_le_pow_right (by norm_num) (by omega)
      simp [hj, hge, hfalse]

lemma get_work_group_data_addr_eq (base sp : Nat) (hbase : base % 8192 = 0)
    (hlo : base ≤ sp) (hhi : sp < base + 8192) (hsp : sp < 4294967296) :
    opencl_x86_device_get_work_group_data_addr sp = base + 8192 - 96 := by
  unfold opencl_x86_device_get_work_group_data_addr
  simp only [OPENCL_WORK_GROUP_STACK_SIZE, OPENCL_WORK_GROUP_STACK_MASK,
    OPENCL_WORK_GROUP_DATA_OFFSET]
  rw [land_stack_mask _ (Nat.mod_lt _ (by norm_num))]
  omega


/-- C5: for the fiber with index `i` laid out by `core_init` on a slab whose start is
a multiple of 0x2000, every 32-bit stack pointer inside the fiber's 0x2000-byte slot
makes `get_work_group_data` read the same address, 0x60 below the end of the
metadata block `work_item_data[i]`, and that address lies in no other fiber's
metadata block. -/
theorem get_work_group_data_reads_own_metadata
    (aligned_stacks sizeof_work_item_data i sp : Nat)
    (halign : aligned_stacks % OPENCL_WORK_GROUP_STACK_SIZE = 0)
    (hsize : sizeof_work_item_data ≤ OPENCL_WORK_GROUP_STACK_SIZE)
    (hlo : (opencl_x86_device_core_init aligned_stacks sizeof_work_item_data i).stack_bottom
      ≤ sp)
    (hhi : sp < (opencl_x86_device_core_init aligned_stacks sizeof_work_item_data i).stack_bottom
      + OPENCL_WORK_GROUP_STACK_SIZE)
    (hsp : sp < 4294967296) :
    opencl_x86_device_get_work_group_data_addr sp
      = (opencl_x86_device_core_init aligned_stacks sizeof_work_item_data i).stack_bottom
        + 0x2000 - 0x60 ∧
    opencl_x86_device_get_work_group_data_addr sp + 0x60
      = (opencl_x86_device_core_init aligned_stacks sizeof_work_item_data i).work_item_data
        + sizeof_work_item_data ∧
    (0x60 ≤ sizeof_work_item_data →
      (opencl_x86_device_core_init aligned_stacks sizeof_work_item_data i).work_item_data
        ≤ opencl_x86_device_get_work_group_data_addr sp) ∧
    (∀ i2 : Nat, i2 ≠ i →
      ¬ ((opencl_x86_device_core_init aligned_stacks sizeof_work_item_data i2).work_item_data
          ≤ opencl_x86_device_get_work_group_data_addr sp ∧
        opencl_x86_device_get_work_group_data_addr sp
          < (opencl_x86_device_core_init aligned_stacks sizeof_work_item_data i2).work_item_data
            + sizeof_work_item_data)) := by
  simp only [opencl_x86_device_core_init, OPENCL_WORK_GROUP_STACK_SIZE] at *
  have hbase : (aligned_stacks + i * 8192) % 8192 = 0 := by omega
  have haddr := get_work_group_data_addr_eq (aligned_stacks + i * 8192) sp hbase hlo hhi hsp
  rw [haddr]
  refine ⟨rfl, by omega, fun _ => by omega, ?_⟩
  intro i2 hne
  omega

/-- Witness for C5: fiber 3 of a slab at 0x10000, with a 0x60-byte metadata block. -/
theorem get_work_group_data_reads_own_metadata_witness :
    opencl_x86_device_get_work_group_data_addr 0x17f00 = 0x17fa0 ∧
    opencl_x86_device_get_work_group_data_addr 0x16000 = 0x17fa0 ∧
    (opencl_x86_device_core_init 0x10000 0x60 3).work_item_data = 0x17fa0 :=
  ⟨(get_work_group_data_reads_own_metadata 0x10000 0x60 3 0x17f00 (by decide) (by decide)
      (by decide) (by decide) (by decide)).1,
   by decide, by decide⟩

/-! ### Index decomposition -/

lemma nd_address_loop_spec (size : Nat → Nat) (a : Nat) :
    ∀ (k i : Nat) (pos : Nat → Nat) (j : Nat),
      nd_address_loop size k i (nd_div size i a) pos j
        = if i ≤ j ∧ j < i + k then nd_div size j a % size j else pos j := by
  intro k
  induction k with
  | zero =>
    intro i pos j
    have : ¬ (i ≤ j ∧ j < i + 0) := by omega
    simp only [nd_address_loop, this, if_false]
  | succ k ih =>
    intro i pos j
    have hstep : nd_div size i a / size i = nd_div size (i + 1) a := rfl
    simp only [nd_address_loop]
    rw [hstep, ih (i + 1)]
    by_cases hji : j = i
    · subst hji
      have h1 : ¬ (j + 1 ≤ j ∧ j < j + 1 + k) := by omega
      have h2 : j ≤ j ∧ j < j + (k + 1) := by omega
      rw [if_neg h1, if_pos h2]
      simp only [if_true]
    · by_cases hin : i + 1 ≤ j ∧ j < i + 1 + k
      · have h2 : i ≤ j ∧ j < i + (k + 1) := by omega
        simp only [hin, h2, if_true, and_self]
      · have h2 : ¬ (i ≤ j ∧ j < i + (k + 1)) := by omega
        simp only [hin, h2, hji, if_false]

lemma opencl_nd_address_spec (dim addr : Nat) (size pos : Nat → Nat) (j : Nat) :
    opencl_nd_address dim addr size pos j
      = if j < dim then nd_div size j addr % size j else pos j := by
  have h := nd_address_loop_spec size addr dim 0 pos j
  simp only [nd_div, Nat.zero_le, true_and, Nat.zero_add] at h
  exact h

lemma opencl_nd_address_congr (dim addr : Nat) (size pos pos2 : Nat → Nat)
    (h : ∀ j, dim ≤ j → pos j = pos2 j) :
    opencl_nd_address dim addr size pos = opencl_nd_address dim addr size pos2 := by
  funext j
  rw [opencl_nd_address_spec, opencl_nd_address_spec]
  by_cases hj : j < dim
  · simp only [hj, if_true]
  · simp only [hj, if_false]
    exact h j (by omega)

lemma launch_ids_fold (e : exec_ids_t) (num : Nat)
    (data : Nat → opencl_x86_device_work_item_data_t) (n : Nat) :
    (∀ j, e.ndrange.work_dim ≤ j →
      ((List.range n).foldl (fun s i => launch_ids_body e num i s)
        { local_id := fun _ => 0, work_item_data := data }).local_id j = 0) ∧
    (∀ i, i < n →
      ((List.range n).foldl (fun s i => launch_ids_body e num i s)
        { local_id := fun _ => 0, work_item_data := data }).work_item_data i
      = (launch_ids_body e num i
          { local_id := fun _ => 0, work_item_data := data }).work_item_data i) ∧
    (∀ i, n ≤ i →
      ((List.range n).foldl (fun s i => launch_ids_body e num i s)
        { local_id := fun _ => 0, work_item_data := data }).work_item_data i = data i) := by
  induction n with
  | zero =>
    refine ⟨fun j _ => rfl, fun i hi => by omega, fun i _ => rfl⟩
  | succ n ih =>
    obtain ⟨h1, h2, h3⟩ := ih
    rw [List.range_succ, List.foldl_append]
    simp only [List.foldl_cons, List.foldl_nil]
    generalize hs : (List.range n).foldl (fun s i => launch_ids_body e num i s)
      { local_id := fun _ => 0, work_item_data := data } = s at h1 h2 h3
    have hcongr : opencl_nd_address e.ndrange.work_dim n e.ndrange.local_work_size s.local_id
        = opencl_nd_address e.ndrange.work_dim n e.ndrange.local_work_size (fun _ => 0) :=
      opencl_nd_address_congr _ _ _ _ _ h1
    refine ⟨?_, ?_, ?_⟩
    · intro j hj
      show opencl_nd_address e.ndrange.work_dim n e.ndrange.local_work_size s.local_id j = 0
      rw [opencl_nd_address_spec]
      have : ¬ j < e.ndrange.work_dim := by omega
      simp only [this, if_false]
      exact h1 j hj
    · intro i hi
      by_cases hin : i = n
      · subst hin
        simp only [launch_ids_body, if_true, hcongr, h3 i (Nat.le_refl _)]
      · have hlt : i < n := by omega
        simp only [launch_ids_body, hin, if_false]
        rw [h2 i hlt]
        simp only [launch_ids_body, if_true]
    · intro i hi
      have hin : ¬ i = n := by omega
      simp only [launch_ids_body, hin, if_false]
      exact h3 i (by omega)

lemma launch_ids_item (e : exec_ids_t) (num num_items : Nat)
    (data : Nat → opencl_x86_device_work_item_data_t) (i j : Nat)
    (hi : i < num_items) (hj : j < 3) :
    (work_group_launch_ids e num num_items data i).group_global j
      = u32 ((opencl_nd_address e.ndrange.work_dim num e.work_group_count (fun _ => 0) j
            + e.work_group_start j) * e.ndrange.local_work_size j
          + e.ndrange.global_work_offset j) ∧
    (work_group_launch_ids e num num_items data i).global_id j
      = u32 ((work_group_launch_ids e num num_items data i).group_global j
          + opencl_nd_address e.ndrange.work_dim i e.ndrange.local_work_size
              (fun _ => 0) j) ∧
    (work_group_launch_ids e num num_items data i).group_id j
      = opencl_nd_address e.ndrange.work_dim num e.work_group_count (fun _ => 0) j := by
  unfold work_group_launch_ids
  rw [(launch_ids_fold e num data num_items).2.1 i hi]
  simp only [launch_ids_body, if_true, hj, launch_group_global, launch_group_id]
  simp

lemma nd_div_eq (size : Nat → Nat) (j a : Nat) : nd_div size j a = a / nd_size size j := by
  induction j with
  | zero => simp [nd_div, nd_size]
  | succ j ih => simp only [nd_div, nd_size, ih, Nat.div_div_eq_div_mul]

lemma nd_size_factor_pos (size : Nat → Nat) (d : Nat) (h : 0 < nd_size size d) :
    ∀ j, j < d → 0 < size j := by
  induction d with
  | zero => intro j hj; omega
  | succ d ih =>
    intro j hj
    simp only [nd_size] at h
    have h1 : 0 < nd_size size d := Nat.pos_of_mul_pos_right h
    have h2 : 0 < size d := Nat.pos_of_mul_pos_left h
    by_cases hjd : j = d
    · subst hjd; exact h2
    · exact ih h1 j (by omega)

lemma nd_size_pos (size : Nat → Nat) (d : Nat) (h : ∀ j, j < d → 0 < size j) :
    0 < nd_size size d := by
  induction d with
  | zero => simp [nd_size]
  | succ d ih =>
    simp only [nd_size]
    exact Nat.mul_pos (ih (fun j hj => h j (by omega))) (h d (by omega))

lemma nd_digit_lt (size : Nat → Nat) (d a : Nat) (ha : a < nd_size size d) (j : Nat)
    (hj : j < d) : nd_div size j a % size j < size j :=
  Nat.mod_lt _ (nd_size_factor_pos size d (by omega) j hj)

lemma nd_digits_inj (size : Nat → Nat) (d a a2 : Nat) (ha : a < nd_size size d)
    (ha2 : a2 < nd_size size d)
    (h : ∀ j, j < d → nd_div size j a % size j = nd_div size j a2 % size j) : a = a2 := by
  have key : ∀ k, k ≤ d → nd_div size (d - k) a = nd_div size (d - k) a2 := by
    intro k
    induction k with
    | zero =>
      intro _
      simp only [Nat.sub_zero, nd_div_eq, Nat.div_eq_of_lt ha, Nat.div_eq_of_lt ha2]
    | succ k ih =>
      intro hk
      have hprev := ih (by omega)
      have hj : d - k = (d - (k + 1)) + 1 := by omega
      rw [hj] at hprev
      simp only [nd_div] at hprev
      have hdig := h (d - (k + 1)) (by omega)
      have e1 := Nat.div_add_mod (nd_div size (d - (k + 1)) a) (size (d - (k + 1)))
      have e2 := Nat.div_add_mod (nd_div size (d - (k + 1)) a2) (size (d - (k + 1)))
      rw [← e1, ← e2, hprev, hdig]
  have := key d (Nat.le_refl _)
  simpa [nd_div] using this

lemma nd_encode_lt (size x : Nat → Nat) (d : Nat) (h : ∀ j, j < d → x j < size j) :
    nd_encode size x d < nd_size size d := by
  induction d with
  | zero => simp [nd_encode, nd_size]
  | succ d ih =>
    have h1 := ih (fun j hj => h j (by omega))
    have h2 : x d + 1 ≤ size d := h d (by omega)
    have h3 : nd_size size d * (x d + 1) ≤ nd_size size d * size d :=
      Nat.mul_le_mul_left _ h2
    simp only [nd_encode, nd_size]
    calc nd_encode size x d + x d * nd_size size d
        < nd_size size d + x d * nd_size size d := by omega
      _ = nd_size size d * (x d + 1) := by ring
      _ ≤ nd_size size d * size d := h3

lemma nd_size_dvd (size : Nat → Nat) (j d : Nat) (h : j ≤ d) :
    nd_size size j ∣ nd_size size d := by
  induction d with
  | zero =>
    have : j = 0 := by omega
    subst this; exact dvd_refl _
  | succ d ih =>
    by_cases hj : j = d + 1
    · subst hj; exact dvd_refl _
    · simp only [nd_size]
      exact Dvd.dvd.mul_right (ih (by omega)) _

lemma nd_encode_digit (size x : Nat → Nat) (d : Nat) (h : ∀ j, j < d → x j < size j) :
    ∀ j, j < d → nd_div size j (nd_encode size x d) % size j = x j := by
  induction d with
  | zero => intro j hj; omega
  | succ d ih =>
    intro j hj
    have hpre : ∀ t, t < d → x t < size t := fun t ht => h t (by omega)
    have hposd : 0 < nd_size size d :=
      nd_size_pos size d (fun t ht => Nat.lt_of_le_of_lt (Nat.zero_le _) (hpre t ht))
    rw [nd_div_eq]
    simp only [nd_encode]
    by_cases hjd : j = d
    · subst hjd
      rw [Nat.add_mul_div_right _ _ hposd, Nat.div_eq_of_lt (nd_encode_lt size x j hpre),
        Nat.zero_add]
      exact Nat.mod_eq_of_lt (h j (by omega))
    · have hlt : j < d := by omega
      have hposj : 0 < nd_size size j :=
        nd_size_pos size j (fun t ht => Nat.lt_of_le_of_lt (Nat.zero_le _) (hpre t (by omega)))
      obtain ⟨M, hM⟩ := nd_size_dvd size (j + 1) d (by omega)
      simp only [nd_size] at hM
      have hre : x d * nd_size size d = (size j * (x d * M)) * nd_size size j := by
        rw [hM]; ring
      rw [hre, Nat.add_mul_div_right _ _ hposj, Nat.add_mul_mod_self_left]
      have := ih hpre j hlt
      rw [nd_div_eq] at this
      exact this

lemma divmod_unique (l a b a2 b2 : Nat) (hb : b < l) (hb2 : b2 < l)
    (h : a * l + b = a2 * l + b2) : a = a2 ∧ b = b2 := by
  have hl : 0 < l := by omega
  have h1 : (a * l + b) / l = a := by
    rw [Nat.add_comm, Nat.add_mul_div_right _ _ hl, Nat.div_eq_of_lt hb, Nat.zero_add]
  have h2 : (a2 * l + b2) / l = a2 := by
    rw [Nat.add_comm, Nat.add_mul_div_right _ _ hl, Nat.div_eq_of_lt hb2, Nat.zero_add]
  have ha : a = a2 := by rw [← h1, ← h2, h]
  subst ha
  exact ⟨rfl, by omega⟩

lemma launch_global_id_eq (e : exec_ids_t) (data : Nat → opencl_x86_device_work_item_data_t)
    (g i n : Nat) (hi : i < n) (hstart : ∀ j, j < 3 → e.work_group_start j = 0)
    (j : Nat) (hj : j < 3) :
    (work_group_launch_ids e g n data i).global_id j
      = u32 (e.ndrange.global_work_offset j +
          (if j < e.ndrange.work_dim then
            nd_div e.work_group_count j g % e.work_group_count j * e.ndrange.local_work_size j
              + nd_div e.ndrange.local_work_size j i % e.ndrange.local_work_size j
          else 0)) := by
  obtain ⟨h1, h2, _⟩ := launch_ids_item e g n data i j hi hj
  rw [h2, h1, opencl_nd_address_spec, opencl_nd_address_spec, hstart j hj]
  by_cases hd : j < e.ndrange.work_dim
  · simp only [hd, if_true, u32, Nat.add_zero]
    omega
  · simp only [hd, if_false, u32, Nat.add_zero, Nat.zero_mul, Nat.zero_add]
    omega

lemma launch_point_lt (count loc glob : Nat → Nat) (d g i : Nat)
    (hg : g < nd_size count d) (hi : i < nd_size loc d)
    (hglob : ∀ j, j < d → glob j = count j * loc j) (j : Nat) (hj : j < d) :
    nd_div count j g % count j * loc j + nd_div loc j i % loc j < glob j := by
  have h1 := nd_digit_lt count d g hg j hj
  have h2 := nd_digit_lt loc d i hi j hj
  have h3 : (nd_div count j g % count j + 1) * loc j ≤ count j * loc j :=
    Nat.mul_le_mul_right _ h1
  rw [hglob j hj]
  calc nd_div count j g % count j * loc j + nd_div loc j i % loc j
      < nd_div count j g % count j * loc j + loc j := by omega
    _ = (nd_div count j g % count j + 1) * loc j := by ring
    _ ≤ count j * loc j := h3

/-- C7: after the per-group initialisation of `work_group_launch` for group `num`,
every item `i < num_items` has, for `j < 3` and in unsigned 32-bit arithmetic,
`group_global[j] = (group_id[j] + work_group_start[j]) * local_work_size[j] +
global_work_offset[j]`, `global_id[j] = group_global[j] + local_id[j]` and the group's
`group_id[j]`, with `group_id` and `local_id` the decompositions of `num` over
`work_group_count` and of `i` over `local_work_size`. -/
theorem work_group_launch_sets_item_ids (e : exec_ids_t) (num num_items : Nat)
    (data : Nat → opencl_x86_device_work_item_data_t) (i j : Nat)
    (hi : i < num_items) (hj : j < 3) :
    (work_group_launch_ids e num num_items data i).group_global j
      = u32 ((opencl_nd_address e.ndrange.work_dim num e.work_group_count (fun _ => 0) j
            + e.work_group_start j) * e.ndrange.local_work_size j
          + e.ndrange.global_work_offset j) ∧
    (work_group_launch_ids e num num_items data i).global_id j
      = u32 ((work_group_launch_ids e num num_items data i).group_global j
          + opencl_nd_address e.ndrange.work_dim i e.ndrange.local_work_size
              (fun _ => 0) j) ∧
    (work_group_launch_ids e num num_items data i).group_id j
      = opencl_nd_address e.ndrange.work_dim num e.work_group_count (fun _ => 0) j := by
  unfold work_group_launch_ids
  rw [(launch_ids_fold e num data num_items).2.1 i hi]
  simp only [launch_ids_body, if_true, hj, launch_group_global, launch_group_id]
  simp

/-- Witness for C7: item 3 of group 2 in the NDRange global (4,4), local (2,2). -/
theorem work_group_launch_sets_item_ids_witness :
    (work_group_launch_ids exec_s5 2 4 stale_items 3).group_global 1 = 2 ∧
    (work_group_launch_ids exec_s5 2 4 stale_items 3).global_id 1
      = u32 ((work_group_launch_ids exec_s5 2 4 stale_items 3).group_global 1
          + opencl_nd_address 2 3 exec_s5.ndrange.local_work_size (fun _ => 0) 1) ∧
    (work_group_launch_ids exec_s5 2 4 stale_items 3).global_id 1 = 3 :=
  ⟨by decide,
   (work_group_launch_sets_item_ids exec_s5 2 4 stale_items 3 1 (by decide) (by decide)).2.1,
   by decide⟩

/-- The id vectors that the item loop of `work_group_launch` writes when it runs over
`nd_size local_work_size` items for each of `nd_size work_group_count` groups: they are
pairwise distinct and are exactly the points of the global index space shifted by the
offset, in unsigned 32-bit arithmetic. -/
lemma launch_global_ids_cover (e : exec_ids_t)
    (data : Nat → opencl_x86_device_work_item_data_t)
    (hdim : e.ndrange.work_dim ≤ 3)
    (hlocal : ∀ j, j < e.ndrange.work_dim → 0 < e.ndrange.local_work_size j)
    (hmult : ∀ j, j < e.ndrange.work_dim →
      e.ndrange.global_work_size j % e.ndrange.local_work_size j = 0)
    (hcount : ∀ j, j < e.ndrange.work_dim →
      e.work_group_count j = e.ndrange.global_work_size j / e.ndrange.local_work_size j)
    (hstart : ∀ j, j < 3 → e.work_group_start j = 0)
    (hbits : ∀ j, j < e.ndrange.work_dim → e.ndrange.global_work_size j < 4294967296) :
    (∀ g g2 i i2 : Nat,
      g < nd_size e.work_group_count e.ndrange.work_dim →
      g2 < nd_size e.work_group_count e.ndrange.work_dim →
      i < nd_size e.ndrange.local_work_size e.ndrange.work_dim →
      i2 < nd_size e.ndrange.local_work_size e.ndrange.work_dim →
      (∀ j, j < 3 →
        (work_group_launch_ids e g
          (nd_size e.ndrange.local_work_size e.ndrange.work_dim) data i).global_id j
        = (work_group_launch_ids e g2
          (nd_size e.ndrange.local_work_size e.ndrange.work_dim) data i2).global_id j) →
      g = g2 ∧ i = i2) ∧
    (∀ g i : Nat,
      g < nd_size e.work_group_count e.ndrange.work_dim →
      i < nd_size e.ndrange.local_work_size e.ndrange.work_dim →
      ∃ x : Nat → Nat,
        (∀ j, j < e.ndrange.work_dim → x j < e.ndrange.global_work_size j) ∧
        (∀ j, e.ndrange.work_dim ≤ j → x j = 0) ∧
        ∀ j, j < 3 →
          (work_group_launch_ids e g
            (nd_size e.ndrange.local_work_size e.ndrange.work_dim) data i).global_id j
          = u32 (e.ndrange.global_work_offset j + x j)) ∧
    (∀ x : Nat → Nat,
      (∀ j, j < e.ndrange.work_dim → x j < e.ndrange.global_work_size j) →
      (∀ j, e.ndrange.work_dim ≤ j → x j = 0) →
      ∃ g i : Nat,
        g < nd_size e.work_group_count e.ndrange.work_dim ∧
        i < nd_size e.ndrange.local_work_size e.ndrange.work_dim ∧
        ∀ j, j < 3 →
          (work_group_launch_ids e g
            (nd_size e.ndrange.local_work_size e.ndrange.work_dim) data i).global_id j
          = u32 (e.ndrange.global_work_offset j + x j)) := by
  have hglob : ∀ j, j < e.ndrange.work_dim →
      e.ndrange.global_work_size j = e.work_group_count j * e.ndrange.local_work_size j := by
    intro j hj
    rw [hcount j hj]
    exact (Nat.div_mul_cancel (Nat.dvd_of_mod_eq_zero (hmult j hj))).symm
  refine ⟨?_, ?_, ?_⟩
  · intro g g2 i i2 hg hg2 hi hi2 heq
    have hdig : ∀ j, j < e.ndrange.work_dim →
        nd_div e.work_group_count j g % e.work_group_count j
          = nd_div e.work_group_count j g2 % e.work_group_count j ∧
        nd_div e.ndrange.local_work_size j i % e.ndrange.local_work_size j
          = nd_div e.ndrange.local_work_size j i2 % e.ndrange.local_work_size j := by
      intro j hj
      have hj3 : j < 3 := by omega
      have h := heq j hj3
      rw [launch_global_id_eq e data g i _ hi hstart j hj3,
        launch_global_id_eq e data g2 i2 _ hi2 hstart j hj3] at h
      simp only [hj, if_true, u32] at h
      have hx1 := launch_point_lt e.work_group_count e.ndrange.local_work_size
        e.ndrange.global_work_size _ g i hg hi hglob j hj
      have hx2 := launch_point_lt e.work_group_count e.ndrange.local_work_size
        e.ndrange.global_work_size _ g2 i2 hg2 hi2 hglob j hj
      have hb := hbits j hj
      apply divmod_unique (e.ndrange.local_work_size j)
      · exact nd_digit_lt _ _ i hi j hj
      · exact nd_digit_lt _ _ i2 hi2 j hj
      · omega
    exact ⟨nd_digits_inj _ _ g g2 hg hg2 (fun j hj => (hdig j hj).1),
      nd_digits_inj _ _ i i2 hi hi2 (fun j hj => (hdig j hj).2)⟩
  · intro g i hg hi
    refine ⟨fun j => if j < e.ndrange.work_dim then
        nd_div e.work_group_count j g % e.work_group_count j * e.ndrange.local_work_size j
          + nd_div e.ndrange.local_work_size j i % e.ndrange.local_work_size j
        else 0, ?_, ?_, ?_⟩
    · intro j hj
      simp only [hj, if_true]
      exact launch_point_lt _ _ _ _ g i hg hi hglob j hj
    · intro j hj
      have : ¬ j < e.ndrange.work_dim := by omega
      simp only [this, if_false]
    · intro j hj
      exact launch_global_id_eq e data g i _ hi hstart j hj
  · intro x hx hx0
    have ha : ∀ j, j < e.ndrange.work_dim →
        x j / e.ndrange.local_work_size j < e.work_group_count j := by
      intro j hj
      rw [Nat.div_lt_iff_lt_mul (hlocal j hj), ← hglob j hj]
      exact hx j hj
    have hb : ∀ j, j < e.ndrange.work_dim →
        x j % e.ndrange.local_work_size j < e.ndrange.local_work_size j :=
      fun j hj => Nat.mod_lt _ (hlocal j hj)
    refine ⟨nd_encode e.work_group_count (fun j => x j / e.ndrange.local_work_size j)
        e.ndrange.work_dim,
      nd_encode e.ndrange.local_work_size (fun j => x j % e.ndrange.local_work_size j)
        e.ndrange.work_dim,
      nd_encode_lt _ _ _ ha, nd_encode_lt _ _ _ hb, ?_⟩
    intro j hj
    rw [launch_global_id_eq e data _ _ _ (nd_encode_lt _ _ _ hb) hstart j hj]
    by_cases hjd : j < e.ndrange.work_dim
    · simp only [hjd, if_true]
      rw [nd_encode_digit _ _ _ ha j hjd, nd_encode_digit _ _ _ hb j hjd,
        Nat.div_add_mod']
    · simp only [hjd, if_false]
      rw [hx0 j (by omega)]


/-! ### Memory transfers -/

lemma memcpy_bytes_disjoint (mem : Mem) (dst src n : Nat)
    (h : ¬ (dst < src + n ∧ src < dst + n)) :
    ∀ k, k ≤ n → ∀ a, memcpy_bytes mem dst src k a
      = if dst ≤ a ∧ a < dst + k then mem (src + (a - dst)) else mem a := by
  intro k
  induction k with
  | zero =>
    intro _ a
    have : ¬ (dst ≤ a ∧ a < dst + 0) := by omega
    simp only [memcpy_bytes, this, if_false]
  | succ k ih =>
    intro hk a
    have ihk := ih (by omega)
    simp only [memcpy_bytes]
    by_cases ha : a = dst + k
    · subst ha
      have h1 : ¬ (dst ≤ src + k ∧ src + k < dst + k) := by omega
      have h2 : dst ≤ dst + k ∧ dst + k < dst + (k + 1) := by omega
      rw [if_pos rfl, ihk, if_neg h1, if_pos h2]
      congr 1
      omega
    · rw [if_neg ha, ihk]
      by_cases hin : dst ≤ a ∧ a < dst + k
      · have h2 : dst ≤ a ∧ a < dst + (k + 1) := by omega
        rw [if_pos hin, if_pos h2]
      · have h2 : ¬ (dst ≤ a ∧ a < dst + (k + 1)) := by omega
        rw [if_neg hin, if_neg h2]

lemma memcpy_eq_memmove (mem : Mem) (dst src n : Nat)
    (h : ¬ (dst < src + n ∧ src < dst + n)) :
    memcpy mem dst src n = some (memmove_spec mem dst src n) := by
  unfold memcpy
  rw [if_neg h]
  congr 1
  funext a
  exact memcpy_bytes_disjoint mem dst src n h n (Nat.le_refl _) a

/-- When the source and destination ranges do not overlap, `mem_copy`, `mem_read` and
`mem_write` leave memory byte-identical to `memmove` with the same arguments. For
overlapping ranges the three functions call `memcpy` outside what C defines for it, and
the sources at hand do not determine the outcome. -/
lemma mem_transfers_eq_memmove_of_disjoint (mem : Mem) (dst src n : Nat)
    (h : ¬ (dst < src + n ∧ src < dst + n)) :
    opencl_x86_device_mem_copy mem dst src n = some (memmove_spec mem dst src n) ∧
    opencl_x86_device_mem_read mem dst src n = some (memmove_spec mem dst src n) ∧
    opencl_x86_device_mem_write mem dst src n = some (memmove_spec mem dst src n) :=
  ⟨memcpy_eq_memmove mem dst src n h, memcpy_eq_memmove mem dst src n h,
    memcpy_eq_memmove mem dst src n h⟩

/-! ### Completion signalling -/

/-- C9, the code at the failing input: the first of two workers to finish raises
`num_done` to 1, which differs from `num_cores = 2`, and still signals `done`; the
signal is sent whatever the counters are. -/
theorem core_func_signals_done_before_last_worker :
    (core_func_kernel_done { num_cores := 2, num_kernels := 1, num_done := 0 }).1.num_done = 1 ∧
    (core_func_kernel_done { num_cores := 2, num_kernels := 1, num_done := 0 }).1.num_done
      ≠ (core_func_kernel_done { num_cores := 2, num_kernels := 1, num_done := 0 }).1.num_cores ∧
    SyncCall.signal_done ∈
      (core_func_kernel_done { num_cores := 2, num_kernels := 1, num_done := 0 }).2 ∧
    ∀ device : opencl_x86_device_t,
      (core_func_kernel_done device).2 = [SyncCall.lock, SyncCall.signal_done] := by
  refine ⟨by decide, by decide, by decide, ?_⟩
  intro device
  unfold core_func_kernel_done
  by_cases h : wrap_int (device.num_done + 1) = device.num_cores
  · simp [h]
  · simp [h]

/-! ### Work-group size -/

lemma wrap_int_mul_left (a x : Int) : wrap_int (wrap_int a * x) = wrap_int (a * x) := by
  have h : wrap_int a = a - 4294967296 * ((a + 2147483648) / 4294967296) := by
    unfold wrap_int
    rw [Int.emod_def]
    ring
  have h2 : wrap_int a * x + 2147483648
      = (a * x + 2147483648) + 4294967296 * (-((a + 2147483648) / 4294967296) * x) := by
    rw [h]; ring
  unfold wrap_int at *
  rw [h2, Int.add_mul_emod_self_left]

lemma num_items_fold (size : Nat → Nat) (d : Nat) :
    (List.range d).foldl (fun num_items i => wrap_int (num_items * (size i : Int))) 1
      = wrap_int (nd_size size d) := by
  induction d with
  | zero => simp [nd_size]; decide
  | succ d ih =>
    rw [List.range_succ, List.foldl_append]
    simp only [List.foldl_cons, List.foldl_nil]
    rw [ih, wrap_int_mul_left]
    simp [nd_size]

lemma work_group_init_num_items_eq (nd : opencl_x86_ndrange_t) :
    work_group_init_num_items nd = wrap_int (nd_size nd.local_work_size nd.work_dim) :=
  num_items_fold nd.local_work_size nd.work_dim

lemma wrap_int_le_self (p : Nat) : wrap_int (p : Int) ≤ (p : Int) := by
  unfold wrap_int; omega

/-- C10, counterexample: `work_group_init` accepts a one-dimensional local size of
1025 and computes `num_items = 1025`, above a maximum of 1024; no maximum below
`INT_MAX` bounds the `num_items` of every execution record. -/
theorem work_group_init_num_items_unbounded :
    ¬ (work_group_init_num_items (ndrange_1d 1025) ≤ 1024) ∧
    ¬ ∃ max : Nat, max < 2147483647 ∧
        ∀ nd : opencl_x86_ndrange_t, work_group_init_num_items nd ≤ (max : Int) := by
  constructor
  · decide
  · rintro ⟨max, hmax, h⟩
    have h1 := h (ndrange_1d (max + 1))
    rw [work_group_init_num_items_eq] at h1
    simp only [ndrange_1d, nd_size] at h1
    rw [wrap_int_id _ (by push_cast; omega) (by push_cast; omega)] at h1
    push_cast at h1
    omega

/-- C10, amended: `work_group_init` makes no check of its own; when the product of
`local_work_size[0..work_dim)` is at most the maximum `max_items`
(`X86_MAX_WORK_GROUP_SIZE`), the `num_items` it computes is at most `max_items`, it is
that product when the product fits an `int`, and every index `i < num_items` lies
inside the arrays of `max_items` entries and the stack slab allocated by `core_init`. -/
theorem work_group_init_indices_in_bounds (max_items : Nat) (nd : opencl_x86_ndrange_t)
    (h : nd_size nd.local_work_size nd.work_dim ≤ max_items) :
    work_group_init_num_items nd ≤ (max_items : Int) ∧
    (nd_size nd.local_work_size nd.work_dim < 2147483648 →
      work_group_init_num_items nd = (nd_size nd.local_work_size nd.work_dim : Int)) ∧
    (∀ i, i ∈ work_group_item_indices nd →
      i < max_items ∧
      ∀ aligned_stacks size_of_data : Nat, size_of_data ≤ OPENCL_WORK_GROUP_STACK_SIZE →
        (opencl_x86_device_core_init aligned_stacks size_of_data i).work_item_data
            + size_of_data
          ≤ aligned_stacks + OPENCL_WORK_GROUP_STACK_SIZE * max_items) := by
  have hle := wrap_int_le_self (nd_size nd.local_work_size nd.work_dim)
  have heq := work_group_init_num_items_eq nd
  refine ⟨by rw [heq]; omega, ?_, ?_⟩
  · intro hfit
    rw [heq]
    exact wrap_int_id _ (by omega) (by omega)
  · intro i hi
    unfold work_group_item_indices at hi
    rw [List.mem_range, heq] at hi
    have hi2 : i < max_items := by omega
    refine ⟨hi2, ?_⟩
    intro aligned_stacks size_of_data hsz
    simp only [opencl_x86_device_core_init, OPENCL_WORK_GROUP_STACK_SIZE] at *
    omega

/-- Witness for C10: local size (16) against a maximum of 1024. -/
theorem work_group_init_indices_in_bounds_witness :
    nd_size (ndrange_1d 16).local_work_size (ndrange_1d 16).work_dim ≤ 1024 ∧
    work_group_init_num_items (ndrange_1d 16) = 16 ∧
    work_group_init_num_items (ndrange_1d 16) ≤ 1024 :=
  ⟨by decide, by decide,
   (work_group_init_indices_in_bounds 1024 (ndrange_1d 16) (by decide)).1⟩

/-! ### Global ids over the whole NDRange -/

/-- Counterexample to C6 as stated: global size 65536 x 65536 with the same local size
meets every condition of the claim (two dimensions, global a multiple of local, one
group per dimension, start 0), yet `work_group_init` leaves `num_items = 0`, the
product 2^32 reduced to an `int`, so `work_group_launch` stops at
`assert(workgroup_data->num_items > 0)` and writes no id at all. -/
theorem work_group_launch_stops_on_wrapped_num_items :
    exec_overflow.ndrange.work_dim = 2 ∧
    (∀ j, j < 2 →
      exec_overflow.ndrange.global_work_size j % exec_overflow.ndrange.local_work_size j = 0 ∧
      exec_overflow.work_group_count j =
        exec_overflow.ndrange.global_work_size j / exec_overflow.ndrange.local_work_size j ∧
      0 < exec_overflow.ndrange.local_work_size j) ∧
    (∀ j, j < 3 → exec_overflow.work_group_start j = 0) ∧
    nd_size exec_overflow.ndrange.local_work_size 2 = 4294967296 ∧
    work_group_init_num_items exec_overflow.ndrange = 0 ∧
    ∀ (max_work_group_size : Nat) (data : Nat → opencl_x86_device_work_item_data_t),
      opencl_x86_device_work_group_launch_ids max_work_group_size exec_overflow 0
        (work_group_init_num_items exec_overflow.ndrange) data = none := by
  have h0 : work_group_init_num_items exec_overflow.ndrange = 0 := by decide
  refine ⟨rfl, ?_, fun _ _ => rfl, by decide, h0, ?_⟩
  · intro j hj
    interval_cases j <;> decide
  · intro max_work_group_size data
    unfold opencl_x86_device_work_group_launch_ids
    rw [h0, if_pos (by decide)]

/-- C6 (amended): for an NDRange of one to three dimensions whose global size is a
multiple of the local size in each used dimension, with `work_group_start = 0` and
`work_group_count[j] = global[j] / local[j]`, whose local sizes multiply to at most
`X86_MAX_WORK_GROUP_SIZE` (itself below 2^31) and whose number of groups is below 2^31:
`work_group_init` leaves `num_items` equal to the product of the local sizes and its
per-item set-up passes `assert(dims > 0)`; every group number fits an `int` and the
launch of that group passes its assertion and completes its item loop; and the
`global_id` vectors written by these launches for all groups and all items below
`num_items` are pairwise distinct and are exactly the points `global_offset +
[0, global[0]) x [0, global[1]) x [0, global[2])` (unused dimensions having extent 1),
in unsigned 32-bit arithmetic. -/
theorem work_group_launch_global_ids_cover_ndrange (max_work_group_size : Nat)
    (e : exec_ids_t) (data : Nat → opencl_x86_device_work_item_data_t)
    (hdim1 : 1 ≤ e.ndrange.work_dim) (hdim : e.ndrange.work_dim ≤ 3)
    (hlocal : ∀ j, j < e.ndrange.work_dim → 0 < e.ndrange.local_work_size j)
    (hmult : ∀ j, j < e.ndrange.work_dim →
      e.ndrange.global_work_size j % e.ndrange.local_work_size j = 0)
    (hcount : ∀ j, j < e.ndrange.work_dim →
      e.work_group_count j = e.ndrange.global_work_size j / e.ndrange.local_work_size j)
    (hstart : ∀ j, j < 3 → e.work_group_start j = 0)
    (hbits : ∀ j, j < e.ndrange.work_dim → e.ndrange.global_work_size j < 4294967296)
    (hmax : max_work_group_size < 2147483648)
    (hitems : nd_size e.ndrange.local_work_size e.ndrange.work_dim ≤ max_work_group_size)
    (hgroups : nd_size e.work_group_count e.ndrange.work_dim < 2147483648) :
    work_group_init_num_items e.ndrange =
        (nd_size e.ndrange.local_work_size e.ndrange.work_dim : Int) ∧
    (∀ work_group_data barrier_func local_reserved : Nat,
      (opencl_x86_device_init_work_item e.ndrange.work_dim e.ndrange.global_work_size
        e.ndrange.local_work_size work_group_data barrier_func local_reserved).isSome =
          true) ∧
    (∀ g : Nat, g < nd_size e.work_group_count e.ndrange.work_dim →
      wrap_int (g : Int) = (g : Int) ∧
      ∃ items, opencl_x86_device_work_group_launch_ids max_work_group_size e g
        (work_group_init_num_items e.ndrange) data = some items) ∧
    (∀ (g g2 i i2 : Nat) (items items2 : Nat → opencl_x86_device_work_item_data_t),
      g < nd_size e.work_group_count e.ndrange.work_dim →
      g2 < nd_size e.work_group_count e.ndrange.work_dim →
      (i : Int) < work_group_init_num_items e.ndrange →
      (i2 : Int) < work_group_init_num_items e.ndrange →
      opencl_x86_device_work_group_launch_ids max_work_group_size e g
        (work_group_init_num_items e.ndrange) data = some items →
      opencl_x86_device_work_group_launch_ids max_work_group_size e g2
        (work_group_init_num_items e.ndrange) data = some items2 →
      (∀ j, j < 3 → (items i).global_id j = (items2 i2).global_id j) →
      g = g2 ∧ i = i2) ∧
    (∀ (g i : Nat) (items : Nat → opencl_x86_device_work_item_data_t),
      g < nd_size e.work_group_count e.ndrange.work_dim →
      (i : Int) < work_group_init_num_items e.ndrange →
      opencl_x86_device_work_group_launch_ids max_work_group_size e g
        (work_group_init_num_items e.ndrange) data = some items →
      ∃ x : Nat → Nat,
        (∀ j, j < e.ndrange.work_dim → x j < e.ndrange.global_work_size j) ∧
        (∀ j, e.ndrange.work_dim ≤ j → x j = 0) ∧
        ∀ j, j < 3 →
          (items i).global_id j = u32 (e.ndrange.global_work_offset j + x j)) ∧
    (∀ x : Nat → Nat,
      (∀ j, j < e.ndrange.work_dim → x j < e.ndrange.global_work_size j) →
      (∀ j, e.ndrange.work_dim ≤ j → x j = 0) →
      ∃ (g i : Nat) (items : Nat → opencl_x86_device_work_item_data_t),
        g < nd_size e.work_group_count e.ndrange.work_dim ∧
        (i : Int) < work_group_init_num_items e.ndrange ∧
        opencl_x86_device_work_group_launch_ids max_work_group_size e g
          (work_group_init_num_items e.ndrange) data = some items ∧
        ∀ j, j < 3 →
          (items i).global_id j = u32 (e.ndrange.global_work_offset j + x j)) := by
  have hpos := nd_size_pos e.ndrange.local_work_size e.ndrange.work_dim hlocal
  have hnum : work_group_init_num_items e.ndrange =
      (nd_size e.ndrange.local_work_size e.ndrange.work_dim : Int) := by
    rw [work_group_init_num_items_eq]
    exact wrap_int_id _ (by omega) (by omega)
  have hlaunch : ∀ g : Nat,
      opencl_x86_device_work_group_launch_ids max_work_group_size e g
          (work_group_init_num_items e.ndrange) data =
        some (work_group_launch_ids e g
          (nd_size e.ndrange.local_work_size e.ndrange.work_dim) data) := by
    intro g
    unfold opencl_x86_device_work_group_launch_ids
    rw [hnum, if_neg (by omega), if_neg (by omega), Int.toNat_ofNat]
  obtain ⟨hinj, hinto, honto⟩ :=
    launch_global_ids_cover e data hdim hlocal hmult hcount hstart hbits
  refine ⟨hnum, ?_, ?_, ?_, ?_, ?_⟩
  · intro work_group_data barrier_func local_reserved
    unfold opencl_x86_device_init_work_item
    rw [if_pos (by omega)]
    rfl
  · intro g hg
    exact ⟨wrap_int_id _ (by omega) (by omega), _, hlaunch g⟩
  · intro g g2 i i2 items items2 hg hg2 hi hi2 h1 h2 heq
    rw [hlaunch g] at h1
    rw [hlaunch g2] at h2
    cases h1
    cases h2
    rw [hnum] at hi hi2
    exact hinj g g2 i i2 hg hg2 (by exact_mod_cast hi) (by exact_mod_cast hi2) heq
  · intro g i items hg hi h1
    rw [hlaunch g] at h1
    cases h1
    rw [hnum] at hi
    exact hinto g i hg (by exact_mod_cast hi)
  · intro x hx hx0
    obtain ⟨g, i, hg, hi, h⟩ := honto x hx hx0
    refine ⟨g, i, _, hg, ?_, hlaunch g, h⟩
    rw [hnum]
    exact_mod_cast hi

/-- Witness for C6 (amended): the NDRange global (4,4), local (2,2) of scenario S5 with
arrays of 1024 entries: `num_items` is 4, and the point (3, 2) is written by some item of
some launched group. -/
theorem work_group_launch_global_ids_cover_ndrange_witness :
    (work_group_launch_ids exec_s1 1 4 stale_items 2).global_id 0 = 4 * 1 + 2 ∧
    work_group_init_num_items exec_s5.ndrange = 4 ∧
    ∃ (g i : Nat) (items : Nat → opencl_x86_device_work_item_data_t),
      g < nd_size exec_s5.work_group_count 2 ∧
      (i : Int) < work_group_init_num_items exec_s5.ndrange ∧
      opencl_x86_device_work_group_launch_ids 1024 exec_s5 g
        (work_group_init_num_items exec_s5.ndrange) stale_items = some items ∧
      ∀ j, j < 3 →
        (items i).global_id j
        = u32 (exec_s5.ndrange.global_work_offset j
            + (fun j => if j = 0 then 3 else if j = 1 then 2 else 0) j) :=
  have h := work_group_launch_global_ids_cover_ndrange 1024 exec_s5 stale_items
    (by decide) (by decide)
    (by intro j hj; have h : j < 2 := hj; interval_cases j <;> decide)
    (by intro j hj; have h : j < 2 := hj; interval_cases j <;> decide)
    (by intro j hj; have h : j < 2 := hj; interval_cases j <;> decide)
    (by intro j hj; rfl)
    (by intro j hj; have h : j < 2 := hj; interval_cases j <;> decide)
    (by decide) (by decide) (by decide)
  ⟨by decide, h.1,
   h.2.2.2.2.2
     (fun j => if j = 0 then 3 else if j = 1 then 2 else 0)
     (by intro j hj; have h : j < 2 := hj; interval_cases j <;> decide)
     (by
      intro j hj
      have h : 2 ≤ j := hj
      have h0 : ¬ j = 0 := by omega
      have h1 : ¬ j = 1 := by omega
      simp [h0, h1])⟩

/-! ### Fiber primitives -/

lemma tmod_wrap_int_16 (r : Nat) : Int.tmod (wrap_int (r : Int)) 16 = 0 ↔ r % 16 = 0 := by
  rw [← Int.dvd_iff_tmod_eq_zero]
  unfold wrap_int
  omega

lemma switch_fiber_misaligned (m : Machine) (ret current dest reg_values : Nat)
    (h : reg_values % 16 ≠ 0) :
    opencl_x86_device_switch_fiber m ret current dest reg_values
      = Except.error Panic.reg_values_not_aligned := by
  have h1 : Int.tmod (wrap_int (reg_values : Int)) 16 ≠ 0 :=
    fun e => h ((tmod_wrap_int_16 reg_values).mp e)
  unfold opencl_x86_device_switch_fiber
  rw [if_pos h1]

lemma switch_fiber_null (m : Machine) (ret current dest reg_values : Nat)
    (h : reg_values % 16 = 0) (h2 : current = 0 ∨ dest = 0) :
    opencl_x86_device_switch_fiber m ret current dest reg_values
      = Except.error Panic.current_or_dest_null := by
  have h1 : ¬ Int.tmod (wrap_int (reg_values : Int)) 16 ≠ 0 :=
    fun e => e ((tmod_wrap_int_16 reg_values).mpr h)
  unfold opencl_x86_device_switch_fiber
  rw [if_neg h1, if_pos h2]

lemma switch_fiber_ok (m : Machine) (ret current dest reg_values : Nat)
    (h : reg_values % 16 = 0) (hc : current ≠ 0) (hd : dest ≠ 0) :
    opencl_x86_device_switch_fiber m ret current dest reg_values
      = Except.ok
          { m with
            fibers := fun a =>
              if a = current then
                { m.fibers current with esp := ptr32 ((m.esp : Int) - 0x1c - 0x80), eip := ret }
              else m.fibers a,
            esp := ((fun a =>
              if a = current then
                ({ m.fibers current with esp := ptr32 ((m.esp : Int) - 0x1c - 0x80),
                                         eip := ret } : opencl_x86_device_fiber_t)
              else m.fibers a) dest).esp,
            eip := ((fun a =>
              if a = current then
                ({ m.fibers current with esp := ptr32 ((m.esp : Int) - 0x1c - 0x80),
                                         eip := ret } : opencl_x86_device_fiber_t)
              else m.fibers a) dest).eip } := by
  have h1 : ¬ Int.tmod (wrap_int (reg_values : Int)) 16 ≠ 0 :=
    fun e => e ((tmod_wrap_int_16 reg_values).mpr h)
  have h2 : ¬ (current = 0 ∨ dest = 0) := by
    intro e; rcases e with e | e
    · exact hc e
    · exact hd e
  unfold opencl_x86_device_switch_fiber
  rw [if_neg h1, if_neg h2]

/-- C13: `switch_fiber(current, dest, reg_values)` aborts exactly when `reg_values` is
not a multiple of 16 or `current` or `dest` is null; a null `reg_values` with non-null
`current` and `dest` does not abort, and a misaligned `reg_values` aborts at the first
check, before any context is saved or loaded. -/
theorem switch_fiber_aborts_iff (m : Machine) (ret current dest reg_values : Nat) :
    ((∃ p, opencl_x86_device_switch_fiber m ret current dest reg_values = Except.error p) ↔
      (reg_values % 16 ≠ 0 ∨ current = 0 ∨ dest = 0)) ∧
    (current ≠ 0 → dest ≠ 0 →
      ∃ m1, opencl_x86_device_switch_fiber m ret current dest 0 = Except.ok m1) ∧
    (reg_values % 16 ≠ 0 →
      opencl_x86_device_switch_fiber m ret current dest reg_values
        = Except.error Panic.reg_values_not_aligned) := by
  refine ⟨?_, ?_, ?_⟩
  · by_cases h1 : reg_values % 16 = 0
    · by_cases h2 : current = 0 ∨ dest = 0
      · constructor
        · intro _; exact Or.inr h2
        · intro _; exact ⟨_, switch_fiber_null m ret current dest reg_values h1 h2⟩
      · have hc : current ≠ 0 := fun e => h2 (Or.inl e)
        have hd : dest ≠ 0 := fun e => h2 (Or.inr e)
        constructor
        · rintro ⟨p, hp⟩
          rw [switch_fiber_ok m ret current dest reg_values h1 hc hd] at hp
          cases hp
        · intro h
          rcases h with h | h
          · exact absurd h1 h
          · exact absurd h h2
    · constructor
      · intro _; exact Or.inl h1
      · intro _; exact ⟨_, switch_fiber_misaligned m ret current dest reg_values h1⟩
  · intro hc hd
    exact ⟨_, switch_fiber_ok m ret current dest 0 rfl hc hd⟩
  · intro h1
    exact switch_fiber_misaligned m ret current dest reg_values h1

/-- Witness for C13: a register block at the odd address 0x1001 makes the switch abort
at the first check even with valid fibers. -/
theorem switch_fiber_aborts_iff_witness :
    0x1001 % 16 ≠ 0 ∧
    opencl_x86_device_switch_fiber machine_example 0x8049000 0x9000 0x9010 0x1001
      = Except.error Panic.reg_values_not_aligned :=
  ⟨by decide,
   (switch_fiber_aborts_iff machine_example 0x8049000 0x9000 0x9010 0x1001).2.2 (by decide)⟩

lemma lookup_own_block (m : Machine) (aligned_stacks size_of_data i wg : Nat)
    (halign : aligned_stacks % OPENCL_WORK_GROUP_STACK_SIZE = 0)
    (hsize : size_of_data ≤ OPENCL_WORK_GROUP_STACK_SIZE)
    (hlo : (opencl_x86_device_core_init aligned_stacks size_of_data i).stack_bottom ≤ m.esp)
    (hhi : m.esp < (opencl_x86_device_core_init aligned_stacks size_of_data i).stack_bottom
      + OPENCL_WORK_GROUP_STACK_SIZE)
    (hsp : m.esp < 4294967296)
    (hptr : m.load32 ((opencl_x86_device_core_init aligned_stacks size_of_data i).work_item_data
      + size_of_data - 0x60) = wg) :
    m.load32 (opencl_x86_device_get_work_group_data_addr m.esp) = wg := by
  simp only [opencl_x86_device_core_init, OPENCL_WORK_GROUP_STACK_SIZE] at *
  have hbase : (aligned_stacks + i * 8192) % 8192 = 0 := by omega
  rw [get_work_group_data_addr_eq (aligned_stacks + i * 8192) m.esp hbase hlo hhi hsp]
  rw [← hptr]
  congr 1
  omega

/-- C14: `exit_fiber`, run with the stack pointer inside work-item `i`'s stack slot,
raises by one `num_done` of the control block that the item's metadata names, leaves
`num_items`, `current_item`, `main_fiber`, `work_fibers`, every other control block and
every fiber descriptor as they were, and continues at the `esp` and `eip` saved in that
block's main fiber. -/
theorem exit_fiber_returns_to_main_fiber (m : Machine)
    (aligned_stacks size_of_data i wg : Nat)
    (halign : aligned_stacks % OPENCL_WORK_GROUP_STACK_SIZE = 0)
    (hsize : size_of_data ≤ OPENCL_WORK_GROUP_STACK_SIZE)
    (hlo : (opencl_x86_device_core_init aligned_stacks size_of_data i).stack_bottom ≤ m.esp)
    (hhi : m.esp < (opencl_x86_device_core_init aligned_stacks size_of_data i).stack_bottom
      + OPENCL_WORK_GROUP_STACK_SIZE)
    (hsp : m.esp < 4294967296)
    (hptr : m.load32 ((opencl_x86_device_core_init aligned_stacks size_of_data i).work_item_data
      + size_of_data - 0x60) = wg)
    (hmin : -2147483648 ≤ (m.cores wg).num_done)
    (hmax : (m.cores wg).num_done < 2147483647) :
    ((opencl_x86_device_exit_fiber_mem m).cores wg).num_done = (m.cores wg).num_done + 1 ∧
    ((opencl_x86_device_exit_fiber_mem m).cores wg).num_items = (m.cores wg).num_items ∧
    ((opencl_x86_device_exit_fiber_mem m).cores wg).current_item
      = (m.cores wg).current_item ∧
    ((opencl_x86_device_exit_fiber_mem m).cores wg).main_fiber = (m.cores wg).main_fiber ∧
    ((opencl_x86_device_exit_fiber_mem m).cores wg).work_fibers = (m.cores wg).work_fibers ∧
    (∀ a, a ≠ wg → (opencl_x86_device_exit_fiber_mem m).cores a = m.cores a) ∧
    (opencl_x86_device_exit_fiber_mem m).fibers = m.fibers ∧
    (opencl_x86_device_exit_fiber_mem m).esp = (m.fibers (m.cores wg).main_fiber).esp ∧
    (opencl_x86_device_exit_fiber_mem m).eip = (m.fibers (m.cores wg).main_fiber).eip := by
  have hwg := lookup_own_block m aligned_stacks size_of_data i wg halign hsize hlo hhi hsp hptr
  have hinc : wrap_int ((m.cores wg).num_done + 1) = (m.cores wg).num_done + 1 :=
    wrap_int_id _ (by omega) (by omega)
  unfold opencl_x86_device_exit_fiber_mem
  simp only [hwg, hinc, if_true]
  refine ⟨trivial, trivial, trivial, trivial, trivial, ?_, trivial, trivial, trivial⟩
  intro a ha
  simp only [ha, if_false]

/-- Witness for C14: work-item 3 of the slab at 0x10000 exits. -/
theorem exit_fiber_returns_to_main_fiber_witness :
    ((opencl_x86_device_exit_fiber_mem machine_example).cores 0x500).num_done = 3 ∧
    (opencl_x86_device_exit_fiber_mem machine_example).esp = 0x521 :=
  ⟨(exit_fiber_returns_to_main_fiber machine_example 0x10000 0x60 3 0x500 (by decide)
      (by decide) (by decide) (by decide) (by decide) (by decide) (by decide) (by decide)).1,
   by decide⟩

lemma barrier_next_item (c n : Nat) (hn : 1 ≤ n) (hc : c < n) (hn2 : n < 2147483648) :
    Int.tmod (wrap_int ((c : Int) + 1)) (n : Int) = (((c + 1) % n : Nat) : Int) := by
  rw [wrap_int_id _ (by omega) (by omega)]
  rw [Int.tmod_eq_emod (by omega) (by omega)]
  norm_cast

lemma ptr32_fiber (wf s k n : Nat) (hk : k < n) (harr : wf + n * s ≤ 4294967296)
    (hs : 0 < s) : ptr32 ((wf : Int) + (k : Int) * (s : Int)) = wf + k * s := by
  have h1 : k * s < n * s := Nat.mul_lt_mul_of_pos_right hk hs
  have h2 : ((wf : Int) + (k : Int) * (s : Int)) = ((wf + k * s : Nat) : Int) := by push_cast; ring
  unfold ptr32
  rw [h2]
  have h3 : ((wf + k * s : Nat) : Int) % 4294967296 = ((wf + k * s : Nat) : Int) :=
    Int.emod_eq_of_lt (by omega) (by omega)
  rw [h3]
  exact Int.toNat_ofNat _

/-- C15: `barrier`, called with `current_item = c` and `num_items = n` (`n ≥ 1`,
`c < n`), sets `current_item` to `(c + 1) mod n`, calls `switch_fiber` from
`work_fibers + c` to `work_fibers + (c + 1) mod n` with a null register block, which
does not abort, and leaves `num_items` and `num_done` unchanged; `current_item` stays
below `n`, and for `n = 1` the fiber resumes itself with `current_item` still 0. -/
theorem barrier_advances_round_robin (m : Machine)
    (aligned_stacks size_of_data i wg sizeof_fiber ret c n : Nat)
    (halign : aligned_stacks % OPENCL_WORK_GROUP_STACK_SIZE = 0)
    (hsize : size_of_data ≤ OPENCL_WORK_GROUP_STACK_SIZE)
    (hlo : (opencl_x86_device_core_init aligned_stacks size_of_data i).stack_bottom ≤ m.esp)
    (hhi : m.esp < (opencl_x86_device_core_init aligned_stacks size_of_data i).stack_bottom
      + OPENCL_WORK_GROUP_STACK_SIZE)
    (hsp : m.esp < 4294967296)
    (hptr : m.load32 ((opencl_x86_device_core_init aligned_stacks size_of_data i).work_item_data
      + size_of_data - 0x60) = wg)
    (hitems : (m.cores wg).num_items = (n : Int))
    (hcur : (m.cores wg).current_item = (c : Int))
    (hn : 1 ≤ n) (hc : c < n) (hint : n < 2147483648)
    (hwf : 0 < (m.cores wg).work_fibers) (hfib : 0 < sizeof_fiber)
    (harr : (m.cores wg).work_fibers + n * sizeof_fiber ≤ 4294967296) :
    opencl_x86_device_barrier_mem m sizeof_fiber ret
      = opencl_x86_device_switch_fiber
          { m with cores := fun a =>
              if a = wg then { m.cores wg with current_item := (((c + 1) % n : Nat) : Int) }
              else m.cores a }
          ret ((m.cores wg).work_fibers + c * sizeof_fiber)
          ((m.cores wg).work_fibers + (c + 1) % n * sizeof_fiber) 0 ∧
    (c + 1) % n < n ∧
    (n = 1 → (c + 1) % n = 0 ∧ c = 0) ∧
    ∃ m1, opencl_x86_device_barrier_mem m sizeof_fiber ret = Except.ok m1 ∧
      (m1.cores wg).current_item = (((c + 1) % n : Nat) : Int) ∧
      (m1.cores wg).num_items = (m.cores wg).num_items ∧
      (m1.cores wg).num_done = (m.cores wg).num_done ∧
      (m1.fibers ((m.cores wg).work_fibers + c * sizeof_fiber)).esp
        = ptr32 ((m.esp : Int) - 0x1c - 0x80) ∧
      (m1.fibers ((m.cores wg).work_fibers + c * sizeof_fiber)).eip = ret ∧
      m1.esp = (m1.fibers ((m.cores wg).work_fibers + (c + 1) % n * sizeof_fiber)).esp ∧
      m1.eip = (m1.fibers ((m.cores wg).work_fibers + (c + 1) % n * sizeof_fiber)).eip := by
  have hwg := lookup_own_block m aligned_stacks size_of_data i wg halign hsize hlo hhi hsp hptr
  have hmod : (c + 1) % n < n := Nat.mod_lt _ (by omega)
  have hnext := barrier_next_item c n hn hc hint
  have hsleep := ptr32_fiber (m.cores wg).work_fibers sizeof_fiber c n hc harr hfib
  have hwake := ptr32_fiber (m.cores wg).work_fibers sizeof_fiber ((c + 1) % n) n hmod harr hfib
  have hcall : opencl_x86_device_barrier_mem m sizeof_fiber ret
      = opencl_x86_device_switch_fiber
          { m with cores := fun a =>
              if a = wg then { m.cores wg with current_item := (((c + 1) % n : Nat) : Int) }
              else m.cores a }
          ret ((m.cores wg).work_fibers + c * sizeof_fiber)
          ((m.cores wg).work_fibers + (c + 1) % n * sizeof_fiber) 0 := by
    unfold opencl_x86_device_barrier_mem
    simp only [hwg, hitems, hcur, hnext, hsleep, hwake]
  have hok := switch_fiber_ok
    { m with cores := fun a =>
        if a = wg then { m.cores wg with current_item := (((c + 1) % n : Nat) : Int) }
        else m.cores a }
    ret ((m.cores wg).work_fibers + c * sizeof_fiber)
    ((m.cores wg).work_fibers + (c + 1) % n * sizeof_fiber) 0 rfl (by omega) (by omega)
  refine ⟨hcall, hmod, ?_, ?_⟩
  · intro h1
    subst h1
    constructor
    · exact Nat.mod_one _
    · omega
  · rw [hcall, hok]
    refine ⟨_, rfl, ?_⟩
    simp

/-- Witness for C15: the last of four work-items calls the barrier; the cursor wraps
to 0. -/
theorem barrier_advances_round_robin_witness :
    (3 + 1) % 4 = 0 ∧
    ∃ m1, opencl_x86_device_barrier_mem machine_example 16 0x8049000 = Except.ok m1 ∧
      (m1.cores 0x500).current_item = 0 ∧ m1.esp = 0x9001 := by
  obtain ⟨_, _, _, m1, h1, h2, _, _, _, _, h3, _⟩ :=
    barrier_advances_round_robin machine_example 0x10000 0x60 3 0x500 16 0x8049000 3 4
      (by decide) (by decide) (by decide) (by decide) (by decide) (by decide) (by decide)
      (by decide) (by decide) (by decide) (by decide) (by decide) (by decide) (by decide)
  refine ⟨by decide, m1, h1, h2, ?_⟩
  rw [h3]
  have hm : opencl_x86_device_barrier_mem machine_example 16 0x8049000
      = Except.ok m1 := h1
  have hval : ∀ m2, opencl_x86_device_barrier_mem machine_example 16 0x8049000
      = Except.ok m2 → (m2.fibers (0x9000 + (3 + 1) % 4 * 16)).esp = 0x9001 := by
    intro m2 h
    have h4 : opencl_x86_device_barrier_mem machine_example 16 0x8049000
        = Except.ok
            { machine_example with
              cores := (fun a => if a = 0x500 then
                  { machine_example.cores 0x500 with current_item := 0 }
                else machine_example.cores a),
              fibers := (fun a => if a = 0x9030 then
                  { machine_example.fibers 0x9030 with esp := 0x17e64, eip := 0x8049000 }
                else machine_example.fibers a),
              esp := 0x9001, eip := 0x9002 } := by
      rfl
    rw [h4] at h
    cases h
    rfl
  exact hval m1 hm

/-! ### CPU discovery -/

lemma strtok_in_place_eq_key (s : List Char) :
    strtok_in_place s = processor_key ↔
      s.takeWhile (fun x => !is_delim x) = processor_key := by
  cases s with
  | nil => simp [strtok_in_place]
  | cons c t =>
    by_cases hc : is_delim c = true
    · have hp : c ≠ 'p' := by
        intro e; subst e; revert hc; decide
      have h1 : (c :: t).takeWhile (fun x => !is_delim x) = [] := by
        simp [List.takeWhile, hc]
      have h2 : ∃ u, strtok_in_place (c :: t) = c :: u := by
        unfold strtok_in_place
        cases hd : (c :: t).dropWhile is_delim with
        | nil => exact ⟨t, rfl⟩
        | cons d rest =>
          simp only [List.takeWhile, hc]
          exact ⟨_, rfl⟩
      obtain ⟨u, hu⟩ := h2
      rw [hu, h1]
      constructor
      · intro h
        have : c = 'p' := by
          have := congrArg List.head? h
          simpa [processor_key] using this
        exact absurd this hp
      · intro h
        exact absurd h (by decide)
    · have hc2 : is_delim c = false := by simpa using hc
      have h1 : (c :: t).dropWhile is_delim = c :: t := by
        simp [List.dropWhile, hc2]
      have h2 : (c :: t).takeWhile is_delim = [] := by
        simp [List.takeWhile, hc2]
      unfold strtok_in_place
      rw [h1]
      simp only [h2, List.nil_append]

lemma get_num_cores_fold (lines : List (List Char)) :
    ∀ acc : Nat, acc + lines.length < 2147483648 →
      lines.foldl
        (fun num_cores s =>
          if strtok_in_place s = processor_key then wrap_int (num_cores + 1) else num_cores)
        (acc : Int)
      = ((acc + lines.countP
          (fun s => decide (s.takeWhile (fun x => !is_delim x) = processor_key)) : Nat) : Int) := by
  induction lines with
  | nil => intro acc _; simp
  | cons s rest ih =>
    intro acc hacc
    simp only [List.length_cons] at hacc
    simp only [List.foldl_cons, List.countP_cons]
    by_cases hk : strtok_in_place s = processor_key
    · have hk2 := (strtok_in_place_eq_key s).mp hk
      have hw : wrap_int ((acc : Int) + 1) = ((acc + 1 : Nat) : Int) := by
        rw [wrap_int_id _ (by omega) (by omega)]; push_cast; ring
      rw [if_pos hk, hw, ih (acc + 1) (by omega)]
      simp only [hk2, decide_True, if_true]
      omega
    · have hk2 : ¬ s.takeWhile (fun x => !is_delim x) = processor_key :=
        fun e => hk ((strtok_in_place_eq_key s).mpr e)
      rw [if_neg hk, ih acc (by omega)]
      simp [hk2]

/-- C18, counterexample: for the single line `" processor\t: 0\n"` the first token is
`processor`, yet `get_num_cores` returns 0, because after `strtok` it compares the line
from its first character. -/
theorem get_num_cores_misses_indented_key :
    first_token indented_processor_line = processor_key ∧
    opencl_x86_device_get_num_cores [indented_processor_line] = 0 ∧
    ([indented_processor_line].countP (fun s => decide (first_token s = processor_key)) : Int)
      ≠ opencl_x86_device_get_num_cores [indented_processor_line] := by
  decide

/-- C18, amended: for every content of fewer than 2^31 lines, `get_num_cores` returns
the number of lines that begin with `processor` followed by the end of the line or by
one of the delimiters newline, tab, space, colon; each such line has first token
`processor`. -/
theorem get_num_cores_counts_lines_starting_with_key (lines : List (List Char))
    (hlen : lines.length < 2147483648) :
    opencl_x86_device_get_num_cores lines
      = (lines.countP
          (fun s => decide (s.takeWhile (fun x => !is_delim x) = processor_key)) : Nat) ∧
    ∀ s, s.takeWhile (fun x => !is_delim x) = processor_key →
      first_token s = processor_key := by
  constructor
  · have h := get_num_cores_fold lines 0 (by omega)
    simp only [Nat.zero_add] at h
    exact h
  · intro s hs
    cases s with
    | nil => exact absurd hs (by decide)
    | cons c t =>
      have hc : is_delim c = false := by
        by_contra hcon
        have hc2 : is_delim c = true := by simpa using hcon
        have : (c :: t).takeWhile (fun x => !is_delim x) = [] := by
          simp [List.takeWhile, hc2]
        rw [this] at hs
        exact absurd hs (by decide)
      unfold first_token
      have h1 : (c :: t).dropWhile is_delim = c :: t := by simp [List.dropWhile, hc]
      rw [h1]
      exact hs

/-- Witness for C18: two processor entries around an indented one. -/
theorem get_num_cores_counts_lines_starting_with_key_witness :
    [processor_line, indented_processor_line, processor_line].length < 2147483648 ∧
    opencl_x86_device_get_num_cores [processor_line, indented_processor_line, processor_line]
      = 2 :=
  ⟨by decide,
   (get_num_cores_counts_lines_starting_with_key
      [processor_line, indented_processor_line, processor_line] (by decide)).1.trans
     (by decide)⟩

/-! ### Device worker -/

lemma has_work_returns (views : List device_view_t) (c : Int) :
    ∀ r, opencl_x86_device_has_work views c = some r →
      ∃ pre d post, views = pre ++ d :: post ∧
        (∀ x ∈ pre, x.counters.num_kernels = c) ∧
        d.counters.num_kernels ≠ c ∧ r = (wrap_int (c + 1), d.exec) := by
  induction views with
  | nil => intro r h; simp [opencl_x86_device_has_work] at h
  | cons v rest ih =>
    intro r h
    simp only [opencl_x86_device_has_work] at h
    by_cases hv : v.counters.num_kernels = c
    · rw [if_pos hv] at h
      obtain ⟨pre, d, post, h1, h2, h3, h4⟩ := ih r h
      refine ⟨v :: pre, d, post, by rw [h1]; rfl, ?_, h3, h4⟩
      intro x hx
      rcases List.mem_cons.mp hx with rfl | hx
      · exact hv
      · exact h2 x hx
    · rw [if_neg hv] at h
      refine ⟨[], v, rest, rfl, ?_, hv, ?_⟩
      · intro x hx; simp at hx
      · exact (Option.some.inj h).symm

lemma has_work_total (views : List device_view_t) (c : Int)
    (h : ∃ d ∈ views, d.counters.num_kernels ≠ c) :
    ∃ r, opencl_x86_device_has_work views c = some r := by
  induction views with
  | nil => obtain ⟨d, hd, _⟩ := h; simp at hd
  | cons v rest ih =>
    simp only [opencl_x86_device_has_work]
    by_cases hv : v.counters.num_kernels = c
    · rw [if_pos hv]
      apply ih
      obtain ⟨d, hd, hne⟩ := h
      rcases List.mem_cons.mp hd with rfl | hd
      · exact absurd hv hne
      · exact ⟨d, hd, hne⟩
    · rw [if_neg hv]
      exact ⟨_, rfl⟩

/-- C19, counterexample: with `num_kernels = 0` and a caller count of 5, `has_work`
returns at once, although `num_kernels` is not greater than the count. -/
theorem has_work_returns_when_count_is_ahead :
    opencl_x86_device_has_work
        [{ counters := { num_cores := 2, num_kernels := 0, num_done := 0 }, exec := 7 }] 5
      = some (6, 7) ∧
    ¬ ((0 : Int) > 5) := by
  decide

/-- C19, amended: `has_work` returns exactly when it finds `device->num_kernels`
different from the caller's count `c`, which is strictly greater whenever the count
is not ahead of `num_kernels`; on return the count is `c + 1` (for `c` below
`INT_MAX`) and the result is the execution record published in the device at that
moment; and it does return once the device shows such a `num_kernels`. -/
theorem has_work_returns_on_new_kernel (views : List device_view_t) (c : Int)
    (hmin : -2147483648 ≤ c) (hmax : c < 2147483647) :
    (∀ count exec, opencl_x86_device_has_work views c = some (count, exec) →
      ∃ pre d post, views = pre ++ d :: post ∧
        (∀ x ∈ pre, x.counters.num_kernels = c) ∧
        d.counters.num_kernels ≠ c ∧
        (c ≤ d.counters.num_kernels → c < d.counters.num_kernels) ∧
        count = c + 1 ∧ exec = d.exec) ∧
    ((∃ d ∈ views, d.counters.num_kernels ≠ c) →
      ∃ r, opencl_x86_device_has_work views c = some r) := by
  constructor
  · intro count exec h
    obtain ⟨pre, d, post, h1, h2, h3, h4⟩ := has_work_returns views c _ h
    have hw : wrap_int (c + 1) = c + 1 := wrap_int_id _ (by omega) (by omega)
    rw [hw] at h4
    refine ⟨pre, d, post, h1, h2, h3, fun hle => by omega, ?_, ?_⟩
    · exact congrArg Prod.fst h4
    · exact congrArg Prod.snd h4
  · exact has_work_total views c

/-- Witness for C19: a worker with count 0 waits through one wake-up without a new
kernel and then receives the record published with the first kernel. -/
theorem has_work_returns_on_new_kernel_witness :
    opencl_x86_device_has_work
        [{ counters := { num_cores := 2, num_kernels := 0, num_done := 0 }, exec := 0 },
         { counters := { num_cores := 2, num_kernels := 1, num_done := 0 }, exec := 7 }] 0
      = some (1, 7) ∧
    ∃ r, opencl_x86_device_has_work
        [{ counters := { num_cores := 2, num_kernels := 0, num_done := 0 }, exec := 0 },
         { counters := { num_cores := 2, num_kernels := 1, num_done := 0 }, exec := 7 }] 0
      = some r :=
  ⟨by decide,
   (has_work_returns_on_new_kernel
      [{ counters := { num_cores := 2, num_kernels := 0, num_done := 0 }, exec := 0 },
       { counters := { num_cores := 2, num_kernels := 1, num_done := 0 }, exec := 7 }] 0
      (by decide) (by decide)).2
     ⟨{ counters := { num_cores := 2, num_kernels := 1, num_done := 0 }, exec := 7 },
      by decide, by decide⟩⟩

lemma lock_held_after_append (a b : List SyncCall) :
    ∀ held, lock_held_after held (a ++ b)
      = (lock_held_after held a).bind (fun h => lock_held_after h b) := by
  induction a with
  | nil => intro held; rfl
  | cons x rest ih =>
    intro held
    cases x <;> cases held <;> simp [lock_held_after, ih]

lemma lock_held_after_waits (k : Nat) :
    lock_held_after true (List.replicate k SyncCall.wait_ready) = some true := by
  induction k with
  | zero => rfl
  | succ k ih => simp [List.replicate, lock_held_after, ih]

lemma core_func_kernel_loop_breaks_discipline (rounds : List kernel_round_t) :
    ∀ device, (core_func_kernel_loop device rounds).2 = true →
      ∃ held, lock_held_after true (core_func_kernel_loop device rounds).1 = some held ∧
        held = false := by
  induction rounds with
  | nil => intro device h; simp [core_func_kernel_loop] at h
  | cons r rest ih =>
    intro device h
    simp only [core_func_kernel_loop] at h ⊢
    by_cases hz : r.exec = 0
    · simp only [hz, if_true]
      rw [lock_held_after_append, lock_held_after_waits]
      exact ⟨false, rfl, rfl⟩
    · simp only [hz, if_false] at h ⊢
      obtain ⟨held, h1, h2⟩ := ih _ h
      have hdone : (core_func_kernel_done device).2
          = [SyncCall.lock, SyncCall.signal_done] := by
        unfold core_func_kernel_done
        by_cases hc : wrap_int (device.num_done + 1) = device.num_cores
        · simp [hc]
        · simp [hc]
      rw [lock_held_after_append, lock_held_after_append, lock_held_after_append,
        lock_held_after_waits, hdone]
      simp only [Option.bind, lock_held_after, if_true, Bool.false_eq_true, if_false]
      exact ⟨held, h1, h2⟩

/-- C20, the code on the shutdown path and on every returning path: when the first
published record is `NULL` the worker calls lock, unlock, unlock, the last one without
holding the lock; and whatever rounds come first, a run of `core_func` that returns
breaks the lock discipline with its final unlock. -/
theorem core_func_unlocks_twice_on_return :
    opencl_x86_device_core_func { num_cores := 2, num_kernels := 1, num_done := 0 }
        [{ waits := 0, exec := 0 }]
      = ([SyncCall.lock, SyncCall.unlock, SyncCall.unlock], true) ∧
    lock_held_after false
        (opencl_x86_device_core_func { num_cores := 2, num_kernels := 1, num_done := 0 }
          [{ waits := 0, exec := 0 }]).1
      = none ∧
    ∀ (device : opencl_x86_device_t) (rounds : List kernel_round_t),
      (opencl_x86_device_core_func device rounds).2 = true →
      lock_held_after false (opencl_x86_device_core_func device rounds).1 = none := by
  refine ⟨by decide, by decide, ?_⟩
  intro device rounds h
  unfold opencl_x86_device_core_func at h ⊢
  by_cases hb : (core_func_kernel_loop device rounds).2 = true
  · obtain ⟨held, h1, h2⟩ := core_func_kernel_loop_breaks_discipline rounds device hb
    subst h2
    simp only [hb, if_true]
    rw [lock_held_after_append, lock_held_after_append]
    simp [lock_held_after, h1]
  · simp [hb] at h

/-! ### Words in memory -/

lemma read_word_write_word_same (mem : Mem) (a v : Nat) :
    read_word (write_word mem a v) a = v % 4294967296 := by
  unfold read_word write_word
  have h1 : ¬ a + 1 = a := by omega
  have h2 : ¬ a + 2 = a := by omega
  have h3 : ¬ a + 2 = a + 1 := by omega
  have h4 : ¬ a + 3 = a := by omega
  have h5 : ¬ a + 3 = a + 1 := by omega
  have h6 : ¬ a + 3 = a + 2 := by omega
  simp only [if_true, h1, h2, h3, h4, h5, h6, if_false]
  omega

lemma write_word_outside (mem : Mem) (a v x : Nat) (h : x < a ∨ a + 4 ≤ x) :
    write_word mem a v x = mem x := by
  unfold write_word
  have h1 : ¬ x = a := by omega
  have h2 : ¬ x = a + 1 := by omega
  have h3 : ¬ x = a + 2 := by omega
  have h4 : ¬ x = a + 3 := by omega
  simp only [h1, h2, h3, h4, if_false]

lemma read_word_congr (m1 m2 : Mem) (a : Nat)
    (h : ∀ x, a ≤ x → x < a + 4 → m1 x = m2 x) : read_word m1 a = read_word m2 a := by
  unfold read_word
  rw [h a (by omega) (by omega), h (a + 1) (by omega) (by omega),
    h (a + 2) (by omega) (by omega), h (a + 3) (by omega) (by omega)]

lemma read_word_write_word_other (mem : Mem) (a v b : Nat) (h : b + 4 ≤ a ∨ a + 4 ≤ b) :
    read_word (write_word mem a v) b = read_word mem b := by
  apply read_word_congr
  intro x h1 h2
  exact write_word_outside mem a v x (by omega)


lemma read_word_shift (m1 m2 : Mem) (a b : Nat)
    (h : ∀ t, t < 4 → m1 (a + t) = m2 (b + t)) : read_word m1 a = read_word m2 b := by
  unfold read_word
  have h0 := h 0 (by omega)
  simp only [Nat.add_zero] at h0
  rw [h0, h 1 (by omega), h 2 (by omega), h 3 (by omega)]

/-! ### Fiber construction -/

lemma ptr32_of_nat (x : Int) (n : Nat) (h : x % 4294967296 = (n : Int)) : ptr32 x = n := by
  unfold ptr32
  rw [h]
  exact Int.toNat_ofNat n

lemma ptr32_frame_size (w : Nat) (h : 4 * w < 4294967296) :
    ptr32 (wrap_int ((w : Int) * 4)) = 4 * w := by
  apply ptr32_of_nat
  unfold wrap_int
  omega

lemma ptr32_frame_base (sb ss w : Nat) (h1 : 4 * w ≤ ss) (h2 : sb + ss < 4294967296) :
    ptr32 ((sb : Int) + (ss : Int) - wrap_int ((w : Int) * 4)) = sb + ss - 4 * w := by
  apply ptr32_of_nat
  unfold wrap_int
  omega

lemma ptr32_frame_esp (sb ss w : Nat) (h1 : 4 * w + 4 ≤ ss) (h2 : sb + ss < 4294967296) :
    ptr32 ((sb : Int) + (ss : Int) - wrap_int ((w : Int) * 4) - 4) = sb + ss - 4 * w - 4 := by
  apply ptr32_of_nat
  unfold wrap_int
  omega

lemma make_fiber_ex_eq (mem : Mem) (fiber : opencl_x86_device_fiber_t)
    (fiber_func return_func w args : Nat)
    (hb : fiber.stack_bottom % 4 = 0) (hs : fiber.stack_size % 4 = 0)
    (hfit : 4 * w + 4 ≤ fiber.stack_size)
    (hspace : fiber.stack_bottom + fiber.stack_size < 4294967296)
    (hsep : ¬ (fiber.stack_bottom + fiber.stack_size - 4 * w < args + 4 * w ∧
      args < fiber.stack_bottom + fiber.stack_size - 4 * w + 4 * w)) :
    opencl_x86_device_make_fiber_ex mem fiber fiber_func return_func (w : Int) args
      = some ({ fiber with eip := fiber_func,
                           esp := fiber.stack_bottom + fiber.stack_size - 4 * w - 4 },
          write_word
            (memmove_spec mem (fiber.stack_bottom + fiber.stack_size - 4 * w) args (4 * w))
            (fiber.stack_bottom + fiber.stack_size - 4 * w - 4) return_func) := by
  have hcond : ¬ (fiber.stack_bottom % 4 ≠ 0 ∨ fiber.stack_size % 4 ≠ 0) := by
    intro h; rcases h with h | h
    · exact h hb
    · exact h hs
  have hsz := ptr32_frame_size w (by omega)
  have hdst := ptr32_frame_base fiber.stack_bottom fiber.stack_size w (by omega) hspace
  have hesp := ptr32_frame_esp fiber.stack_bottom fiber.stack_size w hfit hspace
  unfold opencl_x86_device_make_fiber_ex
  simp only [hcond, if_false, hsz, hdst, hesp]
  rw [memcpy_eq_memmove mem _ args (4 * w) hsep]

/-- C11: for a fiber whose `stack_bottom` and `stack_size` are multiples of 4 and a
frame of `w` words at `args` that fits below the top of the stack with one more word,
`make_fiber_ex` returns with the top `4 w` bytes of the stack equal to the frame's
bytes, `return_func` in the word below them, `esp` at that word, `eip` at the entry
point, and every byte below that word as before. -/
theorem make_fiber_ex_builds_frame (mem : Mem) (fiber : opencl_x86_device_fiber_t)
    (fiber_func return_func w args : Nat)
    (hb : fiber.stack_bottom % 4 = 0) (hs : fiber.stack_size % 4 = 0)
    (hfit : 4 * w + 4 ≤ fiber.stack_size)
    (hspace : fiber.stack_bottom + fiber.stack_size < 4294967296)
    (hret : return_func < 4294967296)
    (hsep : ¬ (fiber.stack_bottom + fiber.stack_size - 4 * w < args + 4 * w ∧
      args < fiber.stack_bottom + fiber.stack_size - 4 * w + 4 * w)) :
    ∃ fiber1 mem1,
      opencl_x86_device_make_fiber_ex mem fiber fiber_func return_func (w : Int) args
        = some (fiber1, mem1) ∧
      (∀ k, k < 4 * w →
        mem1 (fiber.stack_bottom + fiber.stack_size - 4 * w + k) = mem (args + k)) ∧
      read_word mem1 (fiber.stack_bottom + fiber.stack_size - 4 * w - 4) = return_func ∧
      fiber1.esp = fiber.stack_bottom + fiber.stack_size - 4 * w - 4 ∧
      fiber1.eip = fiber_func ∧
      fiber1.stack_bottom = fiber.stack_bottom ∧ fiber1.stack_size = fiber.stack_size ∧
      (∀ a, a < fiber.stack_bottom + fiber.stack_size - 4 * w - 4 → mem1 a = mem a) := by
  refine ⟨_, _, make_fiber_ex_eq mem fiber fiber_func return_func w args hb hs hfit hspace hsep,
    ?_, ?_, rfl, rfl, rfl, rfl, ?_⟩
  · intro k hk
    rw [write_word_outside _ _ _ _ (by omega)]
    unfold memmove_spec
    have hin : fiber.stack_bottom + fiber.stack_size - 4 * w
          ≤ fiber.stack_bottom + fiber.stack_size - 4 * w + k ∧
        fiber.stack_bottom + fiber.stack_size - 4 * w + k
          < fiber.stack_bottom + fiber.stack_size - 4 * w + 4 * w := by omega
    rw [if_pos hin]
    congr 1
    omega
  · rw [read_word_write_word_same]
    exact Nat.mod_eq_of_lt hret
  · intro a ha
    rw [write_word_outside _ _ _ _ (by omega)]
    unfold memmove_spec
    have hout : ¬ (fiber.stack_bottom + fiber.stack_size - 4 * w ≤ a ∧
        a < fiber.stack_bottom + fiber.stack_size - 4 * w + 4 * w) := by omega
    rw [if_neg hout]

/-- Witness for C11: a frame of two words at 0x2000 put on the 64-byte stack at
0x1000, with the trampoline at 0x8048abc. -/
theorem make_fiber_ex_builds_frame_witness :
    ∃ fiber1 mem1,
      opencl_x86_device_make_fiber_ex mem_example fiber_example 0x8048100 0x8048abc 2 0x2000
        = some (fiber1, mem1) ∧
      fiber1.esp = 0x1034 ∧ read_word mem1 0x1034 = 0x8048abc ∧
      mem1 0x1038 = mem_example 0x2000 := by
  obtain ⟨f, m, h1, h2, h3, h4, _⟩ :=
    make_fiber_ex_builds_frame mem_example fiber_example 0x8048100 0x8048abc 2 0x2000
      (by decide) (by decide) (by decide) (by decide) (by decide) (by decide)
  exact ⟨f, m, h1, h4, h3, h2 0 (by decide)⟩

lemma read_word_lt (mem : Mem) (a : Nat) : read_word mem a < 4294967296 := by
  unfold read_word
  omega

lemma ptr32_stack_word (sb W n k : Nat) (hn : n ≤ W) (hlt : sb + 4 * (W - n + k) < 4294967296) :
    ptr32 ((sb : Int) + 4 * ((W : Int) - (n : Int) + (k : Int))) = sb + 4 * (W - n) + 4 * k := by
  apply ptr32_of_nat
  omega

lemma ptr32_stack_ret (sb W n : Nat) (hn : n + 1 ≤ W) (hlt : sb + 4 * W < 4294967296) :
    ptr32 ((sb : Int) + 4 * ((W : Int) - (n : Int) - 1)) = sb + 4 * (W - n - 1) := by
  apply ptr32_of_nat
  omega

lemma make_fiber_loop_spec (mem : Mem) (sb params W n : Nat) (hn : n + 1 ≤ W)
    (hspace : sb + 4 * W < 4294967296)
    (hsep : params + 4 * n ≤ sb + 4 * (W - n - 1) ∨ sb + 4 * W ≤ params) :
    ∀ k, k ≤ n →
      (∀ x, x < sb + 4 * (W - n) ∨ sb + 4 * (W - n) + 4 * k ≤ x →
        make_fiber_loop sb params (W : Int) (n : Int) k mem x = mem x) ∧
      (∀ i, i < k →
        read_word (make_fiber_loop sb params (W : Int) (n : Int) k mem)
            (sb + 4 * (W - n) + 4 * i)
          = read_word mem (params + 4 * i)) := by
  intro k
  induction k with
  | zero =>
    intro _
    exact ⟨fun x _ => rfl, fun i hi => by omega⟩
  | succ k ih =>
    intro hk
    obtain ⟨iha, ihb⟩ := ih (by omega)
    have hslot := ptr32_stack_word sb W n k (by omega) (by omega)
    have hsrc : read_word (make_fiber_loop sb params (W : Int) (n : Int) k mem)
        (params + 4 * k) = read_word mem (params + 4 * k) := by
      apply read_word_congr
      intro x h1 h2
      exact iha x (by omega)
    simp only [make_fiber_loop]
    rw [hslot, hsrc]
    constructor
    · intro x hx
      rw [write_word_outside _ _ _ _ (by omega)]
      exact iha x (by omega)
    · intro i hi
      by_cases hik : i = k
      · subst hik
        rw [read_word_write_word_same]
        exact Nat.mod_eq_of_lt (read_word_lt _ _)
      · rw [read_word_write_word_other _ _ _ _ (by omega)]
        exact ihb i (by omega)

/-- C12: for a fiber whose `stack_bottom` and `stack_size` are multiples of 4, with
`W = stack_size / 4` stack words, and `n` arguments with `n + 1 ≤ W`, `make_fiber`
returns with the arguments in stack words `W-n .. W-1` in order, 0 in word `W-n-1`,
`esp` at that word, `eip` at the entry point, and every byte below that word as
before. -/
theorem make_fiber_pushes_arguments (mem : Mem) (fiber : opencl_x86_device_fiber_t)
    (fiber_func num_args_addr n : Nat)
    (ha : num_args_addr % 4 = 0)
    (hb : fiber.stack_bottom % 4 = 0) (hs : fiber.stack_size % 4 = 0)
    (hfit : n + 1 ≤ fiber.stack_size / 4)
    (hspace : fiber.stack_bottom + fiber.stack_size < 4294967296)
    (hsep : num_args_addr + 4 + 4 * n
        ≤ fiber.stack_bottom + 4 * (fiber.stack_size / 4 - n - 1) ∨
      fiber.stack_bottom + 4 * (fiber.stack_size / 4) ≤ num_args_addr + 4) :
    ∃ fiber1 mem1,
      opencl_x86_device_make_fiber mem fiber fiber_func num_args_addr (n : Int)
        = some (fiber1, mem1) ∧
      (∀ i, i < n →
        read_word mem1 (fiber.stack_bottom + 4 * (fiber.stack_size / 4 - n + i))
          = read_word mem (num_args_addr + 4 + 4 * i)) ∧
      read_word mem1 (fiber.stack_bottom + 4 * (fiber.stack_size / 4 - n - 1)) = 0 ∧
      fiber1.esp = fiber.stack_bottom + 4 * (fiber.stack_size / 4 - n - 1) ∧
      fiber1.eip = fiber_func ∧
      fiber1.stack_bottom = fiber.stack_bottom ∧ fiber1.stack_size = fiber.stack_size ∧
      (∀ a, a < fiber.stack_bottom + 4 * (fiber.stack_size / 4 - n - 1) →
        mem1 a = mem a) := by
  have hcond : ¬ ((num_args_addr + 4) % 4 ≠ 0 ∨ fiber.stack_bottom % 4 ≠ 0 ∨
      fiber.stack_size % 4 ≠ 0) := by
    intro h; rcases h with h | h | h
    · omega
    · exact h hb
    · exact h hs
  have hW : fiber.stack_bottom + 4 * (fiber.stack_size / 4) < 4294967296 := by omega
  have hret := ptr32_stack_ret fiber.stack_bottom (fiber.stack_size / 4) n hfit hW
  obtain ⟨hla, hlb⟩ := make_fiber_loop_spec mem fiber.stack_bottom (num_args_addr + 4)
    (fiber.stack_size / 4) n hfit hW hsep n (Nat.le_refl _)
  have heq : opencl_x86_device_make_fiber mem fiber fiber_func num_args_addr (n : Int)
      = some ({ fiber with eip := fiber_func,
                           esp := fiber.stack_bottom + 4 * (fiber.stack_size / 4 - n - 1) },
          write_word
            (make_fiber_loop fiber.stack_bottom (num_args_addr + 4)
              ((fiber.stack_size / 4 : Nat) : Int) (n : Int) n mem)
            (fiber.stack_bottom + 4 * (fiber.stack_size / 4 - n - 1)) 0) := by
    unfold opencl_x86_device_make_fiber
    simp only [hcond, if_false, hret, Int.toNat_ofNat]
  refine ⟨_, _, heq, ?_, ?_, rfl, rfl, rfl, rfl, ?_⟩
  · intro i hi
    rw [read_word_write_word_other _ _ _ _ (by omega)]
    have := hlb i hi
    have hidx : fiber.stack_bottom + 4 * (fiber.stack_size / 4 - n + i)
        = fiber.stack_bottom + 4 * (fiber.stack_size / 4 - n) + 4 * i := by omega
    rw [hidx]
    exact this
  · rw [read_word_write_word_same]
  · intro a ha2
    rw [write_word_outside _ _ _ _ (by omega)]
    exact hla a (by omega)

/-- Witness for C12: two arguments read from 0x2004 and pushed on the 64-byte stack
at 0x1000. -/
theorem make_fiber_pushes_arguments_witness :
    ∃ fiber1 mem1,
      opencl_x86_device_make_fiber mem_example fiber_example 0x8048100 0x2000 2
        = some (fiber1, mem1) ∧
      fiber1.esp = 0x1034 ∧ read_word mem1 0x1034 = 0 ∧
      read_word mem1 0x1038 = read_word mem_example 0x2004 := by
  obtain ⟨f, m, h1, h2, h3, h4, _⟩ :=
    make_fiber_pushes_arguments mem_example fiber_example 0x8048100 0x2000 2
      (by decide) (by decide) (by decide) (by decide) (by decide) (by decide)
  exact ⟨f, m, h1, h4, h3, h2 0 (by decide)⟩

/-! ### Per-group setup -/

lemma init_local_params_inv (e : init_exec_t) (alloc : allocator_t) (mem : Mem)
    (hfresh : ¬ (alloc.xmalloc_stack_params < e.stack_params + 4 * e.kernel.stack_param_words ∧
      e.stack_params < alloc.xmalloc_stack_params + 4 * e.kernel.stack_param_words))
    (hoff : ∀ i, i < e.kernel.num_params → (e.kernel.param_info i).mem_arg_local = true →
      (e.kernel.param_info i).stack_offset < e.kernel.stack_param_words)
    (halloc : ∀ i, i < e.kernel.num_params → (e.kernel.param_info i).mem_arg_local = true →
      ∃ p, alloc.posix_memalign i = some p) :
    ∀ k, k ≤ e.kernel.num_params →
      ∃ st, init_local_params e alloc alloc.xmalloc_stack_params k
          (memmove_spec mem alloc.xmalloc_stack_params e.stack_params
            (4 * e.kernel.stack_param_words), []) = some st ∧
        InitFrameInv e alloc mem
          (memmove_spec mem alloc.xmalloc_stack_params e.stack_params
            (4 * e.kernel.stack_param_words)) k st := by
  intro k
  induction k with
  | zero =>
    intro _
    refine ⟨_, rfl, ⟨fun x _ => rfl, fun w _ _ => rfl, fun i hi => by omega, ?_⟩⟩
    intro r hr
    simp at hr
  | succ k ih =>
    intro hk
    obtain ⟨st, hst, inv⟩ := ih (by omega)
    simp only [init_local_params, hst]
    by_cases hloc : (e.kernel.param_info k).mem_arg_local = true
    · obtain ⟨p, hp⟩ := halloc k (by omega) hloc
      have hok := hoff k (by omega) hloc
      have hsrc : read_word st.1 (e.stack_params + 4 * (e.kernel.param_info k).stack_offset)
          = read_word mem (e.stack_params + 4 * (e.kernel.param_info k).stack_offset) := by
        apply read_word_congr
        intro x h1 h2
        rw [inv.houtside x (by omega)]
        unfold memmove_spec
        rw [if_neg (by omega)]
      simp only [init_local_param, hloc, if_true, hp, hsrc]
      refine ⟨_, rfl, ⟨?_, ?_, ?_, ?_⟩⟩
      · intro x hx
        show write_word st.1 _ p x = _
        rw [write_word_outside _ _ _ _ (by omega)]
        exact inv.houtside x hx
      · intro w hw hne
        show read_word (write_word st.1 _ p) _ = _
        have hwk : (e.kernel.param_info k).stack_offset ≠ w := hne k (by omega) hloc
        rw [read_word_write_word_other _ _ _ _ (by omega)]
        exact inv.hkept w hw (fun i hi hl => hne i (by omega) hl)
      · intro i hi hl
        by_cases hsame : (e.kernel.param_info k).stack_offset
            = (e.kernel.param_info i).stack_offset
        · refine ⟨k, p, by omega, hloc, hsame, hp, ?_, ?_⟩
          · show read_word (write_word st.1 _ p) _ = _
            rw [← hsame, read_word_write_word_same]
          · show _ ∈ st.2 ++ _
            rw [← hsame]
            simp [OPENCL_WORK_GROUP_STACK_ALIGN]
        · have hik : i < k := by
            by_contra hcon
            have : i = k := by omega
            subst this
            exact hsame rfl
          obtain ⟨j, q, hj, hjl, hjo, hjp, hjr, hjm⟩ := inv.hslot i hik hl
          refine ⟨j, q, by omega, hjl, hjo, hjp, ?_, ?_⟩
          · show read_word (write_word st.1 _ p) _ = _
            rw [read_word_write_word_other _ _ _ _ (by omega)]
            exact hjr
          · show _ ∈ st.2 ++ _
            exact List.mem_append_left _ hjm
      · intro r hr
        rcases List.mem_append.mp hr with h | h
        · obtain ⟨h1, h2, h3, h4⟩ := inv.hreq r h
          exact ⟨by omega, h2, h3, h4⟩
        · simp only [List.mem_singleton] at h
          subst h
          exact ⟨by show k < k + 1; omega, hloc, rfl, rfl⟩
    · simp only [init_local_param, hloc, Bool.false_eq_true, if_false]
      refine ⟨st, rfl, ⟨inv.houtside, ?_, ?_, ?_⟩⟩
      · intro w hw hne
        exact inv.hkept w hw (fun i hi hl => hne i (by omega) hl)
      · intro i hi hl
        have hik : i < k := by
          by_contra hcon
          have : i = k := by omega
          subst this
          exact hloc hl
        obtain ⟨j, q, hj, hrest⟩ := inv.hslot i hik hl
        exact ⟨j, q, by omega, hrest⟩
      · intro r hr
        obtain ⟨h1, h2, h3, h4⟩ := inv.hreq r hr
        exact ⟨by omega, h2, h3, h4⟩

lemma work_group_init_eq (max_work_group_size : Nat) (mem : Mem) (alloc : allocator_t)
    (work_group barrier_func : Nat) (e : init_exec_t)
    (hdim : ¬ (0 < work_group_init_num_items e.ndrange ∧ ¬ 0 < e.ndrange.work_dim))
    (hcap : work_group_init_num_items e.ndrange ≤ (max_work_group_size : Int))
    (hfresh : ¬ (alloc.xmalloc_stack_params < e.stack_params + 4 * e.kernel.stack_param_words ∧
      e.stack_params < alloc.xmalloc_stack_params + 4 * e.kernel.stack_param_words))
    (hoff : ∀ i, i < e.kernel.num_params → (e.kernel.param_info i).mem_arg_local = true →
      (e.kernel.param_info i).stack_offset < e.kernel.stack_param_words)
    (halloc : ∀ i, i < e.kernel.num_params → (e.kernel.param_info i).mem_arg_local = true →
      ∃ p, alloc.posix_memalign i = some p) :
    ∃ r st, opencl_x86_device_work_group_init max_work_group_size mem alloc work_group
        barrier_func e = some r ∧
      InitFrameInv e alloc mem
        (memmove_spec mem alloc.xmalloc_stack_params e.stack_params
          (4 * e.kernel.stack_param_words)) e.kernel.num_params st ∧
      r.num_items = work_group_init_num_items e.ndrange ∧ r.num_done = 0 ∧
      r.stack_params = alloc.xmalloc_stack_params ∧
      r.stack_params_bytes = 4 * e.kernel.stack_param_words ∧
      r.mem = st.1 ∧ r.requests = st.2 := by
  obtain ⟨st, hst, inv⟩ := init_local_params_inv e alloc mem hfresh hoff halloc
    e.kernel.num_params (Nat.le_refl _)
  unfold opencl_x86_device_work_group_init
  simp only [hdim, if_false, not_lt.mpr hcap, memcpy_eq_memmove mem _ _ _ hfresh, hst]
  exact ⟨_, st, rfl, inv, rfl, rfl, rfl, rfl, rfl, rfl⟩

lemma work_group_init_counts (max_work_group_size : Nat) (mem : Mem) (alloc : allocator_t)
    (work_group barrier_func : Nat) (e : init_exec_t) (r : work_group_init_result)
    (h : opencl_x86_device_work_group_init max_work_group_size mem alloc work_group
      barrier_func e = some r) :
    r.num_items = work_group_init_num_items e.ndrange ∧ r.num_done = 0 ∧
      r.num_items ≤ (max_work_group_size : Int) := by
  unfold opencl_x86_device_work_group_init at h
  by_cases hc : 0 < work_group_init_num_items e.ndrange ∧ ¬ 0 < e.ndrange.work_dim
  · simp only [hc, and_self, if_true] at h
    cases h
  · by_cases hcap : (max_work_group_size : Int) < work_group_init_num_items e.ndrange
    · simp only [hc, if_false, hcap, if_true] at h
      cases h
    simp only [hc, if_false, hcap] at h
    cases hm : memcpy mem alloc.xmalloc_stack_params e.stack_params
        (4 * e.kernel.stack_param_words) with
    | none => simp only [hm] at h; cases h
    | some mem1 =>
      simp only [hm] at h
      cases hl : init_local_params e alloc alloc.xmalloc_stack_params e.kernel.num_params
          (mem1, []) with
      | none => simp only [hl] at h; cases h
      | some st =>
        simp only [hl] at h
        cases h
        exact ⟨rfl, rfl, not_lt.mp hcap⟩

lemma work_group_init_no_dim (max_work_group_size : Nat) (mem : Mem) (alloc : allocator_t)
    (work_group barrier_func : Nat) (e : init_exec_t) (h : e.ndrange.work_dim = 0) :
    opencl_x86_device_work_group_init max_work_group_size mem alloc work_group
      barrier_func e = none := by
  have hn : work_group_init_num_items e.ndrange = 1 := by
    unfold work_group_init_num_items
    rw [h]
    rfl
  unfold opencl_x86_device_work_group_init
  simp [hn, h]

lemma work_group_init_overrun (max_work_group_size : Nat) (mem : Mem) (alloc : allocator_t)
    (work_group barrier_func : Nat) (e : init_exec_t)
    (h : (max_work_group_size : Int) < work_group_init_num_items e.ndrange) :
    opencl_x86_device_work_group_init max_work_group_size mem alloc work_group
      barrier_func e = none := by
  unfold opencl_x86_device_work_group_init
  by_cases hc : 0 < work_group_init_num_items e.ndrange ∧ ¬ 0 < e.ndrange.work_dim
  · rw [if_pos hc]
  · rw [if_neg hc, if_pos h]

/-- C16, counterexample: with `work_dim = 2` and local sizes 65536 x 65536 the product
is 2^32 but `work_group_init` leaves `num_items = 0`; and with `work_dim = 0` it does
not complete, the assertion `dims > 0` of `init_work_item` failing on the single
item. -/
theorem work_group_init_num_items_wraps :
    (∃ r, opencl_x86_device_work_group_init 1024 mem_example allocator_example 0x500 0x700
        init_exec_overflow = some r ∧ r.num_items = 0) ∧
    nd_size init_exec_overflow.ndrange.local_work_size init_exec_overflow.ndrange.work_dim
      = 4294967296 ∧
    opencl_x86_device_work_group_init 1024 mem_example allocator_example 0x500 0x700
        init_exec_no_dim = none := by
  refine ⟨?_, by decide, ?_⟩
  · obtain ⟨r, st, h1, _, h2, _⟩ := work_group_init_eq 1024 mem_example allocator_example
      0x500 0x700 init_exec_overflow (by decide) (by decide) (by decide)
      (by
        intro i hi hl
        have h3 : i < 3 := hi
        interval_cases i <;> first | exact absurd hl (by decide) | decide)
      (fun i _ _ => ⟨_, rfl⟩)
    refine ⟨r, h1, ?_⟩
    rw [h2]
    decide
  · exact work_group_init_no_dim 1024 mem_example allocator_example 0x500 0x700
      init_exec_no_dim rfl

/-- C16, amended: whenever `work_group_init` completes, `num_items` is the product of
`local_work_size[j]` over `j < work_dim` reduced modulo 2^32 to a 32-bit `int`, at most
`X86_MAX_WORK_GROUP_SIZE`, and `num_done` is 0; the reduced value is the product itself
whenever the product is below 2^31. The call completes when `work_dim ≥ 1`, `num_items`
is at most `X86_MAX_WORK_GROUP_SIZE` and the frame set-up succeeds; it does not
complete when `work_dim = 0` (the assertion of `init_work_item` fails on the single
item) nor when `num_items` exceeds `X86_MAX_WORK_GROUP_SIZE` (the item loop runs past
the array `work_item_data`). -/
theorem work_group_init_sets_counts (max_work_group_size : Nat) (mem : Mem)
    (alloc : allocator_t) (work_group barrier_func : Nat) (e : init_exec_t) :
    (∀ r, opencl_x86_device_work_group_init max_work_group_size mem alloc work_group
        barrier_func e = some r →
      r.num_items = wrap_int (nd_size e.ndrange.local_work_size e.ndrange.work_dim : Int) ∧
      r.num_items ≤ (max_work_group_size : Int) ∧ r.num_done = 0) ∧
    (nd_size e.ndrange.local_work_size e.ndrange.work_dim < 2147483648 →
      wrap_int (nd_size e.ndrange.local_work_size e.ndrange.work_dim : Int) =
        (nd_size e.ndrange.local_work_size e.ndrange.work_dim : Int)) ∧
    (1 ≤ e.ndrange.work_dim →
      work_group_init_num_items e.ndrange ≤ (max_work_group_size : Int) →
      ¬ (alloc.xmalloc_stack_params < e.stack_params + 4 * e.kernel.stack_param_words ∧
        e.stack_params < alloc.xmalloc_stack_params + 4 * e.kernel.stack_param_words) →
      (∀ i, i < e.kernel.num_params → (e.kernel.param_info i).mem_arg_local = true →
        (e.kernel.param_info i).stack_offset < e.kernel.stack_param_words) →
      (∀ i, i < e.kernel.num_params → (e.kernel.param_info i).mem_arg_local = true →
        ∃ p, alloc.posix_memalign i = some p) →
      ∃ r, opencl_x86_device_work_group_init max_work_group_size mem alloc work_group
        barrier_func e = some r) ∧
    (e.ndrange.work_dim = 0 →
      opencl_x86_device_work_group_init max_work_group_size mem alloc work_group
        barrier_func e = none) ∧
    ((max_work_group_size : Int) < work_group_init_num_items e.ndrange →
      opencl_x86_device_work_group_init max_work_group_size mem alloc work_group
        barrier_func e = none) := by
  have hnum := work_group_init_num_items_eq e.ndrange
  refine ⟨?_, ?_, ?_, ?_, ?_⟩
  · intro r h
    obtain ⟨h2, h3, h4⟩ :=
      work_group_init_counts max_work_group_size mem alloc work_group barrier_func e r h
    exact ⟨by rw [h2, hnum], h4, h3⟩
  · intro hprod
    exact wrap_int_id _ (by omega) (by omega)
  · intro hdim hcap hfresh hoff halloc
    obtain ⟨r, st, h1, _⟩ := work_group_init_eq max_work_group_size mem alloc work_group
      barrier_func e (by intro h; exact h.2 (by omega)) hcap hfresh hoff halloc
    exact ⟨r, h1⟩
  · exact work_group_init_no_dim max_work_group_size mem alloc work_group barrier_func e
  · exact work_group_init_overrun max_work_group_size mem alloc work_group barrier_func e

/-- Witness for C16: with 1024 entries, local size (4, 2) gives `num_items = 8`. -/
theorem work_group_init_sets_counts_witness :
    ∃ r, opencl_x86_device_work_group_init 1024 mem_example allocator_example 0x500 0x700
        init_exec_example = some r ∧
      r.num_items = 8 ∧ r.num_done = 0 := by
  have h := work_group_init_sets_counts 1024 mem_example allocator_example 0x500 0x700
    init_exec_example
  obtain ⟨r, h1⟩ := h.2.2.1 (by decide) (by decide) (by decide)
    (by
      intro i hi hl
      have h3 : i < 3 := hi
      interval_cases i <;> first | exact absurd hl (by decide) | decide)
    (fun i _ _ => ⟨_, rfl⟩)
  obtain ⟨h2, _, h3⟩ := h.1 r h1
  refine ⟨r, h1, ?_, h3⟩
  rw [h2]
  decide

/-- C17: when the items fit the arrays of `X86_MAX_WORK_GROUP_SIZE` entries,
`work_group_init` completes, and after it the group's frame is the block of
`4 * stack_param_words` bytes returned by `xmalloc`; every word of it that is not the
`stack_offset` of a local-memory parameter equals the word of the source frame; the
slot of every local-memory parameter holds a block that `posix_memalign` returned to a
request of alignment 16 and of the size found in that slot of the source frame, and
every request made is of that kind; and the source frame is unchanged. -/
theorem work_group_init_builds_private_frame (max_work_group_size : Nat) (mem : Mem)
    (alloc : allocator_t) (work_group barrier_func : Nat) (e : init_exec_t)
    (hdim : 1 ≤ e.ndrange.work_dim)
    (hcap : work_group_init_num_items e.ndrange ≤ (max_work_group_size : Int))
    (hfresh : ¬ (alloc.xmalloc_stack_params < e.stack_params + 4 * e.kernel.stack_param_words ∧
      e.stack_params < alloc.xmalloc_stack_params + 4 * e.kernel.stack_param_words))
    (hoff : ∀ i, i < e.kernel.num_params → (e.kernel.param_info i).mem_arg_local = true →
      (e.kernel.param_info i).stack_offset < e.kernel.stack_param_words)
    (halloc : ∀ i, i < e.kernel.num_params → (e.kernel.param_info i).mem_arg_local = true →
      ∃ p, alloc.posix_memalign i = some p) :
    ∃ r, opencl_x86_device_work_group_init max_work_group_size mem alloc work_group
        barrier_func e = some r ∧
      r.stack_params = alloc.xmalloc_stack_params ∧
      r.stack_params_bytes = 4 * e.kernel.stack_param_words ∧
      (∀ k, k < e.kernel.stack_param_words →
        (∀ i, i < e.kernel.num_params → (e.kernel.param_info i).mem_arg_local = true →
          (e.kernel.param_info i).stack_offset ≠ k) →
        read_word r.mem (r.stack_params + 4 * k) = read_word mem (e.stack_params + 4 * k)) ∧
      (∀ i, i < e.kernel.num_params → (e.kernel.param_info i).mem_arg_local = true →
        ∃ j p, j < e.kernel.num_params ∧ (e.kernel.param_info j).mem_arg_local = true ∧
          (e.kernel.param_info j).stack_offset = (e.kernel.param_info i).stack_offset ∧
          alloc.posix_memalign j = some p ∧
          read_word r.mem (r.stack_params + 4 * (e.kernel.param_info i).stack_offset)
            = p % 4294967296 ∧
          ({ param := j, alignment := 16,
             size := read_word mem
               (e.stack_params + 4 * (e.kernel.param_info i).stack_offset) }
            : alloc_request_t) ∈ r.requests) ∧
      (∀ q, q ∈ r.requests → q.alignment = 16 ∧
        q.size = read_word mem
          (e.stack_params + 4 * (e.kernel.param_info q.param).stack_offset)) ∧
      (∀ a, e.stack_params ≤ a → a < e.stack_params + 4 * e.kernel.stack_param_words →
        r.mem a = mem a) := by
  obtain ⟨r, st, h1, inv, _, _, h4, h5, h6, h7⟩ :=
    work_group_init_eq max_work_group_size mem alloc work_group barrier_func e
      (by intro h; exact h.2 (by omega)) hcap hfresh hoff halloc
  refine ⟨r, h1, h4, h5, ?_, ?_, ?_, ?_⟩
  · intro k hk hne
    rw [h4, h6, inv.hkept k hk hne]
    apply read_word_shift
    intro t ht
    unfold memmove_spec
    rw [if_pos (by omega)]
    congr 1
    omega
  · intro i hi hl
    rw [h4, h6, h7]
    exact inv.hslot i hi hl
  · intro q hq
    rw [h7] at hq
    obtain ⟨_, _, h8, h9⟩ := inv.hreq q hq
    exact ⟨h8, h9⟩
  · intro a ha1 ha2
    rw [h6, inv.houtside a (by omega)]
    unfold memmove_spec
    rw [if_neg (by omega)]

/-- Witness for C17: eight items in arrays of 1024 entries; the frame of four words is
copied from 0x3000 to 0x4000, with the local-memory parameter in word 2. -/
theorem work_group_init_builds_private_frame_witness :
    work_group_init_num_items init_exec_example.ndrange ≤ ((1024 : Nat) : Int) ∧
    ∃ r, opencl_x86_device_work_group_init 1024 mem_example allocator_example 0x500 0x700
        init_exec_example = some r ∧
      r.stack_params = 0x4000 ∧
      read_word r.mem (r.stack_params + 4 * 3) = read_word mem_example (0x3000 + 4 * 3) := by
  refine ⟨by decide, ?_⟩
  obtain ⟨r, h1, h2, _, h3, _⟩ := work_group_init_builds_private_frame 1024 mem_example
      allocator_example 0x500 0x700 init_exec_example (by decide) (by decide) (by decide)
      (by
        intro i hi hl
        have h3 : i < 3 := hi
        interval_cases i <;> first | exact absurd hl (by decide) | decide)
      (fun i _ _ => ⟨_, rfl⟩)
  refine ⟨r, h1, h2, h3 3 (by decide) ?_⟩
  intro i hi hl
  have h4 : i < 3 := hi
  interval_cases i <;> first | exact absurd hl (by decide) | decide

/-! ### `Emu::createBufferDesc` -/

lemma createBufferDesc_switch_error_iff (num_elems : Int) (data_type : ArgDataType) :
    (∃ e, createBufferDesc_switch num_elems data_type = .error e) ↔
      spec_rejected data_type num_elems := by
  cases data_type <;>
    simp only [createBufferDesc_switch, spec_rejected, spec_data_types,
      spec_num_elems_permitted] <;>
    (try split_ifs) <;> simp_all

lemma createBufferDesc_switch_ok_ne_invalid (num_elems : Int) (data_type : ArgDataType)
    (nf : BufDescNumFmt) (df : BufDescDataFmt) (es : Int)
    (h : createBufferDesc_switch num_elems data_type = .ok (nf, df, es)) :
    nf ≠ BufDescNumFmtInvalid ∧ df ≠ BufDescDataFmtInvalid := by
  cases data_type <;> simp only [createBufferDesc_switch] at h <;>
    (try split_ifs at h) <;> simp_all <;>
    (obtain ⟨h1, h2, _⟩ := h; subst h1; subst h2; simp)

/-- C21: with the descriptor 16 bytes long, `createBufferDesc` throws an `Error` exactly
when the data type is not one of the nine listed or the element count is not permitted
for it, and whenever it throws `*buffer_desc` is what it was before the call. -/
theorem createBufferDesc_throws_iff_rejected (decl : EmuBufferDescDecl)
    (hsize : decl.sizeof = 16) (base_addr size : Nat) (num_elems : Int)
    (data_type : ArgDataType) (buffer_desc : EmuBufferDesc) :
    ((∃ e, (createBufferDesc decl base_addr size num_elems data_type buffer_desc).1 =
        Completion.thrown e) ↔ spec_rejected data_type num_elems) ∧
    (∀ e, (createBufferDesc decl base_addr size num_elems data_type buffer_desc).1 =
        Completion.thrown e →
      (createBufferDesc decl base_addr size num_elems data_type buffer_desc).2 =
        buffer_desc) := by
  rw [← createBufferDesc_switch_error_iff]
  cases hsw : createBufferDesc_switch num_elems data_type with
  | error e0 =>
    simp [createBufferDesc, hsize, hsw]
  | ok r =>
    obtain ⟨nf, df, es⟩ := r
    obtain ⟨h1, h2⟩ := createBufferDesc_switch_ok_ne_invalid _ _ _ _ _ hsw
    simp only [createBufferDesc, hsize, hsw, h1, h2]
    by_cases hm : size % to_unsigned es = 0 <;> simp [hm]

/-- Witness for C21: three doubles are rejected and the stale descriptor is untouched. -/
theorem createBufferDesc_throws_iff_rejected_witness :
    decl_example.sizeof = 16 ∧
    (((∃ e, (createBufferDesc decl_example 4096 48 3 ArgDataTypeDouble
          buffer_desc_example).1 = Completion.thrown e) ↔
        spec_rejected ArgDataTypeDouble 3) ∧
      (∀ e, (createBufferDesc decl_example 4096 48 3 ArgDataTypeDouble
          buffer_desc_example).1 = Completion.thrown e →
        (createBufferDesc decl_example 4096 48 3 ArgDataTypeDouble buffer_desc_example).2 =
          buffer_desc_example)) :=
  ⟨rfl, createBufferDesc_throws_iff_rejected decl_example rfl 4096 48 3 ArgDataTypeDouble
    buffer_desc_example⟩

lemma createBufferDesc_switch_accepted (num_elems : Int) (data_type : ArgDataType)
    (h : ¬ spec_rejected data_type num_elems) :
    ∃ df, createBufferDesc_switch num_elems data_type =
        .ok (spec_num_format data_type, df, spec_elem_size data_type num_elems) ∧
      (df.total_bits : Int) = 8 * spec_elem_size data_type num_elems ∧
      df ≠ BufDescDataFmtInvalid ∧ spec_num_format data_type ≠ BufDescNumFmtInvalid ∧
      1 ≤ spec_elem_size data_type num_elems ∧ spec_elem_size data_type num_elems ≤ 16 := by
  simp only [spec_rejected, spec_data_types, not_or, not_not] at h
  obtain ⟨-, hp⟩ := h
  cases data_type <;> simp only [spec_num_elems_permitted] at hp
  case ArgDataTypeStruct =>
    refine ⟨BufDescDataFmt8, ?_, ?_, by decide, by decide, ?_, ?_⟩ <;>
      simp [createBufferDesc_switch, spec_num_format, spec_elem_size, BufDescDataFmt.total_bits,
        BufDescDataFmt.components]
  all_goals
    (casesm* _ ∨ _) <;> subst_vars <;>
      exact ⟨_, rfl, by decide, by decide, by decide, by decide, by decide⟩

lemma to_unsigned_small (x : Int) (h0 : 0 ≤ x) (h1 : x ≤ 16) :
    (to_unsigned x : Int) = x := by
  unfold to_unsigned
  rw [Int.emod_eq_of_lt h0 (by omega), Int.toNat_of_nonneg h0]

/-- Counterexample to C22 as stated: with the field widths of the 16-byte hardware
descriptor, one 32-bit integer per element and `size = 8` are accepted and 8 is a
multiple of the element size 4, yet after the call the 2-bit field `elem_size` holds 0,
not 4, and `num_records * elem_size` is 0, not `size`. -/
theorem createBufferDesc_truncates_elem_size :
    ¬ spec_rejected ArgDataTypeInt32 1 ∧
    spec_elem_size ArgDataTypeInt32 1 = 4 ∧
    spec_elem_size ArgDataTypeInt32 1 ∣ ((8 : Nat) : Int) ∧
    (createBufferDesc decl_hardware 4096 8 1 ArgDataTypeInt32 buffer_desc_example).1 =
      Completion.returned ∧
    (createBufferDesc decl_hardware 4096 8 1 ArgDataTypeInt32
      buffer_desc_example).2.elem_size = 0 ∧
    (createBufferDesc decl_hardware 4096 8 1 ArgDataTypeInt32
      buffer_desc_example).2.num_records = 2 ∧
    (createBufferDesc decl_hardware 4096 8 1 ArgDataTypeInt32
        buffer_desc_example).2.num_records *
      (createBufferDesc decl_hardware 4096 8 1 ArgDataTypeInt32
        buffer_desc_example).2.elem_size ≠ 8 := by
  refine ⟨?_, by decide, by decide, by decide, by decide, by decide, by decide⟩
  simp [spec_rejected, spec_data_types, spec_num_elems_permitted]

/-- C22 (amended): for an accepted data type and element count and a `size` that is a
multiple of the element size `E = width * num_elems` (1 for Struct), the call returns
having stored in each numeric field the value assigned, reduced modulo 2 to the width of
the field: `elem_size = E mod 2^w`, which is `E` exactly when `E < 2^w`; `num_records =
(size / E) mod 2^w` with `(size / E) * E = size`; `base_addr` the given address mod
2^w; the number format Sint / Float / Uint of the type; a data format of `8 * E` bits;
the fields it does not name keep their values. -/
theorem createBufferDesc_fills_descriptor (decl : EmuBufferDescDecl)
    (hsize : decl.sizeof = 16) (base_addr size : Nat) (num_elems : Int)
    (data_type : ArgDataType) (buffer_desc : EmuBufferDesc)
    (hacc : ¬ spec_rejected data_type num_elems)
    (hmul : spec_elem_size data_type num_elems ∣ (size : Int)) :
    (createBufferDesc decl base_addr size num_elems data_type buffer_desc).1 =
        Completion.returned ∧
      ((createBufferDesc decl base_addr size num_elems data_type buffer_desc).2.elem_size :
          Int) = spec_elem_size data_type num_elems % 2 ^ decl.elem_size_bits ∧
      (((createBufferDesc decl base_addr size num_elems data_type buffer_desc).2.elem_size :
          Int) = spec_elem_size data_type num_elems ↔
        spec_elem_size data_type num_elems < 2 ^ decl.elem_size_bits) ∧
      ((createBufferDesc decl base_addr size num_elems data_type buffer_desc).2.num_records :
          Int) =
        ((size : Int) / spec_elem_size data_type num_elems) % 2 ^ decl.num_records_bits ∧
      ((size : Int) / spec_elem_size data_type num_elems) *
          spec_elem_size data_type num_elems = (size : Int) ∧
      (createBufferDesc decl base_addr size num_elems data_type buffer_desc).2.base_addr =
        base_addr % 2 ^ decl.base_addr_bits ∧
      (createBufferDesc decl base_addr size num_elems data_type buffer_desc).2.num_format =
        spec_num_format data_type ∧
      ((createBufferDesc decl base_addr size num_elems data_type
          buffer_desc).2.data_format.total_bits : Int) =
        8 * spec_elem_size data_type num_elems ∧
      (createBufferDesc decl base_addr size num_elems data_type buffer_desc).2.others =
        buffer_desc.others := by
  obtain ⟨df, hsw, hbits, hdf, hnf, he1, he16⟩ :=
    createBufferDesc_switch_accepted num_elems data_type hacc
  have hu := to_unsigned_small _ (by omega) he16
  generalize spec_elem_size data_type num_elems = es at *
  obtain ⟨k, rfl⟩ : ∃ k : Nat, es = (k : Int) := ⟨es.toNat, by omega⟩
  have hk : to_unsigned (k : Int) = k := by exact_mod_cast hu
  have hk0 : 0 < k := by omega
  have hmod : size % k = 0 := by
    have := Int.emod_eq_zero_of_dvd hmul
    exact_mod_cast this
  have hpow : (2 : Nat) ^ decl.elem_size_bits ≠ 0 := by positivity
  simp only [createBufferDesc, hsize, hsw, hdf, hnf, hk, hmod, ne_eq, not_true_eq_false,
    if_false, not_false_eq_true]
  refine ⟨trivial, ?_, ?_, ?_, ?_, trivial, trivial, hbits, trivial⟩
  · push_cast
    rfl
  · have h : k % 2 ^ decl.elem_size_bits = k ↔ k < 2 ^ decl.elem_size_bits :=
      Nat.mod_eq_iff_lt hpow
    constructor
    · intro h1
      have h2 : k % 2 ^ decl.elem_size_bits = k := by exact_mod_cast h1
      exact_mod_cast h.mp h2
    · intro h1
      have h2 : k < 2 ^ decl.elem_size_bits := by exact_mod_cast h1
      exact_mod_cast h.mpr h2
  · push_cast
    rfl
  · have := Nat.div_mul_cancel (Nat.dvd_of_mod_eq_zero hmod)
    exact_mod_cast this

/-- Witness for C22 (amended): with the hardware widths, one 16-bit integer per element
and 8 bytes give `elem_size = 2` and 4 records. -/
theorem createBufferDesc_fills_descriptor_witness :
    decl_hardware.sizeof = 16 ∧
    ¬ spec_rejected ArgDataTypeInt16 1 ∧
    spec_elem_size ArgDataTypeInt16 1 ∣ ((8 : Nat) : Int) ∧
    (createBufferDesc decl_hardware 4096 8 1 ArgDataTypeInt16 buffer_desc_example).1 =
      Completion.returned ∧
    ((createBufferDesc decl_hardware 4096 8 1 ArgDataTypeInt16
      buffer_desc_example).2.elem_size : Int) = 2 ∧
    ((createBufferDesc decl_hardware 4096 8 1 ArgDataTypeInt16
      buffer_desc_example).2.num_records : Int) = 4 ∧
    (createBufferDesc decl_hardware 4096 8 1 ArgDataTypeInt16
      buffer_desc_example).2.data_format = BufDescDataFmt16 :=
  have hacc : ¬ spec_rejected ArgDataTypeInt16 1 := by
    simp [spec_rejected, spec_data_types, spec_num_elems_permitted]
  have h := createBufferDesc_fills_descriptor decl_hardware rfl 4096 8 1 ArgDataTypeInt16
    buffer_desc_example hacc (by decide)
  ⟨rfl, hacc, by decide, h.1, h.2.1, h.2.2.2.1, by decide⟩

/-! ### Occupancy calculator -/

lemma spec_ceil_div_eq (a b : Int) (hb : 0 < b) : spec_ceil_div a b = (a + b - 1) / b := by
  unfold spec_ceil_div
  have h1 := Int.emod_add_ediv (a + b - 1) b
  have h2 := Int.emod_nonneg (a + b - 1) (ne_of_gt hb)
  have h3 := Int.emod_lt_of_pos (a + b - 1) hb
  have h : (-a) / b = -((a + b - 1) / b) ∧ (-a) % b = b - 1 - (a + b - 1) % b := by
    rw [Int.ediv_emod_unique hb]
    refine ⟨?_, by omega, by omega⟩
    rw [mul_neg]
    omega
  rw [h.1, neg_neg]

lemma spec_ceil_div_bounds (a b : Int) (hb : 0 < b) :
    a ≤ spec_ceil_div a b * b ∧ spec_ceil_div a b * b < a + b := by
  rw [spec_ceil_div_eq a b hb]
  have h1 := Int.emod_add_ediv (a + b - 1) b
  have h2 := Int.emod_nonneg (a + b - 1) (ne_of_gt hb)
  have h3 := Int.emod_lt_of_pos (a + b - 1) hb
  rw [mul_comm] at h1
  constructor <;> omega

lemma spec_ceil_div_nonneg (a b : Int) (ha : 0 ≤ a) (hb : 0 < b) : 0 ≤ spec_ceil_div a b := by
  rw [spec_ceil_div_eq a b hb]
  exact Int.ediv_nonneg (by omega) (le_of_lt hb)

lemma spec_ceil_div_pos_iff (a b : Int) (ha : 0 ≤ a) (hb : 0 < b) :
    1 ≤ spec_ceil_div a b ↔ 1 ≤ a := by
  obtain ⟨h1, h2⟩ := spec_ceil_div_bounds a b hb
  have h0 := spec_ceil_div_nonneg a b ha hb
  constructor
  · intro h
    by_contra hc
    have ha0 : a = 0 := by omega
    subst ha0
    have : spec_ceil_div 0 b * b ≥ 1 * b := Int.mul_le_mul_of_nonneg_right h (le_of_lt hb)
    omega
  · intro h
    by_contra hc
    have h00 : spec_ceil_div a b = 0 := by omega
    rw [h00] at h1
    omega

lemma spec_round_up_bounds (n m : Int) (hm : 0 < m) :
    n ≤ spec_round_up n m ∧ spec_round_up n m < n + m :=
  spec_ceil_div_bounds n m hm

lemma spec_round_up_pos_iff (n m : Int) (hn : 0 ≤ n) (hm : 0 < m) :
    1 ≤ spec_round_up n m ↔ 1 ≤ n := by
  obtain ⟨h1, h2⟩ := spec_round_up_bounds n m hm
  constructor
  · intro h
    by_contra hc
    have hn0 : n = 0 := by omega
    subst hn0
    have h3 := (spec_ceil_div_pos_iff 0 m le_rfl hm).not.mpr (by omega)
    have h4 := spec_ceil_div_nonneg 0 m le_rfl hm
    have h5 : spec_ceil_div 0 m = 0 := by omega
    simp only [spec_round_up, h5, zero_mul] at h
    omega
  · intro h
    omega

lemma c_div_pos (a b : Int) (hb : 0 < b) : c_div a b = some (Int.tdiv a b) := by
  unfold c_div
  rw [if_neg]
  omega

lemma c_div_zero (a : Int) : c_div a 0 = none := by
  simp [c_div]

lemma spec_round_up_nonneg (n m : Int) (hn : 0 ≤ n) (hm : 0 < m) : 0 ≤ spec_round_up n m := by
  have := (spec_round_up_bounds n m hm).1
  omega

lemma mul_pos_iff_of_nonneg (x y : Int) (hx : 0 ≤ x) (hy : 0 ≤ y) :
    1 ≤ x * y ↔ 1 ≤ x ∧ 1 ≤ y := by
  constructor
  · intro h
    by_contra hc
    have h0 : x = 0 ∨ y = 0 := by omega
    rcases h0 with h0 | h0 <;> simp [h0] at h
  · rintro ⟨h1, h2⟩
    have := Int.mul_pos (show 0 < x by omega) (show 0 < y by omega)
    omega

lemma calc_wavefronts_eq (cfg : gpu_config_t) (wi : Int)
    (hws : 0 < cfg.gpu_wavefront_size) (hwi : 0 ≤ wi)
    (h : wi + cfg.gpu_wavefront_size < 2147483648) :
    calc_wavefronts_per_work_group cfg wi =
      some (spec_ceil_div wi cfg.gpu_wavefront_size) := by
  unfold calc_wavefronts_per_work_group
  rw [wrap_int_id _ (by omega) h, wrap_int_id _ (by omega) (by omega), c_div_pos _ _ hws,
    Int.tdiv_eq_ediv (by omega) (le_of_lt hws), spec_ceil_div_eq _ _ hws]

lemma calc_registers_eq (cfg : gpu_config_t) (hm : MacrosConventional cfg)
    (wi rpi lm : Int) (hd : CalcDomain cfg wi rpi lm) (ho : CalcNoOverflow cfg wi rpi lm) :
    calc_registers_per_work_group cfg wi rpi (spec_ceil_div wi cfg.gpu_wavefront_size) =
      spec_registers_per_work_group cfg wi rpi := by
  unfold calc_registers_per_work_group spec_registers_per_work_group
  by_cases hg : cfg.gpu_register_alloc_granularity = cfg.gpu_register_alloc_wavefront
  · obtain ⟨h1, h2⟩ := ho.registers_wavefront hg
    have hp : 0 ≤ rpi * cfg.gpu_wavefront_size :=
      Int.mul_nonneg hd.registers_nonneg (le_of_lt hd.wavefront_size_pos)
    have hr := spec_round_up_nonneg _ _ hp hd.register_alloc_size_pos
    have hc := spec_ceil_div_nonneg wi _ hd.work_items_nonneg hd.wavefront_size_pos
    have hrc := Int.mul_nonneg hr hc
    have ha := hd.register_alloc_size_pos
    rw [if_pos hg, if_pos hg,
      wrap_int_id (rpi * cfg.gpu_wavefront_size) (by omega) (by omega),
      hm.ROUND_UP_eq _ _ hp hd.register_alloc_size_pos h1, wrap_int_id _ (by omega) h2]
  · have h1 := ho.registers_work_group hg
    have hp : 0 ≤ rpi * wi := Int.mul_nonneg hd.registers_nonneg hd.work_items_nonneg
    have ha := hd.register_alloc_size_pos
    rw [if_neg hg, if_neg hg, wrap_int_id (rpi * wi) (by omega) (by omega),
      hm.ROUND_UP_eq _ _ hp hd.register_alloc_size_pos h1]

lemma calc_local_mem_eq (cfg : gpu_config_t) (hm : MacrosConventional cfg)
    (wi rpi lm : Int) (hd : CalcDomain cfg wi rpi lm) (ho : CalcNoOverflow cfg wi rpi lm) :
    calc_local_mem_per_work_group cfg lm =
      spec_round_up lm cfg.gpu_local_mem_alloc_size :=
  hm.ROUND_UP_eq _ _ hd.local_mem_nonneg hd.local_mem_alloc_size_pos ho.local_mem

lemma spec_registers_nonneg (cfg : gpu_config_t) (wi rpi lm : Int)
    (hd : CalcDomain cfg wi rpi lm) : 0 ≤ spec_registers_per_work_group cfg wi rpi := by
  unfold spec_registers_per_work_group
  split
  · exact Int.mul_nonneg
      (spec_round_up_nonneg _ _
        (Int.mul_nonneg hd.registers_nonneg (le_of_lt hd.wavefront_size_pos))
        hd.register_alloc_size_pos)
      (spec_ceil_div_nonneg wi _ hd.work_items_nonneg hd.wavefront_size_pos)
  · exact spec_round_up_nonneg _ _
      (Int.mul_nonneg hd.registers_nonneg hd.work_items_nonneg) hd.register_alloc_size_pos

lemma spec_registers_pos_iff (cfg : gpu_config_t) (wi rpi lm : Int)
    (hd : CalcDomain cfg wi rpi lm) :
    1 ≤ spec_registers_per_work_group cfg wi rpi ↔ 1 ≤ wi ∧ 1 ≤ rpi := by
  have hws := hd.wavefront_size_pos
  unfold spec_registers_per_work_group
  split
  · have hp : 0 ≤ rpi * cfg.gpu_wavefront_size :=
      Int.mul_nonneg hd.registers_nonneg (le_of_lt hws)
    rw [mul_pos_iff_of_nonneg _ _
        (spec_round_up_nonneg _ _ hp hd.register_alloc_size_pos)
        (spec_ceil_div_nonneg wi _ hd.work_items_nonneg hws),
      spec_round_up_pos_iff _ _ hp hd.register_alloc_size_pos,
      spec_ceil_div_pos_iff _ _ hd.work_items_nonneg hws,
      mul_pos_iff_of_nonneg _ _ hd.registers_nonneg (le_of_lt hws)]
    constructor
    · rintro ⟨⟨h1, -⟩, h2⟩
      exact ⟨h2, h1⟩
    · rintro ⟨h1, h2⟩
      exact ⟨⟨h2, by omega⟩, h1⟩
  · rw [spec_round_up_pos_iff _ _
        (Int.mul_nonneg hd.registers_nonneg hd.work_items_nonneg) hd.register_alloc_size_pos,
      mul_pos_iff_of_nonneg _ _ hd.registers_nonneg hd.work_items_nonneg]
    exact And.comm

lemma c_div_nonneg (a b : Int) (hb : 0 ≤ b) :
    c_div a b = if b = 0 then none else some (Int.tdiv a b) := by
  unfold c_div
  by_cases h : b = 0
  · simp [h]
  · rw [if_neg h, if_neg]
    omega

lemma calc_unfold (cfg : gpu_config_t) (hm : MacrosConventional cfg) (wi rpi lm : Int)
    (hd : CalcDomain cfg wi rpi lm) (ho : CalcNoOverflow cfg wi rpi lm) :
    gpu_calc_get_work_groups_per_compute_unit cfg wi rpi lm =
      if spec_ceil_div wi cfg.gpu_wavefront_size = 0 then none
      else if spec_registers_per_work_group cfg wi rpi = 0 then none
      else if spec_round_up lm cfg.gpu_local_mem_alloc_size = 0 then none
      else some (spec_work_groups_per_compute_unit cfg wi rpi lm) := by
  have hw := calc_wavefronts_eq cfg wi hd.wavefront_size_pos hd.work_items_nonneg ho.work_items
  have hr := calc_registers_eq cfg hm wi rpi lm hd ho
  have hl := calc_local_mem_eq cfg hm wi rpi lm hd ho
  have hw0 := spec_ceil_div_nonneg wi _ hd.work_items_nonneg hd.wavefront_size_pos
  have hr0 := spec_registers_nonneg cfg wi rpi lm hd
  have hl0 := spec_round_up_nonneg lm _ hd.local_mem_nonneg hd.local_mem_alloc_size_pos
  simp only [gpu_calc_get_work_groups_per_compute_unit, hw, hr, hl, bind, Option.bind,
    c_div_nonneg _ _ hw0, c_div_nonneg _ _ hr0, c_div_nonneg _ _ hl0, hm.MIN_eq]
  by_cases h1 : spec_ceil_div wi cfg.gpu_wavefront_size = 0
  · simp [h1]
  · by_cases h2 : spec_registers_per_work_group cfg wi rpi = 0
    · simp [h1, h2]
    · by_cases h3 : spec_round_up lm cfg.gpu_local_mem_alloc_size = 0
      · simp [h1, h2, h3]
      · simp [h1, h2, h3, spec_work_groups_per_compute_unit]

lemma calc_divisors_pos_iff (cfg : gpu_config_t) (wi rpi lm : Int)
    (hd : CalcDomain cfg wi rpi lm) :
    (spec_ceil_div wi cfg.gpu_wavefront_size ≠ 0 ∧
        spec_registers_per_work_group cfg wi rpi ≠ 0 ∧
        spec_round_up lm cfg.gpu_local_mem_alloc_size ≠ 0) ↔
      (1 ≤ wi ∧ 1 ≤ rpi ∧ 1 ≤ lm) := by
  have hw0 := spec_ceil_div_nonneg wi _ hd.work_items_nonneg hd.wavefront_size_pos
  have hr0 := spec_registers_nonneg cfg wi rpi lm hd
  have hl0 := spec_round_up_nonneg lm _ hd.local_mem_nonneg hd.local_mem_alloc_size_pos
  have hw := spec_ceil_div_pos_iff wi _ hd.work_items_nonneg hd.wavefront_size_pos
  have hr := spec_registers_pos_iff cfg wi rpi lm hd
  have hl := spec_round_up_pos_iff lm _ hd.local_mem_nonneg hd.local_mem_alloc_size_pos
  constructor
  · rintro ⟨h1, h2, h3⟩
    exact ⟨hw.mp (by omega), (hr.mp (by omega)).2, hl.mp (by omega)⟩
  · rintro ⟨h1, h2, h3⟩
    have a := hw.mpr h1
    have b := hr.mpr ⟨h1, h2⟩
    have c := hl.mpr h3
    exact ⟨by omega, by omega, by omega⟩

lemma cfg_example_macros : MacrosConventional cfg_example where
  MIN_eq := by
    intro x y
    show (if x < y then x else y) = min x y
    split <;> omega
  ROUND_UP_eq := by
    intro n m hn hm _
    show Int.tdiv (n + m - 1) m * m = spec_round_up n m
    rw [Int.tdiv_eq_ediv (by omega) (le_of_lt hm), spec_round_up, spec_ceil_div_eq n m hm]

lemma cfg_example_domain (lm : Int) (h : 0 ≤ lm) : CalcDomain cfg_example 256 4 lm where
  wavefront_size_pos := by decide
  register_alloc_size_pos := by decide
  local_mem_alloc_size_pos := by decide
  work_items_nonneg := by decide
  registers_nonneg := by decide
  local_mem_nonneg := h

lemma cfg_example_no_overflow (lm : Int) (h : lm ≤ 32768) :
    CalcNoOverflow cfg_example 256 4 lm where
  work_items := by decide
  registers_wavefront := fun _ => ⟨by decide, by decide⟩
  registers_work_group := fun hne => absurd rfl hne
  local_mem := by
    show lm + 256 ≤ 2147483648
    omega

/-- Counterexample to C23 as stated: with 64-item wavefronts and a work-group size of
-200 every division is defined, yet the function returns -128 while the minimum of the
four listed values is -85, because C's division truncates -137 / 64 to -2 and the
ceiling of -200 / 64 is -3. -/
theorem calc_differs_for_negative_work_items :
    gpu_calc_get_work_groups_per_compute_unit cfg_example (-200) 1 1024 = some (-128) ∧
    spec_work_groups_per_compute_unit cfg_example (-200) 1 1024 = -85 ∧
    calc_wavefronts_per_work_group cfg_example (-200) = some (-2) ∧
    spec_ceil_div (-200) cfg_example.gpu_wavefront_size = -3 := by
  decide

/-- C23 (amended): for positive wavefront and allocation sizes, arguments that are all
at least 1, macros that behave as their names say and no intermediate value outside the
range of `int`, the function returns exactly the minimum of the four listed limits, and
that value does not exceed `gpu_max_work_groups_per_compute_unit`. -/
theorem calc_returns_min_of_four_limits (cfg : gpu_config_t) (hm : MacrosConventional cfg)
    (wi rpi lm : Int) (hd : CalcDomain cfg wi rpi lm) (ho : CalcNoOverflow cfg wi rpi lm)
    (hwi : 1 ≤ wi) (hrpi : 1 ≤ rpi) (hlm : 1 ≤ lm) :
    gpu_calc_get_work_groups_per_compute_unit cfg wi rpi lm =
        some (spec_work_groups_per_compute_unit cfg wi rpi lm) ∧
      spec_work_groups_per_compute_unit cfg wi rpi lm ≤
        cfg.gpu_max_work_groups_per_compute_unit := by
  obtain ⟨h1, h2, h3⟩ := (calc_divisors_pos_iff cfg wi rpi lm hd).mpr ⟨hwi, hrpi, hlm⟩
  constructor
  · rw [calc_unfold cfg hm wi rpi lm hd ho, if_neg h1, if_neg h2, if_neg h3]
  · unfold spec_work_groups_per_compute_unit
    exact le_trans (min_le_left _ _) (le_trans (min_le_left _ _) (min_le_left _ _))

/-- Witness for C23 (amended): 256 work-items, 4 registers each, 1 KB of local memory. -/
theorem calc_returns_min_of_four_limits_witness :
    MacrosConventional cfg_example ∧ CalcDomain cfg_example 256 4 1024 ∧
    CalcNoOverflow cfg_example 256 4 1024 ∧
    (gpu_calc_get_work_groups_per_compute_unit cfg_example 256 4 1024 =
        some (spec_work_groups_per_compute_unit cfg_example 256 4 1024) ∧
      spec_work_groups_per_compute_unit cfg_example 256 4 1024 ≤
        cfg_example.gpu_max_work_groups_per_compute_unit) :=
  ⟨cfg_example_macros, cfg_example_domain 1024 (by decide),
    cfg_example_no_overflow 1024 (by decide),
    calc_returns_min_of_four_limits cfg_example cfg_example_macros 256 4 1024
      (cfg_example_domain 1024 (by decide)) (cfg_example_no_overflow 1024 (by decide))
      (by decide) (by decide) (by decide)⟩

/-- C24: with positive wavefront and allocation sizes, non-negative arguments, macros
that behave as their names say and no intermediate value outside the range of `int`,
the three computed divisors are all non-zero exactly when the three arguments are all
at least 1, and exactly then the function returns a value; zero local memory makes the
local-memory divisor zero, zero registers make the register divisor zero, and a plot
point computed for such a kernel is undefined. -/
theorem calc_divisors_nonzero_iff (cfg : gpu_config_t) (hm : MacrosConventional cfg)
    (wi rpi lm : Int) (hd : CalcDomain cfg wi rpi lm) (ho : CalcNoOverflow cfg wi rpi lm) :
    ∃ w, calc_wavefronts_per_work_group cfg wi = some w ∧
      ((w ≠ 0 ∧ calc_registers_per_work_group cfg wi rpi w ≠ 0 ∧
          calc_local_mem_per_work_group cfg lm ≠ 0) ↔ (1 ≤ wi ∧ 1 ≤ rpi ∧ 1 ≤ lm)) ∧
      ((gpu_calc_get_work_groups_per_compute_unit cfg wi rpi lm).isSome = true ↔
        (1 ≤ wi ∧ 1 ≤ rpi ∧ 1 ≤ lm)) ∧
      (lm = 0 → calc_local_mem_per_work_group cfg lm = 0) ∧
      (rpi = 0 → calc_registers_per_work_group cfg wi rpi w = 0) ∧
      (∀ ndrange : gpu_ndrange_t, ndrange.local_mem_top = lm → ndrange.num_gpr_used = rpi →
        lm = 0 ∨ rpi = 0 → gpu_calc_plot_point cfg ndrange wi = none) := by
  have hiff := calc_divisors_pos_iff cfg wi rpi lm hd
  have hun := calc_unfold cfg hm wi rpi lm hd ho
  have hr0 := spec_registers_nonneg cfg wi rpi lm hd
  have hl0 := spec_round_up_nonneg lm _ hd.local_mem_nonneg hd.local_mem_alloc_size_pos
  have hr := spec_registers_pos_iff cfg wi rpi lm hd
  have hl := spec_round_up_pos_iff lm _ hd.local_mem_nonneg hd.local_mem_alloc_size_pos
  have hnone : ¬ (1 ≤ wi ∧ 1 ≤ rpi ∧ 1 ≤ lm) →
      gpu_calc_get_work_groups_per_compute_unit cfg wi rpi lm = none := by
    intro hc
    rw [← hiff] at hc
    rw [hun]
    by_cases h1 : spec_ceil_div wi cfg.gpu_wavefront_size = 0
    · simp [h1]
    · by_cases h2 : spec_registers_per_work_group cfg wi rpi = 0
      · simp [h1, h2]
      · by_cases h3 : spec_round_up lm cfg.gpu_local_mem_alloc_size = 0
        · simp [h1, h2, h3]
        · exact absurd ⟨h1, h2, h3⟩ hc
  refine ⟨spec_ceil_div wi cfg.gpu_wavefront_size,
    calc_wavefronts_eq cfg wi hd.wavefront_size_pos hd.work_items_nonneg ho.work_items,
    ?_, ?_, ?_, ?_, ?_⟩
  · rw [calc_registers_eq cfg hm wi rpi lm hd ho, calc_local_mem_eq cfg hm wi rpi lm hd ho]
    exact hiff
  · constructor
    · intro hs
      by_contra hc
      rw [hnone hc] at hs
      simp at hs
    · intro h
      obtain ⟨h1, h2, h3⟩ := hiff.mpr h
      rw [hun, if_neg h1, if_neg h2, if_neg h3]
      rfl
  · intro h
    rw [calc_local_mem_eq cfg hm wi rpi lm hd ho]
    omega
  · intro h
    rw [calc_registers_eq cfg hm wi rpi lm hd ho]
    omega
  · intro ndrange h1 h2 h
    have hc : ¬ (1 ≤ wi ∧ 1 ≤ rpi ∧ 1 ≤ lm) := by omega
    simp only [gpu_calc_plot_point, h1, h2, hnone hc, bind, Option.bind]

/-- Witness for C24: the example kernel uses no local memory, so the local-memory
divisor is zero, the function has no value and the current plot point is undefined. -/
theorem calc_divisors_nonzero_iff_witness :
    MacrosConventional cfg_example ∧ CalcDomain cfg_example 256 4 0 ∧
    CalcNoOverflow cfg_example 256 4 0 ∧
    gpu_calc_plot_current_point cfg_example ndrange_example = none ∧
    (∃ w, calc_wavefronts_per_work_group cfg_example 256 = some w ∧
      ((w ≠ 0 ∧ calc_registers_per_work_group cfg_example 256 4 w ≠ 0 ∧
          calc_local_mem_per_work_group cfg_example 0 ≠ 0) ↔
        ((1 : Int) ≤ 256 ∧ (1 : Int) ≤ 4 ∧ (1 : Int) ≤ 0)) ∧
      ((gpu_calc_get_work_groups_per_compute_unit cfg_example 256 4 0).isSome = true ↔
        ((1 : Int) ≤ 256 ∧ (1 : Int) ≤ 4 ∧ (1 : Int) ≤ 0)) ∧
      ((0 : Int) = 0 → calc_local_mem_per_work_group cfg_example 0 = 0) ∧
      ((4 : Int) = 0 → calc_registers_per_work_group cfg_example 256 4 w = 0) ∧
      (∀ ndrange : gpu_ndrange_t, ndrange.local_mem_top = 0 → ndrange.num_gpr_used = 4 →
        (0 : Int) = 0 ∨ (4 : Int) = 0 → gpu_calc_plot_point cfg_example ndrange 256 = none)) :=
  ⟨cfg_example_macros, cfg_example_domain 0 (by decide),
    cfg_example_no_overflow 0 (by decide), by decide,
    calc_divisors_nonzero_iff cfg_example cfg_example_macros 256 4 0
      (cfg_example_domain 0 (by decide)) (cfg_example_no_overflow 0 (by decide))⟩

end Multi2Sim
